import Mathlib

/-!
Shallow embedding of the Sudoku solver core (src/src/grid.c and
src/src/resolution.c of 5cover/Sudoku-Solver) and proofs about it.

The C program stores a grid as a matrix of cells (value, per-candidate boolean
array, cached candidate count) plus three availability tables indexed by
(group, value).  Here cells and tables are total functions; the flat C arrays
are addressed through their index pairs directly.  The cell type and position
type live in tCell.c / types.c, which are not part of the sources at hand;
they are reconstructed from the spec (section 4.1) and marked as such.
-/

set_option maxHeartbeats 1000000

namespace Sudoku

/-- Modelled from the spec: tPosition (types.c is not under src) — a cell
position given by row and column. -/
structure tPosition where
  row : Nat
  column : Nat
deriving DecidableEq

/-- Modelled from the spec: tCell (tCell.c is not under src) — current value
(0 = empty), candidate membership array indexed by value, and the cached
candidate count (section 4.1 and section 3 of the spec). -/
structure tCell where
  value : Nat
  hasCandidate : Nat → Bool
  candidateCount : Nat

/-- Modelled from the spec: cell_hasValue — the cell holds a value iff it is
nonzero. -/
def cell_hasValue (cell : tCell) : Bool :=
  cell.value != 0

/-- Modelled from the spec: cell_hasCandidate — candidate membership lookup. -/
def cell_hasCandidate (cell : tCell) (candidate : Nat) : Bool :=
  cell.hasCandidate candidate

/-- Modelled from the spec: cell_candidate_count — the cached candidate
count. -/
def cell_candidate_count (cell : tCell) : Nat :=
  cell.candidateCount

/-- The candidate values 1..S, in ascending order. -/
def valueRange (S : Nat) : List Nat :=
  List.range' 1 S

/-- Modelled from the spec: cell_get_first_candidate — smallest candidate of
the cell (defined only when at least one candidate is present; returns 0
otherwise). -/
def cell_firstCandidate (S : Nat) (cell : tCell) : Nat :=
  ((valueRange S).find? (fun v => cell.hasCandidate v)).getD 0

/-- Modelled from the spec: cell_candidateAt — k-th candidate of the cell,
1-indexed in ascending order. -/
def cell_candidateAt (S : Nat) (cell : tCell) (k : Nat) : Nat :=
  ((valueRange S).filter (fun v => cell.hasCandidate v)).getD (k - 1) 0

/-- The grid (tGrid): block side N, the cell matrix, and the three
availability tables _isRowFree, _isColumnFree, _isBlockFree of grid.c,
addressed by their index tuples. -/
@[ext]
structure tGrid where
  N : Nat
  cells : Nat → Nat → tCell
  isRowFree : Nat → Nat → Bool
  isColumnFree : Nat → Nat → Bool
  isBlockFree : Nat → Nat → Nat → Bool

/-- grid_size macro of grid.c: S equals N times N. -/
def grid_size (g : tGrid) : Nat :=
  g.N * g.N

/-- grid_blockIndex macro of grid.c: start index of the block containing the
given axis index. -/
def grid_blockIndex (g : tGrid) (index : Nat) : Nat :=
  index - index % g.N

/-- Writing one cell of the grid, leaving the tables alone. -/
def grid_setCell (g : tGrid) (row column : Nat) (cell : tCell) : tGrid :=
  { g with cells := fun r c => if r = row ∧ c = column then cell else g.cells r c }

/-- grid_markValueFree macro of grid.c: set the three availability entries of
(row, column, value) to the given flag. -/
def grid_markValueFree (isFree : Bool) (g : tGrid) (row column value : Nat) : tGrid :=
  { g with
    isColumnFree := fun c v => if c = column ∧ v = value then isFree else g.isColumnFree c v
    isRowFree := fun r v => if r = row ∧ v = value then isFree else g.isRowFree r v
    isBlockFree := fun br bc v =>
      if br = row / g.N ∧ bc = column / g.N ∧ v = value then isFree
      else g.isBlockFree br bc v }

/-- grid_possible macro of grid.c: the value is free in the column, the row
and the block of the position. -/
def grid_possible (g : tGrid) (row column value : Nat) : Bool :=
  g.isColumnFree column value && g.isRowFree row value &&
    g.isBlockFree (row / g.N) (column / g.N) value

/-- grid_cellPossibleValuesCount macro of grid.c: number of values 1..S that
grid_possible accepts at the position. -/
def grid_cellPossibleValuesCount (g : tGrid) (row column : Nat) : Nat :=
  (valueRange (grid_size g)).countP (fun v => grid_possible g row column v)

/-- grid_cell_removeCandidate of grid.c.  If the cell has exactly one
candidate left and it is the one to remove, commit it as the value; otherwise
drop the candidate if present.  Returns the updated grid and the progress
flag. -/
def grid_cell_removeCandidate (g : tGrid) (row column candidate : Nat) : tGrid × Bool :=
  if cell_candidate_count (g.cells row column) = 1 ∧
      cell_firstCandidate (grid_size g) (g.cells row column) = candidate then
    (grid_markValueFree false
      (grid_setCell g row column
        { g.cells row column with
          value := candidate
          hasCandidate := fun v => if v = candidate then false
            else (g.cells row column).hasCandidate v
          candidateCount := 0 })
      row column candidate, true)
  else
    if cell_hasCandidate (g.cells row column) candidate then
      (grid_setCell g row column
        { g.cells row column with
          hasCandidate := fun v => if v = candidate then false
            else (g.cells row column).hasCandidate v
          candidateCount := (g.cells row column).candidateCount - 1 }, true)
    else
      (g, false)

/-- grid_cell_provideValue of grid.c: set the value, clear all candidates and
the count, and mark the value as taken in the three groups. -/
def grid_cell_provideValue (g : tGrid) (row column value : Nat) : tGrid :=
  grid_markValueFree false
    (grid_setCell g row column
      { g.cells row column with
        value := value, hasCandidate := fun _ => false, candidateCount := 0 })
    row column value

/-- The progress-accumulating loop shape shared by the C helpers: run the step
on each element in order, threading the grid and or-ing the progress flags. -/
def progressFold {α : Type} (f : tGrid → α → tGrid × Bool) (g : tGrid) :
    List α → tGrid × Bool
  | [] => (g, false)
  | a :: l =>
    let r := f g a
    let rest := progressFold f r.1 l
    (rest.1, r.2 || rest.2)

/-- grid_removeCandidateFromRow of grid.c. -/
def grid_removeCandidateFromRow (g : tGrid) (row candidate : Nat) : tGrid × Bool :=
  progressFold (fun g0 c => grid_cell_removeCandidate g0 row c candidate) g
    (List.range (grid_size g))

/-- grid_removeCandidateFromColumn of grid.c. -/
def grid_removeCandidateFromColumn (g : tGrid) (column candidate : Nat) : tGrid × Bool :=
  progressFold (fun g0 r => grid_cell_removeCandidate g0 r column candidate) g
    (List.range (grid_size g))

/-- Row-major list of the positions of the rectangle with rows rStart..rEnd-1
and columns cStart..cEnd-1 (the search rectangles of resolution.c). -/
def rectPositions (rStart rEnd cStart cEnd : Nat) : List tPosition :=
  ((List.range' rStart (rEnd - rStart)).product (List.range' cStart (cEnd - cStart))).map
    (fun rc => tPosition.mk rc.1 rc.2)

/-- Row-major list of the positions of the block containing (row, column). -/
def blockPositions (g : tGrid) (row column : Nat) : List tPosition :=
  rectPositions (grid_blockIndex g row) (grid_blockIndex g row + g.N)
    (grid_blockIndex g column) (grid_blockIndex g column + g.N)

/-- grid_removeCandidateFromBlock of grid.c. -/
def grid_removeCandidateFromBlock (g : tGrid) (row column candidate : Nat) : tGrid × Bool :=
  progressFold (fun g0 p => grid_cell_removeCandidate g0 p.row p.column candidate) g
    (blockPositions g row column)

/-- Number of candidates of a cell counted over 1..S (the popcount of the
candidate bitset in the spec's words). -/
def cell_candidateListCount (S : Nat) (cell : tCell) : Nat :=
  ((valueRange S).filter (fun v => cell.hasCandidate v)).length

/-- Cell invariant of the spec (section 8): the cached count equals the
cardinality of the candidate set, and a valued cell has no candidates. -/
def cellInvariant (S : Nat) (cell : tCell) : Prop :=
  cell.candidateCount = cell_candidateListCount S cell ∧
    (cell.value ≠ 0 → ∀ v ∈ valueRange S, cell.hasCandidate v = false)

instance (S : Nat) (cell : tCell) : Decidable (cellInvariant S cell) := by
  unfold cellInvariant
  infer_instance

/-- Cell invariant at every in-range position of the grid. -/
def gridCellInvariant (g : tGrid) : Prop :=
  ∀ r < grid_size g, ∀ c < grid_size g, cellInvariant (grid_size g) (g.cells r c)

instance (g : tGrid) : Decidable (gridCellInvariant g) := by
  unfold gridCellInvariant
  infer_instance

/-- Effect of grid_cell_removeCandidate on the targeted cell, as a function of
that cell alone (the grid context only fixes S). -/
def removeCandidate_cellEffect (S candidate : Nat) (cell : tCell) : tCell :=
  if cell_candidate_count cell = 1 ∧ cell_firstCandidate S cell = candidate then
    { cell with
      value := candidate
      hasCandidate := fun v => if v = candidate then false else cell.hasCandidate v
      candidateCount := 0 }
  else
    if cell_hasCandidate cell candidate then
      { cell with
        hasCandidate := fun v => if v = candidate then false else cell.hasCandidate v
        candidateCount := cell.candidateCount - 1 }
    else
      cell

/-- Witness grid for claim C1: a 1-by-1 grid whose single empty cell has the
single candidate 1. -/
def wgC1 : tGrid :=
  { N := 1
    cells := fun _ _ => { value := 0, hasCandidate := fun w => w == 1, candidateCount := 1 }
    isRowFree := fun _ _ => true
    isColumnFree := fun _ _ => true
    isBlockFree := fun _ _ _ => true }

/-- Result of technique_hiddenSingleton_findUniqueCandidate.  The bug
constructor corresponds to the dbg_fail fallthrough after the second scan. -/
inductive FindUniqueResult where
  | notFound : FindUniqueResult
  | found : Nat → tPosition → FindUniqueResult
  | bug : FindUniqueResult
deriving DecidableEq

/-- Occurrence count of a candidate over a list of positions (the counting
pass of technique_hiddenSingleton_findUniqueCandidate). -/
def candidateCountsIn (g : tGrid) (ps : List tPosition) (candidate : Nat) : Nat :=
  ps.countP (fun p => cell_hasCandidate (g.cells p.row p.column) candidate)

/-- technique_hiddenSingleton_findUniqueCandidate of resolution.c: count the
occurrences of every candidate over the rectangle, scan 1..S for the first
candidate with count exactly one, then scan the rectangle in row-major order
for the first cell holding it. -/
def technique_hiddenSingleton_findUniqueCandidate (g : tGrid)
    (rStart rEnd cStart cEnd : Nat) : FindUniqueResult :=
  match (valueRange (grid_size g)).find?
      (fun candidate =>
        candidateCountsIn g (rectPositions rStart rEnd cStart cEnd) candidate == 1) with
  | none => FindUniqueResult.notFound
  | some candidate =>
    match (rectPositions rStart rEnd cStart cEnd).find?
        (fun p => cell_hasCandidate (g.cells p.row p.column) candidate) with
    | none => FindUniqueResult.bug
    | some p => FindUniqueResult.found candidate p

/-- Swap of two list entries (the in-place array swap of
technique_backtracking_swap_cells). -/
def listSwap {α : Type} (l : List α) (i j : Nat) : List α :=
  match l[i]?, l[j]? with
  | some a, some b => (l.set i b).set j a
  | _, _ => l

/-- technique_backtracking_swap_cells of resolution.c: swap the entry at
iHere with the entry after it having the fewest possible values (strictly
fewer wins, so the earliest minimum is kept). -/
def technique_backtracking_swap_cells (g : tGrid) (ps : List tPosition) (iHere : Nat) :
    List tPosition :=
  listSwap ps iHere
    ((List.range' (iHere + 1) (ps.length - (iHere + 1))).foldl
      (fun acc i =>
        if grid_cellPossibleValuesCount g (ps.getD i (tPosition.mk 0 0)).row
            (ps.getD i (tPosition.mk 0 0)).column < acc.2 then
          (i, grid_cellPossibleValuesCount g (ps.getD i (tPosition.mk 0 0)).row
            (ps.getD i (tPosition.mk 0 0)).column)
        else acc)
      (iHere, grid_cellPossibleValuesCount g (ps.getD iHere (tPosition.mk 0 0)).row
        (ps.getD iHere (tPosition.mk 0 0)).column)).1

/-- Writing only the value field of a cell (the success path of
technique_backtracking). -/
def grid_setCellValue (g : tGrid) (pos : tPosition) (value : Nat) : tGrid :=
  { g with cells := fun r c =>
      if r = pos.row ∧ c = pos.column then { g.cells r c with value := value }
      else g.cells r c }

/-- The value loop of technique_backtracking: try each remaining value at the
chosen position, tentatively marking it unavailable, recursing (through
recur), writing the value on success and undoing the mark on failure. -/
def technique_backtracking_try
    (recur : tGrid → List tPosition → tGrid × List tPosition × Bool)
    (pos : tPosition) : List Nat → tGrid → List tPosition →
      tGrid × List tPosition × Bool
  | [], g, ps => (g, ps, false)
  | v :: rest, g, ps =>
    if grid_possible g pos.row pos.column v then
      let r := recur (grid_markValueFree false g pos.row pos.column v) ps
      if r.2.2 then
        (grid_setCellValue r.1 pos v, r.2.1, true)
      else
        technique_backtracking_try recur pos rest
          (grid_markValueFree true r.1 pos.row pos.column v) r.2.1
    else
      technique_backtracking_try recur pos rest g ps

/-- technique_backtracking of resolution.c, with explicit fuel.  The fuel
only bounds the recursion depth; the top-level wrapper supplies exactly the
number of cells left, so the zero-fuel branch is never taken below the
i = length exit. -/
def technique_backtracking_go (fuel : Nat) (g : tGrid) (ps : List tPosition) (i : Nat) :
    tGrid × List tPosition × Bool :=
  if i = ps.length then (g, ps, true)
  else
    match fuel with
    | 0 => (g, ps, false)
    | fuel + 1 =>
      technique_backtracking_try
        (fun g2 ps2 => technique_backtracking_go fuel g2 ps2 (i + 1))
        ((technique_backtracking_swap_cells g ps i).getD i (tPosition.mk 0 0))
        (valueRange (grid_size g)) g (technique_backtracking_swap_cells g ps i)

/-- technique_backtracking of resolution.c. -/
def technique_backtracking (g : tGrid) (ps : List tPosition) (i : Nat) :
    tGrid × List tPosition × Bool :=
  technique_backtracking_go (ps.length - i) g ps i

/-- Witness grid for claim C5: one empty cell whose only value 1 is blocked
in its row, so the search fails. -/
def wgC5 : tGrid :=
  { N := 1
    cells := fun _ _ => { value := 0, hasCandidate := fun _ => false, candidateCount := 0 }
    isRowFree := fun _ _ => false
    isColumnFree := fun _ _ => true
    isBlockFree := fun _ _ _ => true }

/-- Equality of all candidate data (candidate sets and cached counts) between
two grids. -/
def cellCandidatesEq (g h : tGrid) : Prop :=
  ∀ r c, (h.cells r c).hasCandidate = (g.cells r c).hasCandidate ∧
    (h.cells r c).candidateCount = (g.cells r c).candidateCount

/-- Three progress-accumulating steps in sequence (the progress pattern of
technique_nakedSingleton and technique_hiddenSingleton). -/
def progressSeq (f1 f2 f3 : tGrid → tGrid × Bool) (g : tGrid) : tGrid × Bool :=
  let r1 := f1 g
  let r2 := f2 r1.1
  let r3 := f3 r2.1
  (r3.1, r1.2 || r2.2 || r3.2)

/-- technique_nakedSingleton of resolution.c: when the cell has exactly one
candidate, remove that candidate from its row, column and block (the removal
at the cell itself commits the value). -/
def technique_nakedSingleton (g : tGrid) (row column : Nat) : tGrid × Bool :=
  if cell_candidate_count (g.cells row column) = 1 then
    progressSeq
      (fun g0 => grid_removeCandidateFromRow g0 row
        (cell_firstCandidate (grid_size g) (g.cells row column)))
      (fun g0 => grid_removeCandidateFromColumn g0 column
        (cell_firstCandidate (grid_size g) (g.cells row column)))
      (fun g0 => grid_removeCandidateFromBlock g0 row column
        (cell_firstCandidate (grid_size g) (g.cells row column)))
      g
  else (g, false)

/-- Block case of technique_hiddenSingleton: commit the unique candidate of
the block rectangle and remove it from the row and column of its position. -/
def technique_hiddenSingleton_applyBlock (g : tGrid) (rStart rEnd cStart cEnd : Nat) :
    tGrid × Bool :=
  match technique_hiddenSingleton_findUniqueCandidate g rStart rEnd cStart cEnd with
  | FindUniqueResult.found candidate p =>
    ((grid_removeCandidateFromColumn
        (grid_removeCandidateFromRow (grid_cell_provideValue g p.row p.column candidate)
          p.row candidate).1 p.column candidate).1, true)
  | _ => (g, false)

/-- Row case of technique_hiddenSingleton: commit the unique candidate of the
row rectangle and remove it from the block and column of its position. -/
def technique_hiddenSingleton_applyRow (g : tGrid) (row S : Nat) : tGrid × Bool :=
  match technique_hiddenSingleton_findUniqueCandidate g row (row + 1) 0 S with
  | FindUniqueResult.found candidate p =>
    ((grid_removeCandidateFromColumn
        (grid_removeCandidateFromBlock (grid_cell_provideValue g p.row p.column candidate)
          p.row p.column candidate).1 p.column candidate).1, true)
  | _ => (g, false)

/-- Column case of technique_hiddenSingleton: commit the unique candidate of
the column rectangle and remove it from the block and row of its position. -/
def technique_hiddenSingleton_applyColumn (g : tGrid) (column S : Nat) : tGrid × Bool :=
  match technique_hiddenSingleton_findUniqueCandidate g 0 S column (column + 1) with
  | FindUniqueResult.found candidate p =>
    ((grid_removeCandidateFromRow
        (grid_removeCandidateFromBlock (grid_cell_provideValue g p.row p.column candidate)
          p.row p.column candidate).1 p.row candidate).1, true)
  | _ => (g, false)

/-- technique_hiddenSingleton of resolution.c: the block, row and column
cases in order, or-ing the progress flags. -/
def technique_hiddenSingleton (g : tGrid) (row column : Nat) : tGrid × Bool :=
  progressSeq
    (fun g0 => technique_hiddenSingleton_applyBlock g0 (grid_blockIndex g row)
      (grid_blockIndex g row + g.N) (grid_blockIndex g column)
      (grid_blockIndex g column + g.N))
    (fun g0 => technique_hiddenSingleton_applyRow g0 row (grid_size g))
    (fun g0 => technique_hiddenSingleton_applyColumn g0 column (grid_size g))
    g

/-- technique_nakedPair_isPairCell macro of resolution.c. -/
def technique_nakedPair_isPairCell (cell : tCell) (v1 v2 : Nat) : Bool :=
  cell_candidate_count cell == 2 && cell_hasCandidate cell v1 && cell_hasCandidate cell v2

/-- The partner scan of technique_nakedPair: starting from pair count one
(the target itself), add every other pair cell of the block, stopping as soon
as the count reaches two. -/
def technique_nakedPair_scanCount (g : tGrid) (target : tPosition) (v1 v2 : Nat)
    (ps : List tPosition) : Nat :=
  ps.foldl (fun cnt p =>
    if cnt < 2 then
      cnt + (if p ≠ target ∧
          technique_nakedPair_isPairCell (g.cells p.row p.column) v1 v2 = true
        then 1 else 0)
    else cnt) 1

/-- The per-cell elimination step of technique_nakedPair: skip pair cells,
remove both pair candidates from the others. -/
def technique_nakedPair_processCell (v1 v2 : Nat) (g : tGrid) (p : tPosition) :
    tGrid × Bool :=
  if technique_nakedPair_isPairCell (g.cells p.row p.column) v1 v2 = true then (g, false)
  else
    ((grid_cell_removeCandidate (grid_cell_removeCandidate g p.row p.column v1).1
        p.row p.column v2).1,
     (grid_cell_removeCandidate g p.row p.column v1).2 ||
       (grid_cell_removeCandidate (grid_cell_removeCandidate g p.row p.column v1).1
         p.row p.column v2).2)

/-- technique_nakedPair of resolution.c. -/
def technique_nakedPair (g : tGrid) (row column : Nat) : tGrid × Bool :=
  if cell_candidate_count (g.cells row column) = 2 then
    if technique_nakedPair_scanCount g (tPosition.mk row column)
        (cell_candidateAt (grid_size g) (g.cells row column) 1)
        (cell_candidateAt (grid_size g) (g.cells row column) 2)
        (blockPositions g row column) = 2 then
      progressFold
        (technique_nakedPair_processCell
          (cell_candidateAt (grid_size g) (g.cells row column) 1)
          (cell_candidateAt (grid_size g) (g.cells row column) 2))
        g (blockPositions g row column)
    else (g, false)
  else (g, false)

/-- The scan loop of technique_hiddenPair_findPairCells: walk the group,
skipping the target, counting cells holding both candidates (recording the
first such cell), counting those with further candidates, failing on a cell
holding exactly one of the two, and breaking once the pair count exceeds
PAIR_SIZE + 1. -/
def technique_hiddenPair_scan (g : tGrid) (v1 v2 : Nat) (target : tPosition) :
    List tPosition → Nat → Nat → Option tPosition →
      Option (Nat × Nat × Option tPosition)
  | [], n, m, q => some (n, m, q)
  | p :: rest, n, m, q =>
    if 2 + 1 < n then some (n, m, q)
    else if p = target then technique_hiddenPair_scan g v1 v2 target rest n m q
    else
      if cell_hasCandidate (g.cells p.row p.column) v1 = true ∧
          cell_hasCandidate (g.cells p.row p.column) v2 = true then
        technique_hiddenPair_scan g v1 v2 target rest (n + 1)
          (m + (if 2 < cell_candidate_count (g.cells p.row p.column) then 1 else 0))
          (if n < 2 then some p else q)
      else if cell_hasCandidate (g.cells p.row p.column) v1 = true ∨
          cell_hasCandidate (g.cells p.row p.column) v2 = true then
        none
      else technique_hiddenPair_scan g v1 v2 target rest n m q

/-- technique_hiddenPair_findPairCells of resolution.c: the scan succeeds
when exactly two cells (the target plus the recorded partner) hold the pair
and the partner count with further candidates is positive. -/
def technique_hiddenPair_findPairCells (g : tGrid) (v1 v2 : Nat) (target : tPosition)
    (ps : List tPosition) : Option tPosition :=
  match technique_hiddenPair_scan g v1 v2 target ps 1 0 none with
  | none => none
  | some (n, m, q) => if n = 2 ∧ 0 < m then q else none

/-- Ascending enumeration of the candidate pairs of a cell, mirroring the
nested candidate loops of technique_hiddenPair_findPair. -/
def candidatePairs (S : Nat) (cell : tCell) : List (Nat × Nat) :=
  (valueRange S).flatMap (fun v1 =>
    if cell.hasCandidate v1 = true then
      ((List.range' (v1 + 1) (S - v1)).filter (fun v2 => cell.hasCandidate v2)).map
        (fun v2 => (v1, v2))
    else [])

/-- technique_hiddenPair_findPair of resolution.c: first candidate pair of
the target for which the group scan succeeds, together with the partner. -/
def technique_hiddenPair_findPair (g : tGrid) (target : tPosition)
    (ps : List tPosition) : Option (Nat × Nat × tPosition) :=
  (candidatePairs (grid_size g) (g.cells target.row target.column)).findSome?
    (fun pr =>
      match technique_hiddenPair_findPairCells g pr.1 pr.2 target ps with
      | some partner => some (pr.1, pr.2, partner)
      | none => none)

/-- technique_hiddenPair_removePairCells of resolution.c: remove every
candidate but the pair from the two pair cells. -/
def technique_hiddenPair_removePairCells (g : tGrid) (p0 p1 : tPosition) (v1 v2 : Nat) :
    tGrid × Bool :=
  progressFold (fun g0 pc =>
    progressFold (fun g1 candidate =>
      if candidate ≠ v1 ∧ candidate ≠ v2 then
        grid_cell_removeCandidate g1 pc.row pc.column candidate
      else (g1, false)) g0 (valueRange (grid_size g))) g [p0, p1]

/-- One group case of technique_hiddenPair: guarded by the target having at
least two candidates, find a hidden pair in the group and eliminate around
it. -/
def technique_hiddenPair_group (g : tGrid) (row column : Nat) (ps : List tPosition) :
    tGrid × Bool :=
  if 2 ≤ cell_candidate_count (g.cells row column) then
    match technique_hiddenPair_findPair g (tPosition.mk row column) ps with
    | some (v1, v2, partner) =>
      technique_hiddenPair_removePairCells g (tPosition.mk row column) partner v1 v2
    | none => (g, false)
  else (g, false)

/-- technique_hiddenPair of resolution.c: the block, row and column group
cases in order. -/
def technique_hiddenPair (g : tGrid) (row column : Nat) : tGrid × Bool :=
  progressSeq
    (fun g0 => technique_hiddenPair_group g0 row column (blockPositions g row column))
    (fun g0 => technique_hiddenPair_group g0 row column
      (rectPositions row (row + 1) 0 (grid_size g)))
    (fun g0 => technique_hiddenPair_group g0 row column
      (rectPositions 0 (grid_size g) column (column + 1)))
    g

/-- The per-cell body of perform_simpleTechniques: skip valued cells, then
run the four techniques in order, stopping as soon as the cell acquires a
value. -/
def perform_simpleTechniques_cellStep (g : tGrid) (p : tPosition) : tGrid × Bool :=
  if cell_hasValue (g.cells p.row p.column) = true then (g, false)
  else
    let r1 := technique_nakedSingleton g p.row p.column
    if cell_hasValue (r1.1.cells p.row p.column) = true then r1
    else
      let r2 := technique_hiddenSingleton r1.1 p.row p.column
      if cell_hasValue (r2.1.cells p.row p.column) = true then (r2.1, r1.2 || r2.2)
      else
        let r3 := technique_nakedPair r2.1 p.row p.column
        if cell_hasValue (r3.1.cells p.row p.column) = true then
          (r3.1, r1.2 || r2.2 || r3.2)
        else
          let r4 := technique_hiddenPair r3.1 p.row p.column
          (r4.1, r1.2 || r2.2 || r3.2 || r4.2)

/-- perform_simpleTechniques of resolution.c: the per-cell body over every
cell in row-major order. -/
def perform_simpleTechniques (g : tGrid) : tGrid × Bool :=
  progressFold perform_simpleTechniques_cellStep g
    (rectPositions 0 (grid_size g) 0 (grid_size g))

/-- Witness grid for claim C7: a solved 1-by-1 grid; the pass skips the
valued cell and reports no progress. -/
def wgC7 : tGrid :=
  { N := 1
    cells := fun _ _ => { value := 1, hasCandidate := fun _ => false, candidateCount := 0 }
    isRowFree := fun _ _ => false
    isColumnFree := fun _ _ => false
    isBlockFree := fun _ _ _ => false }

/-- Effect of the naked pair elimination step on a single cell. -/
def nakedPair_cellEffect (S v1 v2 : Nat) (cell : tCell) : tCell :=
  if technique_nakedPair_isPairCell cell v1 v2 = true then cell
  else removeCandidate_cellEffect S v2 (removeCandidate_cellEffect S v1 cell)

/-- Witness grid for claim C2: in the top-left block of a 4-by-4 grid the
target (0,0) and partner (0,1) hold exactly the pair 1,2 while (1,0) holds
1 and 3. -/
def wgC2 : tGrid :=
  { N := 2
    cells := fun r c =>
      if r = 0 ∧ c = 0 then
        { value := 0, hasCandidate := fun w => w == 1 || w == 2, candidateCount := 2 }
      else if r = 0 ∧ c = 1 then
        { value := 0, hasCandidate := fun w => w == 1 || w == 2, candidateCount := 2 }
      else if r = 1 ∧ c = 0 then
        { value := 0, hasCandidate := fun w => w == 1 || w == 3, candidateCount := 2 }
      else
        { value := 0, hasCandidate := fun _ => false, candidateCount := 0 }
    isRowFree := fun _ _ => true
    isColumnFree := fun _ _ => true
    isBlockFree := fun _ _ _ => true }

/-- Effect on a cell of removing a list of candidates in order. -/
def removeListEffect (S : Nat) (vs : List Nat) (cell : tCell) : tCell :=
  vs.foldl (fun cl v => removeCandidate_cellEffect S v cl) cell

/-- Counterexample grid for claim C3 as stated: in the top-left block the
target (0,0) holds 1, 2 and the extra candidate 3, the partner (0,1) holds
exactly 1 and 2, and no other cell holds 1 or 2. -/
def cxC3 : tGrid :=
  { N := 2
    cells := fun r c =>
      if r = 0 ∧ c = 0 then
        { value := 0, hasCandidate := fun w => w == 1 || w == 2 || w == 3,
          candidateCount := 3 }
      else if r = 0 ∧ c = 1 then
        { value := 0, hasCandidate := fun w => w == 1 || w == 2, candidateCount := 2 }
      else
        { value := 0, hasCandidate := fun _ => false, candidateCount := 0 }
    isRowFree := fun _ _ => true
    isColumnFree := fun _ _ => true
    isBlockFree := fun _ _ _ => true }

/-- Witness grid for the amended claim C3: target (0,0) holds exactly 1 and
2, the partner (0,1) holds 1, 2 and the extra candidate 3. -/
def wgC3 : tGrid :=
  { N := 2
    cells := fun r c =>
      if r = 0 ∧ c = 0 then
        { value := 0, hasCandidate := fun w => w == 1 || w == 2, candidateCount := 2 }
      else if r = 0 ∧ c = 1 then
        { value := 0, hasCandidate := fun w => w == 1 || w == 2 || w == 3,
          candidateCount := 3 }
      else
        { value := 0, hasCandidate := fun _ => false, candidateCount := 0 }
    isRowFree := fun _ _ => true
    isColumnFree := fun _ _ => true
    isBlockFree := fun _ _ _ => true }

/-- Rows of a column where the value is a candidate (the per-column counting
of the vertical X-wing pass). -/
def x_wing_colRows (g : tGrid) (c v : Nat) : List Nat :=
  (List.range (grid_size g)).filter (fun r => cell_hasCandidate (g.cells r c) v)

/-- Columns of a row where the value is a candidate (the per-row counting of
the horizontal X-wing pass). -/
def x_wing_rowCols (g : tGrid) (r v : Nat) : List Nat :=
  (List.range (grid_size g)).filter (fun c => cell_hasCandidate (g.cells r c) v)

/-- Rows where the value is a candidate in both columns. -/
def x_wing_bothRows (g : tGrid) (c1 c2 v : Nat) : List Nat :=
  (List.range (grid_size g)).filter (fun r =>
    cell_hasCandidate (g.cells r c1) v && cell_hasCandidate (g.cells r c2) v)

/-- Columns where the value is a candidate in both rows. -/
def x_wing_bothCols (g : tGrid) (r1 r2 v : Nat) : List Nat :=
  (List.range (grid_size g)).filter (fun c =>
    cell_hasCandidate (g.cells r1 c) v && cell_hasCandidate (g.cells r2 c) v)

/-- Firing condition of one vertical X-wing iteration on the column pair and
candidate (candidateInBothCount and the two per-column counts all equal
two). -/
def x_wing_vcond (g : tGrid) (t : Nat × Nat × Nat) : Bool :=
  (x_wing_bothRows g t.1 t.2.1 t.2.2).length == 2 &&
    (x_wing_colRows g t.1 t.2.2).length == 2 &&
    (x_wing_colRows g t.2.1 t.2.2).length == 2

/-- Firing condition of one horizontal X-wing iteration. -/
def x_wing_hcond (g : tGrid) (t : Nat × Nat × Nat) : Bool :=
  (x_wing_bothCols g t.1 t.2.1 t.2.2).length == 2 &&
    (x_wing_rowCols g t.1 t.2.2).length == 2 &&
    (x_wing_rowCols g t.2.1 t.2.2).length == 2

/-- The elimination positions of one vertical firing: both marked rows of
each column in order. -/
def x_wing_vPositions (S r1 r2 : Nat) : List tPosition :=
  (List.range S).flatMap (fun c => [tPosition.mk r1 c, tPosition.mk r2 c])

/-- The elimination positions of one horizontal firing: both marked columns
of each row in order. -/
def x_wing_hPositions (S c1 c2 : Nat) : List tPosition :=
  (List.range S).flatMap (fun r => [tPosition.mk r c1, tPosition.mk r c2])

/-- One iteration of the vertical X-wing triple loop of technique_x_wing. -/
def technique_x_wing_vstep (g : tGrid) (t : Nat × Nat × Nat) : tGrid × Bool :=
  if x_wing_vcond g t = true then
    progressFold (fun g0 p =>
      if p.column ≠ t.1 ∧ p.column ≠ t.2.1 then
        grid_cell_removeCandidate g0 p.row p.column t.2.2
      else (g0, false)) g
      (x_wing_vPositions (grid_size g) ((x_wing_bothRows g t.1 t.2.1 t.2.2).getD 0 0)
        ((x_wing_bothRows g t.1 t.2.1 t.2.2).getD 1 0))
  else (g, false)

/-- One iteration of the horizontal X-wing triple loop of technique_x_wing. -/
def technique_x_wing_hstep (g : tGrid) (t : Nat × Nat × Nat) : tGrid × Bool :=
  if x_wing_hcond g t = true then
    progressFold (fun g0 p =>
      if p.row ≠ t.1 ∧ p.row ≠ t.2.1 then
        grid_cell_removeCandidate g0 p.row p.column t.2.2
      else (g0, false)) g
      (x_wing_hPositions (grid_size g) ((x_wing_bothCols g t.1 t.2.1 t.2.2).getD 0 0)
        ((x_wing_bothCols g t.1 t.2.1 t.2.2).getD 1 0))
  else (g, false)

/-- Enumeration order of the X-wing triple loops: first index, strictly
larger second index, candidate 1..S. -/
def x_wing_triples (S : Nat) : List (Nat × Nat × Nat) :=
  (List.range S).flatMap (fun a =>
    (List.range' (a + 1) (S - (a + 1))).flatMap (fun b =>
      (valueRange S).map (fun v => (a, b, v))))

/-- technique_x_wing of resolution.c: the vertical pass over all column pairs
and candidates, then the horizontal pass over all row pairs and candidates. -/
def technique_x_wing (g : tGrid) : tGrid × Bool :=
  ((progressFold technique_x_wing_hstep
      (progressFold technique_x_wing_vstep g (x_wing_triples (grid_size g))).1
      (x_wing_triples (grid_size g))).1,
    (progressFold technique_x_wing_vstep g (x_wing_triples (grid_size g))).2 ||
      (progressFold technique_x_wing_hstep
        (progressFold technique_x_wing_vstep g (x_wing_triples (grid_size g))).1
        (x_wing_triples (grid_size g))).2)

def wgC4 : tGrid :=
  { N := 2
    cells := fun r c =>
      if (r = 0 ∨ r = 2) ∧ (c = 0 ∨ c = 2) then
        { value := 0, hasCandidate := fun w => w == 1, candidateCount := 1 }
      else if r = 0 ∧ (c = 1 ∨ c = 3) then
        { value := 0, hasCandidate := fun w => w == 1 || w == 2, candidateCount := 2 }
      else
        { value := 0, hasCandidate := fun _ => false, candidateCount := 0 }
    isRowFree := fun _ _ => true
    isColumnFree := fun _ _ => true
    isBlockFree := fun _ _ _ => true }

def wgC4h : tGrid :=
  { N := 2
    cells := fun r c =>
      if (r = 0 ∨ r = 2) ∧ (c = 0 ∨ c = 2) then
        { value := 0, hasCandidate := fun w => w == 1, candidateCount := 1 }
      else if (r = 1 ∨ r = 3) ∧ c = 0 then
        { value := 0, hasCandidate := fun w => w == 1 || w == 2, candidateCount := 2 }
      else
        { value := 0, hasCandidate := fun _ => false, candidateCount := 0 }
    isRowFree := fun _ _ => true
    isColumnFree := fun _ _ => true
    isBlockFree := fun _ _ _ => true }

/-- Row-major list of the (row, column) index pairs of an S by S matrix. -/
def rowMajor (S : Nat) : List (Nat × Nat) :=
  (List.range S).product (List.range S)

/-- The grid state after the allocations of grid_load: every cell zeroed
(calloc), every availability entry true (memset). -/
def grid_load_base (N : Nat) : tGrid :=
  { N := N
    cells := fun _ _ => { value := 0, hasCandidate := fun _ => false, candidateCount := 0 }
    isRowFree := fun _ _ => true
    isColumnFree := fun _ _ => true
    isBlockFree := fun _ _ _ => true }

/-- One iteration of the first grid_load loop: read the stream value of the
position; zero leaves the cell empty, a value above S aborts with
ERROR_INVALID_DATA, otherwise it is written to the cell and marked taken. -/
def grid_load_initCell (values : List Nat) (g : tGrid) (p : Nat × Nat) : Option tGrid :=
  if values.getD (p.1 * grid_size g + p.2) 0 ≠ 0 then
    if grid_size g < values.getD (p.1 * grid_size g + p.2) 0 then none
    else some (grid_markValueFree false
      (grid_setCell g p.1 p.2
        { g.cells p.1 p.2 with value := values.getD (p.1 * grid_size g + p.2) 0 })
      p.1 p.2 (values.getD (p.1 * grid_size g + p.2) 0))
  else some g

/-- The first grid_load loop over a list of positions, aborting on invalid
data. -/
def grid_load_cellsInit (values : List Nat) : tGrid → List (Nat × Nat) → Option tGrid
  | g, [] => some g
  | g, p :: l =>
    match grid_load_initCell values g p with
    | none => none
    | some g1 => grid_load_cellsInit values g1 l

/-- One iteration of the second grid_load loop: an empty cell receives as
candidates exactly the values grid_possible accepts, and its count is bumped
by the number of them. -/
def grid_load_computeCandidates (g : tGrid) (p : Nat × Nat) : tGrid :=
  if cell_hasValue (g.cells p.1 p.2) = true then g
  else
    grid_setCell g p.1 p.2
      { g.cells p.1 p.2 with
        hasCandidate := fun v =>
          if 1 ≤ v ∧ v ≤ grid_size g then grid_possible g p.1 p.2 v
          else (g.cells p.1 p.2).hasCandidate v
        candidateCount := (g.cells p.1 p.2).candidateCount +
          grid_cellPossibleValuesCount g p.1 p.2 }

/-- grid_load of grid.c: check the stream holds S*S values, write them into
the zeroed grid marking taken values, then compute the candidates of the
empty cells; none models the ERROR_INVALID_DATA returns. -/
def grid_load (N : Nat) (values : List Nat) : Option tGrid :=
  if values.length ≠ N * N * (N * N) then none
  else
    match grid_load_cellsInit values (grid_load_base N) (rowMajor (N * N)) with
    | none => none
    | some g1 => some ((rowMajor (N * N)).foldl grid_load_computeCandidates g1)

@[simp]
theorem grid_setCell_N (g : tGrid) (row column : Nat) (cell : tCell) :
    (grid_setCell g row column cell).N = g.N := rfl

@[simp]
theorem grid_setCell_isRowFree (g : tGrid) (row column : Nat) (cell : tCell) :
    (grid_setCell g row column cell).isRowFree = g.isRowFree := rfl

@[simp]
theorem grid_setCell_isColumnFree (g : tGrid) (row column : Nat) (cell : tCell) :
    (grid_setCell g row column cell).isColumnFree = g.isColumnFree := rfl

@[simp]
theorem grid_setCell_isBlockFree (g : tGrid) (row column : Nat) (cell : tCell) :
    (grid_setCell g row column cell).isBlockFree = g.isBlockFree := rfl

theorem grid_setCell_cells_self (g : tGrid) (row column : Nat) (cell : tCell) :
    (grid_setCell g row column cell).cells row column = cell := by
  simp [grid_setCell]

theorem grid_setCell_cells_other (g : tGrid) (row column : Nat) (cell : tCell)
    (r c : Nat) (h : ¬(r = row ∧ c = column)) :
    (grid_setCell g row column cell).cells r c = g.cells r c := by
  simp [grid_setCell, h]

@[simp]
theorem grid_markValueFree_N (isFree : Bool) (g : tGrid) (row column value : Nat) :
    (grid_markValueFree isFree g row column value).N = g.N := rfl

@[simp]
theorem grid_markValueFree_cells (isFree : Bool) (g : tGrid) (row column value : Nat) :
    (grid_markValueFree isFree g row column value).cells = g.cells := rfl

@[simp]
theorem grid_size_setCell (g : tGrid) (row column : Nat) (cell : tCell) :
    grid_size (grid_setCell g row column cell) = grid_size g := rfl

@[simp]
theorem grid_size_markValueFree (isFree : Bool) (g : tGrid) (row column value : Nat) :
    grid_size (grid_markValueFree isFree g row column value) = grid_size g := rfl

theorem grid_markValueFree_isRowFree_self (isFree : Bool) (g : tGrid)
    (row column value : Nat) :
    (grid_markValueFree isFree g row column value).isRowFree row value = isFree := by
  simp [grid_markValueFree]

theorem grid_markValueFree_isColumnFree_self (isFree : Bool) (g : tGrid)
    (row column value : Nat) :
    (grid_markValueFree isFree g row column value).isColumnFree column value = isFree := by
  simp [grid_markValueFree]

theorem grid_markValueFree_isBlockFree_self (isFree : Bool) (g : tGrid)
    (row column value : Nat) :
    (grid_markValueFree isFree g row column value).isBlockFree (row / g.N) (column / g.N)
      value = isFree := by
  simp [grid_markValueFree]

theorem find?_eq_head?_filter {α : Type} (p : α → Bool) (l : List α) :
    l.find? p = (l.filter p).head? := by
  induction l with
  | nil => rfl
  | cons a l ih =>
    by_cases h : p a
    · rw [List.find?_cons_of_pos _ h, List.filter_cons_of_pos h]
      rfl
    · rw [List.find?_cons_of_neg _ h, List.filter_cons_of_neg h, ih]

theorem filter_eq_singleton_of_length_one_of_mem {α : Type} {p : α → Bool} {l : List α}
    {v : α} (hlen : (l.filter p).length = 1) (hv : p v = true) (hmem : v ∈ l) :
    l.filter p = [v] := by
  have hvmem : v ∈ l.filter p := List.mem_filter.mpr ⟨hmem, hv⟩
  match hfl : l.filter p with
  | [] => rw [hfl] at hvmem; cases hvmem
  | [x] =>
    rw [hfl] at hvmem
    simp at hvmem
    rw [hvmem]
  | x :: y :: rest => rw [hfl] at hlen; simp at hlen

theorem mem_valueRange_iff {S v : Nat} : v ∈ valueRange S ↔ 1 ≤ v ∧ v ≤ S := by
  unfold valueRange
  rw [List.mem_range'_1]
  omega

/-- The candidate set of a cell determined by the candidate-list filter. -/
theorem cell_firstCandidate_of_filter {S : Nat} {cell : tCell} {v : Nat}
    (h : (valueRange S).filter (fun w => cell.hasCandidate w) = [v]) :
    cell_firstCandidate S cell = v := by
  unfold cell_firstCandidate
  rw [find?_eq_head?_filter, h]
  rfl

theorem hasCandidate_eq_false_of_filter_singleton {S : Nat} {cell : tCell} {v w : Nat}
    (h : (valueRange S).filter (fun x => cell.hasCandidate x) = [v])
    (hw : w ∈ valueRange S) (hne : w ≠ v) : cell.hasCandidate w = false := by
  by_contra hc
  have : w ∈ (valueRange S).filter (fun x => cell.hasCandidate x) :=
    List.mem_filter.mpr ⟨hw, by simpa using hc⟩
  rw [h] at this
  simp at this
  exact hne this

/-- When the candidate-list count is one and v is a candidate, the filter list
is exactly the singleton v. -/
theorem filter_candidates_eq_singleton {S : Nat} {cell : tCell} {v : Nat}
    (hcount : cell_candidateListCount S cell = 1)
    (hv : cell.hasCandidate v = true) (hv1 : 1 ≤ v) (hv2 : v ≤ S) :
    (valueRange S).filter (fun w => cell.hasCandidate w) = [v] :=
  filter_eq_singleton_of_length_one_of_mem hcount hv (mem_valueRange_iff.mpr ⟨hv1, hv2⟩)

theorem grid_cell_removeCandidate_N (g : tGrid) (row column candidate : Nat) :
    (grid_cell_removeCandidate g row column candidate).1.N = g.N := by
  unfold grid_cell_removeCandidate
  split
  · rfl
  · split <;> rfl

theorem grid_cell_removeCandidate_cells (g : tGrid) (row column candidate : Nat) :
    (grid_cell_removeCandidate g row column candidate).1.cells = fun a b =>
      if a = row ∧ b = column then
        removeCandidate_cellEffect (grid_size g) candidate (g.cells row column)
      else g.cells a b := by
  unfold grid_cell_removeCandidate removeCandidate_cellEffect
  split
  · rw [grid_markValueFree_cells]
    rfl
  · split
    · rfl
    · funext a b
      split
      · next h => rw [h.1, h.2]
      · rfl

theorem grid_cell_removeCandidate_cells_other (g : tGrid) (row column candidate : Nat)
    (a b : Nat) (h : ¬(a = row ∧ b = column)) :
    (grid_cell_removeCandidate g row column candidate).1.cells a b = g.cells a b := by
  rw [grid_cell_removeCandidate_cells]
  simp only [h, if_false]

theorem grid_cell_removeCandidate_cells_self (g : tGrid) (row column candidate : Nat) :
    (grid_cell_removeCandidate g row column candidate).1.cells row column =
      removeCandidate_cellEffect (grid_size g) candidate (g.cells row column) := by
  rw [grid_cell_removeCandidate_cells]
  simp

/-- The progress flag of a candidate removal is exactly candidate membership
in the cell (for a candidate in 1..S). -/
theorem grid_cell_removeCandidate_snd (g : tGrid) (row column candidate : Nat)
    (hc : 1 ≤ candidate) :
    (grid_cell_removeCandidate g row column candidate).2 =
      cell_hasCandidate (g.cells row column) candidate := by
  unfold grid_cell_removeCandidate
  split
  · next h =>
    rcases h with ⟨-, hfirst⟩
    unfold cell_firstCandidate at hfirst
    match hf : (valueRange (grid_size g)).find? (fun v => (g.cells row column).hasCandidate v) with
    | none => rw [hf] at hfirst; simp at hfirst; omega
    | some u =>
      rw [hf] at hfirst
      simp at hfirst
      have hu := List.find?_some hf
      rw [hfirst] at hu
      simp [cell_hasCandidate]
      exact hu
  · split
    · next h => simp [h]
    · next h => simp; simpa using h

/-- If a removal makes no progress, the grid is untouched. -/
theorem grid_cell_removeCandidate_no_progress (g : tGrid) (row column candidate : Nat)
    (h : (grid_cell_removeCandidate g row column candidate).2 = false) :
    (grid_cell_removeCandidate g row column candidate).1 = g := by
  unfold grid_cell_removeCandidate at h ⊢
  by_cases h1 : cell_candidate_count (g.cells row column) = 1 ∧
      cell_firstCandidate (grid_size g) (g.cells row column) = candidate
  · rw [if_pos h1] at h
    simp at h
  · rw [if_neg h1] at h ⊢
    by_cases h2 : cell_hasCandidate (g.cells row column) candidate = true
    · rw [if_pos h2] at h
      simp at h
    · rw [if_neg h2]

/-- A removal always clears the removed candidate entry of the cell. -/
theorem removeCandidate_cellEffect_clears (S candidate : Nat) (cell : tCell) :
    (removeCandidate_cellEffect S candidate cell).hasCandidate candidate = false := by
  unfold removeCandidate_cellEffect
  split
  · simp
  · split
    · simp
    · next h1 h2 => simpa [cell_hasCandidate] using h2

/-- A removal leaves every other candidate entry of the cell alone. -/
theorem removeCandidate_cellEffect_other (S candidate : Nat) (cell : tCell)
    (w : Nat) (hw : w ≠ candidate) :
    (removeCandidate_cellEffect S candidate cell).hasCandidate w = cell.hasCandidate w := by
  unfold removeCandidate_cellEffect
  split
  · simp [hw]
  · split
    · simp [hw]
    · rfl

theorem listCount_pos_of_hasCandidate {S : Nat} {cell : tCell} {v : Nat}
    (hv1 : 1 ≤ v) (hv2 : v ≤ S) (h : cell.hasCandidate v = true) :
    1 ≤ cell_candidateListCount S cell := by
  have hmem : v ∈ (valueRange S).filter (fun w => cell.hasCandidate w) :=
    List.mem_filter.mpr ⟨mem_valueRange_iff.mpr ⟨hv1, hv2⟩, h⟩
  have := List.length_pos.mpr (List.ne_nil_of_mem hmem)
  unfold cell_candidateListCount
  omega

/-- Claim C1: for a candidate v in 1..S and a cell satisfying the cell
invariant, grid_cell_removeCandidate behaves in exactly three cases.  If the
cell lacks v, it returns false and leaves the grid unchanged.  If v is the
only remaining candidate, it commits v as the value, clears the candidate
set, zeroes the count, marks v unavailable in the row, column and block, and
returns true.  Otherwise it drops v, decrements the count by one, keeps the
value and all other cells and tables, and returns true. -/
theorem removeCandidate_trichotomy (g : tGrid) (row column v : Nat)
    (hv1 : 1 ≤ v) (hv2 : v ≤ grid_size g)
    (hinv : cellInvariant (grid_size g) (g.cells row column)) :
    (cell_hasCandidate (g.cells row column) v = false →
      grid_cell_removeCandidate g row column v = (g, false)) ∧
    (cell_hasCandidate (g.cells row column) v = true →
      cell_candidateListCount (grid_size g) (g.cells row column) = 1 →
      (grid_cell_removeCandidate g row column v).2 = true ∧
      ((grid_cell_removeCandidate g row column v).1.cells row column).value = v ∧
      (∀ w ∈ valueRange (grid_size g),
        ((grid_cell_removeCandidate g row column v).1.cells row column).hasCandidate w
          = false) ∧
      ((grid_cell_removeCandidate g row column v).1.cells row column).candidateCount = 0 ∧
      (grid_cell_removeCandidate g row column v).1.isRowFree row v = false ∧
      (grid_cell_removeCandidate g row column v).1.isColumnFree column v = false ∧
      (grid_cell_removeCandidate g row column v).1.isBlockFree (row / g.N) (column / g.N) v
        = false) ∧
    (cell_hasCandidate (g.cells row column) v = true →
      cell_candidateListCount (grid_size g) (g.cells row column) ≠ 1 →
      (grid_cell_removeCandidate g row column v).2 = true ∧
      ((grid_cell_removeCandidate g row column v).1.cells row column).hasCandidate v
        = false ∧
      (∀ w, w ≠ v →
        ((grid_cell_removeCandidate g row column v).1.cells row column).hasCandidate w =
          (g.cells row column).hasCandidate w) ∧
      ((grid_cell_removeCandidate g row column v).1.cells row column).candidateCount + 1 =
        (g.cells row column).candidateCount ∧
      ((grid_cell_removeCandidate g row column v).1.cells row column).value =
        (g.cells row column).value ∧
      (∀ r2 c2, ¬(r2 = row ∧ c2 = column) →
        (grid_cell_removeCandidate g row column v).1.cells r2 c2 = g.cells r2 c2) ∧
      (grid_cell_removeCandidate g row column v).1.isRowFree = g.isRowFree ∧
      (grid_cell_removeCandidate g row column v).1.isColumnFree = g.isColumnFree ∧
      (grid_cell_removeCandidate g row column v).1.isBlockFree = g.isBlockFree) := by
  obtain ⟨hcc, hval⟩ := hinv
  refine ⟨?_, ?_, ?_⟩
  · intro hfalse
    have hcond : ¬(cell_candidate_count (g.cells row column) = 1 ∧
        cell_firstCandidate (grid_size g) (g.cells row column) = v) := by
      rintro ⟨h1, h2⟩
      rw [cell_candidate_count, hcc] at h1
      obtain ⟨u, hu⟩ := List.length_eq_one.mp h1
      have hfc := cell_firstCandidate_of_filter hu
      have hpu : (g.cells row column).hasCandidate u = true := by
        have : u ∈ (valueRange (grid_size g)).filter
            (fun w => (g.cells row column).hasCandidate w) := by
          rw [hu]; simp
        simpa using (List.mem_filter.mp this).2
      rw [h2] at hfc
      rw [← hfc] at hpu
      rw [cell_hasCandidate] at hfalse
      rw [hfalse] at hpu
      cases hpu
    unfold grid_cell_removeCandidate
    rw [if_neg hcond, if_neg (by simp [hfalse])]
  · intro htrue hcount1
    have hfilter : (valueRange (grid_size g)).filter
        (fun w => (g.cells row column).hasCandidate w) = [v] :=
      filter_candidates_eq_singleton hcount1 (by simpa [cell_hasCandidate] using htrue) hv1 hv2
    have hcond : cell_candidate_count (g.cells row column) = 1 ∧
        cell_firstCandidate (grid_size g) (g.cells row column) = v := by
      constructor
      · rw [cell_candidate_count, hcc, hcount1]
      · exact cell_firstCandidate_of_filter hfilter
    unfold grid_cell_removeCandidate
    rw [if_pos hcond]
    refine ⟨rfl, ?_, ?_, ?_, ?_, ?_, ?_⟩
    · simp [grid_setCell, grid_markValueFree]
    · intro w hw
      simp only [grid_markValueFree_cells, grid_setCell_cells_self]
      by_cases hwv : w = v
      · simp [hwv]
      · simp only [hwv, if_false]
        exact hasCandidate_eq_false_of_filter_singleton hfilter hw hwv
    · simp [grid_setCell, grid_markValueFree]
    · simp [grid_setCell, grid_markValueFree]
    · simp [grid_setCell, grid_markValueFree]
    · simp [grid_setCell, grid_markValueFree]
  · intro htrue hcount_ne
    have hcond : ¬(cell_candidate_count (g.cells row column) = 1 ∧
        cell_firstCandidate (grid_size g) (g.cells row column) = v) := by
      rintro ⟨h1, -⟩
      rw [cell_candidate_count, hcc] at h1
      exact hcount_ne h1
    unfold grid_cell_removeCandidate
    rw [if_neg hcond, if_pos (by simpa [cell_hasCandidate] using htrue)]
    have hpos : 1 ≤ cell_candidateListCount (grid_size g) (g.cells row column) :=
      listCount_pos_of_hasCandidate hv1 hv2 (by simpa [cell_hasCandidate] using htrue)
    refine ⟨rfl, ?_, ?_, ?_, ?_, ?_, rfl, rfl, rfl⟩
    · simp [grid_setCell]
    · intro w hwv
      simp [grid_setCell, hwv]
    · rw [grid_setCell_cells_self]
      simp only []
      omega
    · simp [grid_setCell]
    · intro r2 c2 h2
      exact grid_setCell_cells_other g row column _ r2 c2 h2

theorem removeCandidate_trichotomy_witness :
    (grid_cell_removeCandidate wgC1 0 0 1).2 = true ∧
    ((grid_cell_removeCandidate wgC1 0 0 1).1.cells 0 0).value = 1 :=
  have h := (removeCandidate_trichotomy wgC1 0 0 1 (by decide) (by decide)
    (by decide)).2.1 (by decide) (by decide)
  ⟨h.1, h.2.1⟩

theorem grid_size_removeCandidate (g : tGrid) (row column candidate : Nat) :
    grid_size (grid_cell_removeCandidate g row column candidate).1 = grid_size g := by
  unfold grid_size
  rw [grid_cell_removeCandidate_N]

theorem grid_cell_provideValue_N (g : tGrid) (row column value : Nat) :
    (grid_cell_provideValue g row column value).N = g.N := rfl

theorem grid_size_provideValue (g : tGrid) (row column value : Nat) :
    grid_size (grid_cell_provideValue g row column value) = grid_size g := rfl

theorem grid_cell_provideValue_cells_self (g : tGrid) (row column value : Nat) :
    (grid_cell_provideValue g row column value).cells row column =
      { g.cells row column with
        value := value, hasCandidate := fun _ => false, candidateCount := 0 } := by
  unfold grid_cell_provideValue
  rw [grid_markValueFree_cells, grid_setCell_cells_self]

theorem grid_cell_provideValue_cells_other (g : tGrid) (row column value : Nat)
    (r c : Nat) (h : ¬(r = row ∧ c = column)) :
    (grid_cell_provideValue g row column value).cells r c = g.cells r c := by
  unfold grid_cell_provideValue
  rw [grid_markValueFree_cells]
  exact grid_setCell_cells_other g row column _ r c h

theorem length_filter_update_false {l : List Nat} (hnd : l.Nodup) {p : Nat → Bool} {v : Nat}
    (hv : v ∈ l) (hpv : p v = true) :
    (l.filter (fun w => if w = v then false else p w)).length + 1 = (l.filter p).length := by
  induction l with
  | nil => cases hv
  | cons a l ih =>
    rcases List.nodup_cons.mp hnd with ⟨hal, hndl⟩
    by_cases hav : a = v
    · subst hav
      rw [List.filter_cons_of_pos hpv,
        List.filter_cons_of_neg (by simp)]
      have : l.filter (fun w => if w = a then false else p w) = l.filter p := by
        apply List.filter_congr
        intro w hw
        have : w ≠ a := fun hh => hal (hh ▸ hw)
        simp [this]
      rw [this]
      simp
    · have hvl : v ∈ l := by
        rcases List.mem_cons.mp hv with h | h
        · exact absurd h.symm hav
        · exact h
      by_cases hpa : p a = true
      · rw [List.filter_cons_of_pos hpa, List.filter_cons_of_pos (by simp [hav, hpa])]
        simp only [List.length_cons]
        have := ih hndl hvl
        omega
      · rw [List.filter_cons_of_neg (by simp only [if_neg hav]; simpa using hpa),
          List.filter_cons_of_neg (by simpa using hpa)]
        exact ih hndl hvl

theorem valueRange_nodup (S : Nat) : (valueRange S).Nodup := by
  unfold valueRange
  exact (List.pairwise_lt_range' 1 S).imp Nat.ne_of_lt

/-- The cell invariant survives the cell-level effect of a candidate
removal. -/
theorem cellInvariant_cellEffect {S v : Nat} {cell : tCell}
    (hv1 : 1 ≤ v) (hv2 : v ≤ S) (hinv : cellInvariant S cell) :
    cellInvariant S (removeCandidate_cellEffect S v cell) := by
  obtain ⟨hcc, hval⟩ := hinv
  unfold removeCandidate_cellEffect
  split
  · next h =>
    rcases h with ⟨h1, h2⟩
    rw [cell_candidate_count, hcc] at h1
    obtain ⟨u, hu⟩ := List.length_eq_one.mp h1
    have hfc := cell_firstCandidate_of_filter hu
    rw [h2] at hfc
    rw [← hfc] at hu
    have hall : ∀ w ∈ valueRange S, (if w = v then false else cell.hasCandidate w) = false := by
      intro w hw
      by_cases hwv : w = v
      · simp [hwv]
      · simp only [hwv, if_false]
        exact hasCandidate_eq_false_of_filter_singleton hu hw hwv
    constructor
    · have hemp : (valueRange S).filter (fun w => if w = v then false else cell.hasCandidate w)
          = [] := by
        rw [List.filter_eq_nil_iff]
        intro w hw
        simp [hall w hw]
      show (0 : Nat) = _
      unfold cell_candidateListCount
      exact (congrArg List.length hemp).symm
    · intro _ w hw
      exact hall w hw
  · split
    · next hnc hhc =>
      have hhc2 : cell.hasCandidate v = true := by simpa [cell_hasCandidate] using hhc
      have hv0 : cell.value = 0 := by
        by_contra hne
        have := hval hne v (mem_valueRange_iff.mpr ⟨hv1, hv2⟩)
        rw [this] at hhc2
        cases hhc2
      constructor
      · have key : cell_candidateListCount S
            { value := cell.value,
              hasCandidate := fun w => if w = v then false else cell.hasCandidate w,
              candidateCount := cell.candidateCount - 1 } + 1 =
            cell_candidateListCount S cell := by
          unfold cell_candidateListCount
          exact length_filter_update_false (valueRange_nodup S)
            (mem_valueRange_iff.mpr ⟨hv1, hv2⟩) hhc2
        have hpos := listCount_pos_of_hasCandidate hv1 hv2 hhc2
        show cell.candidateCount - 1 = _
        omega
      · intro hne
        simp only [] at hne
        rw [hv0] at hne
        exact absurd rfl hne
    · exact ⟨hcc, hval⟩

/-- Claim C8: on an invariant-satisfying grid, both grid_cell_removeCandidate
(for a candidate in 1..S at an in-range position) and grid_cell_provideValue
(under its precondition: value possible and cell empty) reestablish the cell
invariant at every cell. -/
theorem primitives_preserve_invariant (g : tGrid) (row column v : Nat)
    (hr : row < grid_size g) (hc : column < grid_size g)
    (hv1 : 1 ≤ v) (hv2 : v ≤ grid_size g)
    (hinv : gridCellInvariant g) :
    gridCellInvariant (grid_cell_removeCandidate g row column v).1 ∧
    (grid_possible g row column v = true → (g.cells row column).value = 0 →
      gridCellInvariant (grid_cell_provideValue g row column v)) := by
  constructor
  · intro r hrr c hcc
    rw [grid_size_removeCandidate] at hrr hcc ⊢
    by_cases hpos : r = row ∧ c = column
    · rw [hpos.1, hpos.2, grid_cell_removeCandidate_cells_self]
      exact cellInvariant_cellEffect hv1 hv2 (hinv row hr column hc)
    · rw [grid_cell_removeCandidate_cells_other _ _ _ _ _ _ hpos]
      exact hinv r hrr c hcc
  · intro _ _ r hrr c hcc
    rw [grid_size_provideValue] at hrr hcc ⊢
    by_cases hpos : r = row ∧ c = column
    · rw [hpos.1, hpos.2, grid_cell_provideValue_cells_self]
      constructor
      · simp [cell_candidateListCount, List.filter_eq_nil_iff]
      · intro _ w _
        rfl
    · rw [grid_cell_provideValue_cells_other _ _ _ _ _ _ hpos]
      exact hinv r hrr c hcc

/-- Witness grid for claim C8: a 1-by-1 grid with an empty cell holding the
single candidate 1, everything free. -/
theorem primitives_preserve_invariant_witness :
    gridCellInvariant (grid_cell_removeCandidate wgC1 0 0 1).1 ∧
    gridCellInvariant (grid_cell_provideValue wgC1 0 0 1) :=
  have h := primitives_preserve_invariant wgC1 0 0 1 (by decide) (by decide) (by decide)
    (by decide) (by decide)
  ⟨h.1, h.2 (by decide) (by decide)⟩

/-- Claim C9: the unique-candidate search never returns the bug marker: when
the counting pass finds a candidate occurring exactly once over the
rectangle, the position pass finds a cell holding it, and the result carries
that candidate and position; when no candidate occurs exactly once, the
search reports none. -/
theorem findUniqueCandidate_never_bug (g : tGrid) (rStart rEnd cStart cEnd : Nat) :
    technique_hiddenSingleton_findUniqueCandidate g rStart rEnd cStart cEnd ≠
      FindUniqueResult.bug ∧
    (technique_hiddenSingleton_findUniqueCandidate g rStart rEnd cStart cEnd =
        FindUniqueResult.notFound ↔
      ∀ v ∈ valueRange (grid_size g),
        candidateCountsIn g (rectPositions rStart rEnd cStart cEnd) v ≠ 1) ∧
    (∀ v p, technique_hiddenSingleton_findUniqueCandidate g rStart rEnd cStart cEnd =
        FindUniqueResult.found v p →
      candidateCountsIn g (rectPositions rStart rEnd cStart cEnd) v = 1 ∧
      cell_hasCandidate (g.cells p.row p.column) v = true ∧
      p ∈ rectPositions rStart rEnd cStart cEnd) := by
  unfold technique_hiddenSingleton_findUniqueCandidate
  match hfind : (valueRange (grid_size g)).find?
      (fun candidate =>
        candidateCountsIn g (rectPositions rStart rEnd cStart cEnd) candidate == 1) with
  | none =>
    refine ⟨by simp, ?_, by simp⟩
    simp only [true_iff]
    intro v hv
    have := List.find?_eq_none.mp hfind v hv
    simpa using this
  | some candidate =>
    have hcount : candidateCountsIn g (rectPositions rStart rEnd cStart cEnd) candidate
        = 1 := by
      have := List.find?_some hfind
      simpa using this
    have hmem : candidate ∈ valueRange (grid_size g) := List.mem_of_find?_eq_some hfind
    have hexists : ∃ p ∈ rectPositions rStart rEnd cStart cEnd,
        cell_hasCandidate (g.cells p.row p.column) candidate = true := by
      by_contra hnone
      push_neg at hnone
      have : candidateCountsIn g (rectPositions rStart rEnd cStart cEnd) candidate = 0 := by
        unfold candidateCountsIn
        rw [List.countP_eq_zero]
        intro p hp
        simpa using hnone p hp
      omega
    have hsome : ((rectPositions rStart rEnd cStart cEnd).find?
        (fun p => cell_hasCandidate (g.cells p.row p.column) candidate)).isSome := by
      rw [List.find?_isSome]
      obtain ⟨p, hp1, hp2⟩ := hexists
      exact ⟨p, hp1, hp2⟩
    obtain ⟨p, hpos⟩ := Option.isSome_iff_exists.mp hsome
    dsimp only
    rw [hpos]
    refine ⟨by simp, ?_, ?_⟩
    · constructor
      · intro h
        cases h
      · intro hall
        exact absurd hcount (hall candidate hmem)
    · intro v q hvq
      have hv : v = candidate := by
        cases hvq
        rfl
      have hq : q = p := by
        cases hvq
        rfl
      subst hv
      subst hq
      refine ⟨hcount, ?_, List.mem_of_find?_eq_some hpos⟩
      have := List.find?_some hpos
      simpa using this

/-- Witness for claim C9 at a concrete rectangle: on the 1-by-1 witness grid
the single cell holds candidate 1, so the search returns it. -/
theorem findUniqueCandidate_never_bug_witness :
    technique_hiddenSingleton_findUniqueCandidate wgC1 0 1 0 1 ≠ FindUniqueResult.bug ∧
    technique_hiddenSingleton_findUniqueCandidate wgC1 0 1 0 1 =
      FindUniqueResult.found 1 (tPosition.mk 0 0) :=
  ⟨(findUniqueCandidate_never_bug wgC1 0 1 0 1).1, by decide⟩

/-- Undoing a tentative mark restores the grid, provided the value was
possible (hence free in all three groups) when it was marked. -/
theorem grid_markValueFree_restore (g : tGrid) (row column v : Nat)
    (h : grid_possible g row column v = true) :
    grid_markValueFree true (grid_markValueFree false g row column v) row column v = g := by
  unfold grid_possible at h
  rw [Bool.and_eq_true, Bool.and_eq_true] at h
  obtain ⟨⟨hcol, hrow⟩, hblock⟩ := h
  ext1
  · rfl
  · rfl
  · funext r w
    show (if r = row ∧ w = v then true
      else if r = row ∧ w = v then false else g.isRowFree r w) = g.isRowFree r w
    by_cases hc : r = row ∧ w = v
    · rw [if_pos hc, hc.1, hc.2]
      exact hrow.symm
    · rw [if_neg hc, if_neg hc]
  · funext c w
    show (if c = column ∧ w = v then true
      else if c = column ∧ w = v then false else g.isColumnFree c w) = g.isColumnFree c w
    by_cases hc : c = column ∧ w = v
    · rw [if_pos hc, hc.1, hc.2]
      exact hcol.symm
    · rw [if_neg hc, if_neg hc]
  · funext br bc w
    show (if br = row / g.N ∧ bc = column / g.N ∧ w = v then true
      else if br = row / g.N ∧ bc = column / g.N ∧ w = v then false
      else g.isBlockFree br bc w) = g.isBlockFree br bc w
    by_cases hc : br = row / g.N ∧ bc = column / g.N ∧ w = v
    · rw [if_pos hc, hc.1, hc.2.1, hc.2.2]
      exact hblock.symm
    · rw [if_neg hc, if_neg hc]

/-- If the value loop fails, the grid is exactly as it was on entry. -/
theorem technique_backtracking_try_false
    (recur : tGrid → List tPosition → tGrid × List tPosition × Bool)
    (hrec : ∀ g ps, (recur g ps).2.2 = false → (recur g ps).1 = g)
    (pos : tPosition) (vs : List Nat) :
    ∀ g ps, (technique_backtracking_try recur pos vs g ps).2.2 = false →
      (technique_backtracking_try recur pos vs g ps).1 = g := by
  induction vs with
  | nil => intro g ps _; rfl
  | cons v rest ih =>
    intro g ps h
    unfold technique_backtracking_try at h ⊢
    by_cases hp : grid_possible g pos.row pos.column v = true
    · rw [if_pos hp] at h ⊢
      by_cases hok : (recur (grid_markValueFree false g pos.row pos.column v) ps).2.2 = true
      · simp only [hok, if_true] at h
        cases h
      · have hok2 : (recur (grid_markValueFree false g pos.row pos.column v) ps).2.2
            = false := by
          cases hb : (recur (grid_markValueFree false g pos.row pos.column v) ps).2.2
          · rfl
          · exact absurd hb hok
        simp only [hok2, Bool.false_eq_true, if_false] at h ⊢
        have hrest := ih _ _ h
        rw [hrest, hrec _ _ hok2, grid_markValueFree_restore g pos.row pos.column v hp]
    · rw [if_neg hp] at h ⊢
      exact ih _ _ h

/-- If the search fails, the grid is exactly as it was on entry (any fuel). -/
theorem technique_backtracking_go_false (fuel : Nat) :
    ∀ g ps i, (technique_backtracking_go fuel g ps i).2.2 = false →
      (technique_backtracking_go fuel g ps i).1 = g := by
  induction fuel with
  | zero =>
    intro g ps i h
    unfold technique_backtracking_go at h ⊢
    by_cases hi : i = ps.length
    · rw [if_pos hi] at h
      cases h
    · rw [if_neg hi] at h ⊢
  | succ fuel ih =>
    intro g ps i h
    unfold technique_backtracking_go at h ⊢
    by_cases hi : i = ps.length
    · rw [if_pos hi] at h
      cases h
    · rw [if_neg hi] at h ⊢
      exact technique_backtracking_try_false _ (fun g2 ps2 => ih g2 ps2 (i + 1)) _ _ _ _ h

/-- Claim C5: when technique_backtracking returns false, the three
availability tables and every cell value are identical to their entry state —
every tentative mark was undone by the matching unmark, and values are only
written on the success path. -/
theorem backtracking_failure_restores (g : tGrid) (ps : List tPosition) (i : Nat)
    (h : (technique_backtracking g ps i).2.2 = false) :
    (technique_backtracking g ps i).1.isRowFree = g.isRowFree ∧
    (technique_backtracking g ps i).1.isColumnFree = g.isColumnFree ∧
    (technique_backtracking g ps i).1.isBlockFree = g.isBlockFree ∧
    ∀ r c, ((technique_backtracking g ps i).1.cells r c).value = (g.cells r c).value := by
  have heq := technique_backtracking_go_false (ps.length - i) g ps i h
  unfold technique_backtracking
  rw [heq]
  exact ⟨rfl, rfl, rfl, fun _ _ => rfl⟩

theorem backtracking_failure_restores_witness :
    (technique_backtracking wgC5 [tPosition.mk 0 0] 0).1.isRowFree = wgC5.isRowFree ∧
    (technique_backtracking wgC5 [tPosition.mk 0 0] 0).1.isColumnFree = wgC5.isColumnFree ∧
    (technique_backtracking wgC5 [tPosition.mk 0 0] 0).1.isBlockFree = wgC5.isBlockFree ∧
    ∀ r c, ((technique_backtracking wgC5 [tPosition.mk 0 0] 0).1.cells r c).value =
      (wgC5.cells r c).value :=
  backtracking_failure_restores wgC5 [tPosition.mk 0 0] 0 (by decide)

theorem cellCandidatesEq_refl (g : tGrid) : cellCandidatesEq g g :=
  fun _ _ => ⟨rfl, rfl⟩

theorem cellCandidatesEq_trans {g h k : tGrid} (h1 : cellCandidatesEq g h)
    (h2 : cellCandidatesEq h k) : cellCandidatesEq g k := by
  intro r c
  exact ⟨(h2 r c).1.trans (h1 r c).1, (h2 r c).2.trans (h1 r c).2⟩

theorem cellCandidatesEq_markValueFree (isFree : Bool) (g : tGrid) (row column v : Nat) :
    cellCandidatesEq g (grid_markValueFree isFree g row column v) :=
  fun _ _ => ⟨rfl, rfl⟩

theorem cellCandidatesEq_setCellValue (g : tGrid) (pos : tPosition) (v : Nat) :
    cellCandidatesEq g (grid_setCellValue g pos v) := by
  intro r c
  unfold grid_setCellValue
  dsimp only
  by_cases hc : r = pos.row ∧ c = pos.column
  · rw [if_pos hc]
    exact ⟨rfl, rfl⟩
  · rw [if_neg hc]
    exact ⟨rfl, rfl⟩

theorem technique_backtracking_try_candidates
    (recur : tGrid → List tPosition → tGrid × List tPosition × Bool)
    (hrec : ∀ g ps, cellCandidatesEq g (recur g ps).1)
    (pos : tPosition) (vs : List Nat) :
    ∀ g ps, cellCandidatesEq g (technique_backtracking_try recur pos vs g ps).1 := by
  induction vs with
  | nil => intro g ps; exact cellCandidatesEq_refl g
  | cons v rest ih =>
    intro g ps
    unfold technique_backtracking_try
    by_cases hp : grid_possible g pos.row pos.column v = true
    · rw [if_pos hp]
      have hmark := cellCandidatesEq_markValueFree false g pos.row pos.column v
      have hrecv := hrec (grid_markValueFree false g pos.row pos.column v) ps
      by_cases hok : (recur (grid_markValueFree false g pos.row pos.column v) ps).2.2 = true
      · simp only [hok, if_true]
        exact cellCandidatesEq_trans (cellCandidatesEq_trans hmark hrecv)
          (cellCandidatesEq_setCellValue _ pos v)
      · have hok2 : (recur (grid_markValueFree false g pos.row pos.column v) ps).2.2
            = false := by
          cases hb : (recur (grid_markValueFree false g pos.row pos.column v) ps).2.2
          · rfl
          · exact absurd hb hok
        simp only [hok2, Bool.false_eq_true, if_false]
        refine cellCandidatesEq_trans (cellCandidatesEq_trans (cellCandidatesEq_trans hmark
          hrecv) (cellCandidatesEq_markValueFree true _ pos.row pos.column v)) (ih _ _)
    · rw [if_neg hp]
      exact ih g ps

theorem technique_backtracking_go_candidates (fuel : Nat) :
    ∀ g ps i, cellCandidatesEq g (technique_backtracking_go fuel g ps i).1 := by
  induction fuel with
  | zero =>
    intro g ps i
    unfold technique_backtracking_go
    by_cases hi : i = ps.length
    · rw [if_pos hi]
      exact cellCandidatesEq_refl g
    · rw [if_neg hi]
      exact cellCandidatesEq_refl g
  | succ fuel ih =>
    intro g ps i
    unfold technique_backtracking_go
    by_cases hi : i = ps.length
    · rw [if_pos hi]
      exact cellCandidatesEq_refl g
    · rw [if_neg hi]
      exact technique_backtracking_try_candidates _ (fun g2 ps2 => ih g2 ps2 (i + 1)) _ _ _ _

/-- Claim C6: technique_backtracking never modifies any cell's candidate set
or cached candidate count, whatever it returns; only values and the
availability tables are updated. -/
theorem backtracking_preserves_candidates (g : tGrid) (ps : List tPosition) (i : Nat) :
    ∀ r c, ((technique_backtracking g ps i).1.cells r c).hasCandidate =
        (g.cells r c).hasCandidate ∧
      ((technique_backtracking g ps i).1.cells r c).candidateCount =
        (g.cells r c).candidateCount :=
  technique_backtracking_go_candidates (ps.length - i) g ps i

theorem progressFold_cons {α : Type} (f : tGrid → α → tGrid × Bool) (g : tGrid)
    (a : α) (l : List α) :
    progressFold f g (a :: l) =
      ((progressFold f (f g a).1 l).1, (f g a).2 || (progressFold f (f g a).1 l).2) := rfl

theorem progressFold_false {α : Type} (f : tGrid → α → tGrid × Bool)
    (hf : ∀ g a, (f g a).2 = false → (f g a).1 = g) :
    ∀ (l : List α) (g : tGrid), (progressFold f g l).2 = false →
      (progressFold f g l).1 = g := by
  intro l
  induction l with
  | nil => intro g _; rfl
  | cons a l ih =>
    intro g h
    rw [progressFold_cons] at h ⊢
    simp only [Bool.or_eq_false_iff] at h
    obtain ⟨ha, hrest⟩ := h
    have e1 := hf g a ha
    rw [e1] at hrest ⊢
    exact ih g hrest

theorem progressSeq_eq (f1 f2 f3 : tGrid → tGrid × Bool) (g : tGrid) :
    progressSeq f1 f2 f3 g =
      ((f3 (f2 (f1 g).1).1).1,
        (f1 g).2 || (f2 (f1 g).1).2 || (f3 (f2 (f1 g).1).1).2) := rfl

theorem progressSeq_false (f1 f2 f3 : tGrid → tGrid × Bool)
    (h1 : ∀ g, (f1 g).2 = false → (f1 g).1 = g)
    (h2 : ∀ g, (f2 g).2 = false → (f2 g).1 = g)
    (h3 : ∀ g, (f3 g).2 = false → (f3 g).1 = g)
    (g : tGrid) (h : (progressSeq f1 f2 f3 g).2 = false) :
    (progressSeq f1 f2 f3 g).1 = g := by
  rw [progressSeq_eq] at h ⊢
  simp only [Bool.or_eq_false_iff] at h
  obtain ⟨⟨ha, hb⟩, hc⟩ := h
  have e1 := h1 g ha
  rw [e1] at hb hc ⊢
  have e2 := h2 g hb
  rw [e2] at hc ⊢
  exact h3 g hc

theorem grid_removeCandidateFromRow_false (g : tGrid) (row candidate : Nat)
    (h : (grid_removeCandidateFromRow g row candidate).2 = false) :
    (grid_removeCandidateFromRow g row candidate).1 = g :=
  progressFold_false _
    (fun g0 c => grid_cell_removeCandidate_no_progress g0 row c candidate) _ g h

theorem grid_removeCandidateFromColumn_false (g : tGrid) (column candidate : Nat)
    (h : (grid_removeCandidateFromColumn g column candidate).2 = false) :
    (grid_removeCandidateFromColumn g column candidate).1 = g :=
  progressFold_false _
    (fun g0 r => grid_cell_removeCandidate_no_progress g0 r column candidate) _ g h

theorem grid_removeCandidateFromBlock_false (g : tGrid) (row column candidate : Nat)
    (h : (grid_removeCandidateFromBlock g row column candidate).2 = false) :
    (grid_removeCandidateFromBlock g row column candidate).1 = g :=
  progressFold_false _
    (fun g0 p => grid_cell_removeCandidate_no_progress g0 p.row p.column candidate) _ g h

theorem technique_nakedSingleton_false (g : tGrid) (row column : Nat)
    (h : (technique_nakedSingleton g row column).2 = false) :
    (technique_nakedSingleton g row column).1 = g := by
  unfold technique_nakedSingleton at h ⊢
  by_cases hc : cell_candidate_count (g.cells row column) = 1
  · rw [if_pos hc] at h ⊢
    exact progressSeq_false _ _ _
      (fun g0 => grid_removeCandidateFromRow_false g0 row _)
      (fun g0 => grid_removeCandidateFromColumn_false g0 column _)
      (fun g0 => grid_removeCandidateFromBlock_false g0 row column _) g h
  · rw [if_neg hc]

theorem technique_hiddenSingleton_applyBlock_false (g : tGrid) (rS rE cS cE : Nat)
    (h : (technique_hiddenSingleton_applyBlock g rS rE cS cE).2 = false) :
    (technique_hiddenSingleton_applyBlock g rS rE cS cE).1 = g := by
  unfold technique_hiddenSingleton_applyBlock at h ⊢
  cases hf : technique_hiddenSingleton_findUniqueCandidate g rS rE cS cE with
  | found candidate p => rw [hf] at h; simp at h
  | notFound => rfl
  | bug => rfl

theorem technique_hiddenSingleton_applyRow_false (g : tGrid) (row S : Nat)
    (h : (technique_hiddenSingleton_applyRow g row S).2 = false) :
    (technique_hiddenSingleton_applyRow g row S).1 = g := by
  unfold technique_hiddenSingleton_applyRow at h ⊢
  cases hf : technique_hiddenSingleton_findUniqueCandidate g row (row + 1) 0 S with
  | found candidate p => rw [hf] at h; simp at h
  | notFound => rfl
  | bug => rfl

theorem technique_hiddenSingleton_applyColumn_false (g : tGrid) (column S : Nat)
    (h : (technique_hiddenSingleton_applyColumn g column S).2 = false) :
    (technique_hiddenSingleton_applyColumn g column S).1 = g := by
  unfold technique_hiddenSingleton_applyColumn at h ⊢
  cases hf : technique_hiddenSingleton_findUniqueCandidate g 0 S column (column + 1) with
  | found candidate p => rw [hf] at h; simp at h
  | notFound => rfl
  | bug => rfl

theorem technique_hiddenSingleton_false (g : tGrid) (row column : Nat)
    (h : (technique_hiddenSingleton g row column).2 = false) :
    (technique_hiddenSingleton g row column).1 = g := by
  unfold technique_hiddenSingleton at h ⊢
  exact progressSeq_false _ _ _
    (fun g0 => technique_hiddenSingleton_applyBlock_false g0 _ _ _ _)
    (fun g0 => technique_hiddenSingleton_applyRow_false g0 _ _)
    (fun g0 => technique_hiddenSingleton_applyColumn_false g0 _ _) g h

theorem technique_nakedPair_processCell_false (v1 v2 : Nat) (g : tGrid) (p : tPosition)
    (h : (technique_nakedPair_processCell v1 v2 g p).2 = false) :
    (technique_nakedPair_processCell v1 v2 g p).1 = g := by
  unfold technique_nakedPair_processCell at h ⊢
  by_cases hp : technique_nakedPair_isPairCell (g.cells p.row p.column) v1 v2 = true
  · rw [if_pos hp]
  · rw [if_neg hp] at h ⊢
    simp only [Bool.or_eq_false_iff] at h
    obtain ⟨h1, h2⟩ := h
    have e1 := grid_cell_removeCandidate_no_progress _ _ _ _ h1
    rw [e1] at h2 ⊢
    exact grid_cell_removeCandidate_no_progress _ _ _ _ h2

theorem technique_nakedPair_false (g : tGrid) (row column : Nat)
    (h : (technique_nakedPair g row column).2 = false) :
    (technique_nakedPair g row column).1 = g := by
  unfold technique_nakedPair at h ⊢
  by_cases hc : cell_candidate_count (g.cells row column) = 2
  · rw [if_pos hc] at h ⊢
    by_cases hs : technique_nakedPair_scanCount g (tPosition.mk row column)
        (cell_candidateAt (grid_size g) (g.cells row column) 1)
        (cell_candidateAt (grid_size g) (g.cells row column) 2)
        (blockPositions g row column) = 2
    · rw [if_pos hs] at h ⊢
      exact progressFold_false _ (technique_nakedPair_processCell_false _ _) _ g h
    · rw [if_neg hs]
  · rw [if_neg hc]

theorem technique_hiddenPair_removePairCells_false (g : tGrid) (p0 p1 : tPosition)
    (v1 v2 : Nat)
    (h : (technique_hiddenPair_removePairCells g p0 p1 v1 v2).2 = false) :
    (technique_hiddenPair_removePairCells g p0 p1 v1 v2).1 = g := by
  unfold technique_hiddenPair_removePairCells at h ⊢
  refine progressFold_false _ ?_ _ g h
  intro g0 pc h0
  refine progressFold_false _ ?_ _ g0 h0
  intro g1 cand h1
  by_cases hc : cand ≠ v1 ∧ cand ≠ v2
  · rw [if_pos hc] at h1 ⊢
    exact grid_cell_removeCandidate_no_progress _ _ _ _ h1
  · rw [if_neg hc]

theorem technique_hiddenPair_group_false (g : tGrid) (row column : Nat)
    (ps : List tPosition)
    (h : (technique_hiddenPair_group g row column ps).2 = false) :
    (technique_hiddenPair_group g row column ps).1 = g := by
  unfold technique_hiddenPair_group at h ⊢
  by_cases hc : 2 ≤ cell_candidate_count (g.cells row column)
  · rw [if_pos hc] at h ⊢
    cases hf : technique_hiddenPair_findPair g (tPosition.mk row column) ps with
    | some pr =>
      obtain ⟨v1, v2, partner⟩ := pr
      rw [hf] at h
      exact technique_hiddenPair_removePairCells_false _ _ _ _ _ h
    | none => rfl
  · rw [if_neg hc]

theorem technique_hiddenPair_false (g : tGrid) (row column : Nat)
    (h : (technique_hiddenPair g row column).2 = false) :
    (technique_hiddenPair g row column).1 = g := by
  unfold technique_hiddenPair at h ⊢
  exact progressSeq_false _ _ _
    (fun g0 => technique_hiddenPair_group_false g0 row column _)
    (fun g0 => technique_hiddenPair_group_false g0 row column _)
    (fun g0 => technique_hiddenPair_group_false g0 row column _) g h

theorem perform_simpleTechniques_cellStep_false (g : tGrid) (p : tPosition)
    (h : (perform_simpleTechniques_cellStep g p).2 = false) :
    (perform_simpleTechniques_cellStep g p).1 = g := by
  unfold perform_simpleTechniques_cellStep at h ⊢
  by_cases h0 : cell_hasValue (g.cells p.row p.column) = true
  · rw [if_pos h0]
  · rw [if_neg h0] at h ⊢
    dsimp only at h ⊢
    by_cases h1 : cell_hasValue
        ((technique_nakedSingleton g p.row p.column).1.cells p.row p.column) = true
    · rw [if_pos h1] at h ⊢
      exact technique_nakedSingleton_false g p.row p.column h
    · rw [if_neg h1] at h ⊢
      by_cases h2 : cell_hasValue
          ((technique_hiddenSingleton (technique_nakedSingleton g p.row p.column).1
            p.row p.column).1.cells p.row p.column) = true
      · rw [if_pos h2] at h ⊢
        simp only [Bool.or_eq_false_iff] at h
        obtain ⟨ha, hb⟩ := h
        have e1 := technique_nakedSingleton_false g p.row p.column ha
        rw [e1] at hb ⊢
        exact technique_hiddenSingleton_false g p.row p.column hb
      · rw [if_neg h2] at h ⊢
        by_cases h3 : cell_hasValue
            ((technique_nakedPair
              (technique_hiddenSingleton (technique_nakedSingleton g p.row p.column).1
                p.row p.column).1 p.row p.column).1.cells p.row p.column) = true
        · rw [if_pos h3] at h ⊢
          simp only [Bool.or_eq_false_iff] at h
          obtain ⟨⟨ha, hb⟩, hc⟩ := h
          have e1 := technique_nakedSingleton_false g p.row p.column ha
          rw [e1] at hb hc ⊢
          have e2 := technique_hiddenSingleton_false g p.row p.column hb
          rw [e2] at hc ⊢
          exact technique_nakedPair_false g p.row p.column hc
        · rw [if_neg h3] at h ⊢
          simp only [Bool.or_eq_false_iff] at h
          obtain ⟨⟨⟨ha, hb⟩, hc⟩, hd⟩ := h
          have e1 := technique_nakedSingleton_false g p.row p.column ha
          rw [e1] at hb hc hd ⊢
          have e2 := technique_hiddenSingleton_false g p.row p.column hb
          rw [e2] at hc hd ⊢
          have e3 := technique_nakedPair_false g p.row p.column hc
          rw [e3] at hd ⊢
          exact technique_hiddenPair_false g p.row p.column hd

/-- Claim C7: when perform_simpleTechniques reports no progress, it left the
grid bit-identical, and a second call reports no progress on the identical
grid again. -/
theorem perform_simpleTechniques_fixpoint (g : tGrid)
    (h : (perform_simpleTechniques g).2 = false) :
    (perform_simpleTechniques g).1 = g ∧
    perform_simpleTechniques ((perform_simpleTechniques g).1) =
      ((perform_simpleTechniques g).1, false) := by
  have hfst : (perform_simpleTechniques g).1 = g := by
    unfold perform_simpleTechniques at h ⊢
    exact progressFold_false _ perform_simpleTechniques_cellStep_false _ g h
  refine ⟨hfst, ?_⟩
  rw [hfst]
  rw [Prod.ext_iff]
  exact ⟨hfst, h⟩

theorem perform_simpleTechniques_fixpoint_witness :
    (perform_simpleTechniques wgC7).1 = wgC7 ∧
    perform_simpleTechniques ((perform_simpleTechniques wgC7).1) =
      ((perform_simpleTechniques wgC7).1, false) :=
  perform_simpleTechniques_fixpoint wgC7 (by decide)

theorem tPosition_eta (p : tPosition) : tPosition.mk p.row p.column = p := by
  cases p
  rfl

theorem tPosition_mk_eq {a b : Nat} {p : tPosition} :
    tPosition.mk a b = p ↔ a = p.row ∧ b = p.column := by
  cases p
  simp

theorem listAny_congr {α : Type} {f1 f2 : α → Bool} :
    ∀ {l : List α}, (∀ x ∈ l, f1 x = f2 x) → l.any f1 = l.any f2 := by
  intro l
  induction l with
  | nil => intro _; rfl
  | cons a l ih =>
    intro h
    simp only [List.any_cons]
    rw [h a (List.mem_cons_self a l), ih (fun x hx => h x (List.mem_cons_of_mem a hx))]

/-- A fold of steps that each touch exactly the cell at their position (new
cell a function of the old one, progress flag a predicate of the old one)
leaves untouched positions alone, applies the effect once at each listed
position, and reports progress iff some step did. -/
theorem progressFold_cellwise
    (f : tGrid → tPosition → tGrid × Bool) (n : Nat)
    (e : tPosition → tCell → tCell) (pb : tPosition → tCell → Bool)
    (hN : ∀ g p, g.N = n → (f g p).1.N = n)
    (hcells : ∀ g p, g.N = n → (f g p).1.cells = fun a b =>
      if a = p.row ∧ b = p.column then e p (g.cells a b) else g.cells a b)
    (hsnd : ∀ g p, g.N = n → (f g p).2 = pb p (g.cells p.row p.column)) :
    ∀ (l : List tPosition), l.Nodup → ∀ g : tGrid, g.N = n →
      (progressFold f g l).1.N = n ∧
      (∀ a b, tPosition.mk a b ∉ l → (progressFold f g l).1.cells a b = g.cells a b) ∧
      (∀ p ∈ l, (progressFold f g l).1.cells p.row p.column =
        e p (g.cells p.row p.column)) ∧
      (progressFold f g l).2 = l.any (fun p => pb p (g.cells p.row p.column)) := by
  intro l
  induction l with
  | nil =>
    intro _ g hg
    exact ⟨hg, fun a b _ => rfl, fun p hp => absurd hp (List.not_mem_nil p), rfl⟩
  | cons p0 l ih =>
    intro hnd g hg
    rcases List.nodup_cons.mp hnd with ⟨hp0l, hndl⟩
    rw [progressFold_cons]
    have hg1 : (f g p0).1.N = n := hN g p0 hg
    have hc1 := hcells g p0 hg
    obtain ⟨ihN, ihFrame, ihEffect, ihSnd⟩ := ih hndl (f g p0).1 hg1
    have hother : ∀ q : tPosition, q ≠ p0 → (f g p0).1.cells q.row q.column =
        g.cells q.row q.column := by
      intro q hq
      rw [hc1]
      have hcon : ¬(q.row = p0.row ∧ q.column = p0.column) := by
        intro hcon
        exact hq (by rw [← tPosition_eta q, ← tPosition_eta p0]; rw [hcon.1, hcon.2])
      simp only [hcon, if_false]
    refine ⟨ihN, ?_, ?_, ?_⟩
    · intro a b hab
      have hab0 : tPosition.mk a b ≠ p0 := fun h => hab (h ▸ List.mem_cons_self p0 l)
      have habl : tPosition.mk a b ∉ l := fun h => hab (List.mem_cons_of_mem p0 h)
      rw [ihFrame a b habl]
      exact hother (tPosition.mk a b) hab0
    · intro p hp
      rcases List.mem_cons.mp hp with hph | hpl
      · subst hph
        have hmem : tPosition.mk p.row p.column ∉ l := by
          rw [tPosition_eta]
          exact hp0l
        rw [ihFrame p.row p.column hmem, hc1]
        simp
      · have hpne : p ≠ p0 := fun h => hp0l (h ▸ hpl)
        rw [ihEffect p hpl]
        rw [hother p hpne]
    · rw [ihSnd, hsnd g p0 hg]
      simp only [List.any_cons]
      congr 1
      apply listAny_congr
      intro q hq
      have hqne : q ≠ p0 := fun h => hp0l (h ▸ hq)
      rw [hother q hqne]

theorem range'_nodup (s n : Nat) : (List.range' s n).Nodup :=
  (List.pairwise_lt_range' s n).imp Nat.ne_of_lt

theorem rectPositions_nodup (a b c d : Nat) : (rectPositions a b c d).Nodup := by
  unfold rectPositions
  refine List.Nodup.map ?_ (List.Nodup.product (range'_nodup _ _) (range'_nodup _ _))
  intro x y hxy
  cases x
  cases y
  simpa [tPosition.mk.injEq, Prod.ext_iff] using hxy

theorem blockPositions_nodup (g : tGrid) (row column : Nat) :
    (blockPositions g row column).Nodup := by
  unfold blockPositions
  exact rectPositions_nodup _ _ _ _

theorem technique_nakedPair_processCell_N (v1 v2 n : Nat) (g : tGrid) (p : tPosition)
    (hg : g.N = n) : (technique_nakedPair_processCell v1 v2 g p).1.N = n := by
  unfold technique_nakedPair_processCell
  split
  · exact hg
  · rw [grid_cell_removeCandidate_N, grid_cell_removeCandidate_N]
    exact hg

theorem technique_nakedPair_processCell_cells (v1 v2 n : Nat) (g : tGrid) (p : tPosition)
    (hg : g.N = n) :
    (technique_nakedPair_processCell v1 v2 g p).1.cells = fun a b =>
      if a = p.row ∧ b = p.column then nakedPair_cellEffect (n * n) v1 v2 (g.cells a b)
      else g.cells a b := by
  have hS : grid_size g = n * n := by
    unfold grid_size
    rw [hg]
  unfold technique_nakedPair_processCell nakedPair_cellEffect
  by_cases hp : technique_nakedPair_isPairCell (g.cells p.row p.column) v1 v2 = true
  · rw [if_pos hp]
    funext a b
    by_cases hab : a = p.row ∧ b = p.column
    · rw [if_pos hab, hab.1, hab.2, if_pos hp]
    · rw [if_neg hab]
  · rw [if_neg hp]
    funext a b
    simp only [grid_cell_removeCandidate_cells, grid_size_removeCandidate, hS]
    by_cases hab : a = p.row ∧ b = p.column
    · rw [if_pos hab, if_pos hab, hab.1, hab.2, if_neg hp]
      simp
    · rw [if_neg hab, if_neg hab, if_neg hab]

theorem technique_nakedPair_processCell_snd (v1 v2 : Nat) (hv1 : 1 ≤ v1) (hv2 : 1 ≤ v2)
    (hne : v2 ≠ v1) (g : tGrid) (p : tPosition) :
    (technique_nakedPair_processCell v1 v2 g p).2 =
      (if technique_nakedPair_isPairCell (g.cells p.row p.column) v1 v2 = true then false
       else cell_hasCandidate (g.cells p.row p.column) v1 ||
         cell_hasCandidate (g.cells p.row p.column) v2) := by
  unfold technique_nakedPair_processCell
  by_cases hp : technique_nakedPair_isPairCell (g.cells p.row p.column) v1 v2 = true
  · rw [if_pos hp, if_pos hp]
  · rw [if_neg hp, if_neg hp]
    rw [grid_cell_removeCandidate_snd _ _ _ _ hv1, grid_cell_removeCandidate_snd _ _ _ _ hv2,
      grid_cell_removeCandidate_cells_self]
    show _ = (cell_hasCandidate (g.cells p.row p.column) v1 ||
      (g.cells p.row p.column).hasCandidate v2)
    unfold cell_hasCandidate
    rw [removeCandidate_cellEffect_other _ _ _ _ hne]

theorem foldl_cap_stable {α : Type} (cond : α → Prop) [DecidablePred cond] :
    ∀ (l : List α) (c : Nat), ¬(c < 2) →
      l.foldl (fun cnt a => if cnt < 2 then cnt + (if cond a then 1 else 0) else cnt) c
        = c := by
  intro l
  induction l with
  | nil => intro c _; rfl
  | cons a l ih =>
    intro c hc
    simp only [List.foldl_cons, if_neg hc]
    exact ih c hc

theorem foldl_cap_two {α : Type} (cond : α → Prop) [DecidablePred cond] :
    ∀ (l : List α), (∃ p ∈ l, cond p) →
      l.foldl (fun cnt a => if cnt < 2 then cnt + (if cond a then 1 else 0) else cnt) 1
        = 2 := by
  intro l
  induction l with
  | nil => rintro ⟨p, hp, -⟩; cases hp
  | cons a l ih =>
    rintro ⟨p, hp, hcond⟩
    simp only [List.foldl_cons, if_pos (by omega : (1 : Nat) < 2)]
    by_cases ha : cond a
    · rw [if_pos ha]
      exact foldl_cap_stable cond l 2 (by omega)
    · rw [if_neg ha]
      rcases List.mem_cons.mp hp with h | h
      · exact absurd (h ▸ hcond) ha
      · exact ih ⟨p, h, hcond⟩

theorem technique_nakedPair_scanCount_eq_two (g : tGrid) (target : tPosition)
    (v1 v2 : Nat) (ps : List tPosition) (p : tPosition) (hp : p ∈ ps)
    (hcond : p ≠ target ∧ technique_nakedPair_isPairCell (g.cells p.row p.column) v1 v2
      = true) :
    technique_nakedPair_scanCount g target v1 v2 ps = 2 := by
  unfold technique_nakedPair_scanCount
  exact foldl_cap_two
    (fun p => p ≠ target ∧ technique_nakedPair_isPairCell (g.cells p.row p.column) v1 v2
      = true) ps ⟨p, hp, hcond⟩

/-- Claim C2: technique_nakedPair scans only the target's block.  With the
target holding exactly the pair v1 < v2 and at least one other block cell
holding exactly the same pair, both candidates are removed from every block
cell that is not a pair cell, the pair cells and all cells outside the block
are untouched, and the progress flag is true iff some non-pair block cell
held v1 or v2.  A target whose candidate count differs from two triggers
nothing. -/
theorem technique_nakedPair_spec (g : tGrid) (row column v1 v2 : Nat)
    (partner : tPosition) :
    (cell_candidate_count (g.cells row column) ≠ 2 →
      technique_nakedPair g row column = (g, false)) ∧
    (cell_candidate_count (g.cells row column) = 2 →
      (valueRange (grid_size g)).filter (fun w => (g.cells row column).hasCandidate w)
        = [v1, v2] →
      (blockPositions g row column).filter
        (fun p => decide (p ≠ tPosition.mk row column) &&
          technique_nakedPair_isPairCell (g.cells p.row p.column) v1 v2) = [partner] →
      ((∀ p ∈ blockPositions g row column,
          technique_nakedPair_isPairCell (g.cells p.row p.column) v1 v2 = false →
          ((technique_nakedPair g row column).1.cells p.row p.column).hasCandidate v1
            = false ∧
          ((technique_nakedPair g row column).1.cells p.row p.column).hasCandidate v2
            = false) ∧
        (technique_nakedPair g row column).1.cells row column = g.cells row column ∧
        (technique_nakedPair g row column).1.cells partner.row partner.column =
          g.cells partner.row partner.column ∧
        (∀ a b, tPosition.mk a b ∉ blockPositions g row column →
          (technique_nakedPair g row column).1.cells a b = g.cells a b) ∧
        ((technique_nakedPair g row column).2 = true ↔
          ∃ p ∈ blockPositions g row column,
            technique_nakedPair_isPairCell (g.cells p.row p.column) v1 v2 = false ∧
            (cell_hasCandidate (g.cells p.row p.column) v1 = true ∨
              cell_hasCandidate (g.cells p.row p.column) v2 = true)))) := by
  constructor
  · intro hne
    unfold technique_nakedPair
    rw [if_neg hne]
  · intro hcount2 hset hpartner
    have hv1mem : v1 ∈ (valueRange (grid_size g)).filter
        (fun w => (g.cells row column).hasCandidate w) := by
      rw [hset]
      simp
    have hv2mem : v2 ∈ (valueRange (grid_size g)).filter
        (fun w => (g.cells row column).hasCandidate w) := by
      rw [hset]
      simp
    have hv1r := (List.mem_filter.mp hv1mem).1
    have hv2r := (List.mem_filter.mp hv2mem).1
    have hv1c : (g.cells row column).hasCandidate v1 = true := by
      simpa using (List.mem_filter.mp hv1mem).2
    have hv2c : (g.cells row column).hasCandidate v2 = true := by
      simpa using (List.mem_filter.mp hv2mem).2
    have hv1b := mem_valueRange_iff.mp hv1r
    have hv2b := mem_valueRange_iff.mp hv2r
    have hne12 : v1 ≠ v2 := by
      have hnd : ((valueRange (grid_size g)).filter
          (fun w => (g.cells row column).hasCandidate w)).Nodup :=
        (valueRange_nodup (grid_size g)).filter _
      rw [hset] at hnd
      rcases List.nodup_cons.mp hnd with ⟨hh, -⟩
      intro h
      exact hh (by rw [h]; simp)
    have ca1 : cell_candidateAt (grid_size g) (g.cells row column) 1 = v1 := by
      unfold cell_candidateAt
      rw [hset]
      rfl
    have ca2 : cell_candidateAt (grid_size g) (g.cells row column) 2 = v2 := by
      unfold cell_candidateAt
      rw [hset]
      rfl
    have htargetPair : technique_nakedPair_isPairCell (g.cells row column) v1 v2 = true := by
      unfold technique_nakedPair_isPairCell
      rw [cell_candidate_count, Bool.and_eq_true, Bool.and_eq_true]
      refine ⟨⟨?_, ?_⟩, ?_⟩
      · rw [cell_candidate_count] at hcount2
        simp [hcount2]
      · simpa [cell_hasCandidate] using hv1c
      · simpa [cell_hasCandidate] using hv2c
    have hpmem : partner ∈ (blockPositions g row column).filter
        (fun p => decide (p ≠ tPosition.mk row column) &&
          technique_nakedPair_isPairCell (g.cells p.row p.column) v1 v2) := by
      rw [hpartner]
      simp
    have hpblock := (List.mem_filter.mp hpmem).1
    have hpcond := (List.mem_filter.mp hpmem).2
    rw [Bool.and_eq_true] at hpcond
    have hpne : partner ≠ tPosition.mk row column := of_decide_eq_true hpcond.1
    have hpPair : technique_nakedPair_isPairCell (g.cells partner.row partner.column) v1 v2
        = true := hpcond.2
    have hscan : technique_nakedPair_scanCount g (tPosition.mk row column) v1 v2
        (blockPositions g row column) = 2 :=
      technique_nakedPair_scanCount_eq_two g _ v1 v2 _ partner hpblock ⟨hpne, hpPair⟩
    have hrw : technique_nakedPair g row column =
        progressFold (technique_nakedPair_processCell v1 v2) g
          (blockPositions g row column) := by
      unfold technique_nakedPair
      rw [if_pos hcount2, ca1, ca2, if_pos hscan]
    obtain ⟨hN, hFrame, hEffect, hSnd⟩ :=
      progressFold_cellwise (technique_nakedPair_processCell v1 v2) g.N
        (fun _ cell => nakedPair_cellEffect (g.N * g.N) v1 v2 cell)
        (fun _ cell => if technique_nakedPair_isPairCell cell v1 v2 = true then false
          else cell_hasCandidate cell v1 || cell_hasCandidate cell v2)
        (fun g0 p hg0 => technique_nakedPair_processCell_N v1 v2 g.N g0 p hg0)
        (fun g0 p hg0 => technique_nakedPair_processCell_cells v1 v2 g.N g0 p hg0)
        (fun g0 p _ => technique_nakedPair_processCell_snd v1 v2 hv1b.1 hv2b.1
          (fun h => hne12 h.symm) g0 p)
        (blockPositions g row column) (blockPositions_nodup g row column) g rfl
    rw [hrw]
    refine ⟨?_, ?_, ?_, ?_, ?_⟩
    · intro p hp hnotpair
      rw [hEffect p hp]
      unfold nakedPair_cellEffect
      rw [if_neg (by rw [hnotpair]; intro h; cases h)]
      constructor
      · rw [removeCandidate_cellEffect_other _ _ _ _ hne12,
          removeCandidate_cellEffect_clears]
      · rw [removeCandidate_cellEffect_clears]
    · by_cases hm : tPosition.mk row column ∈ blockPositions g row column
      · have := hEffect (tPosition.mk row column) hm
        simp only [] at this
        rw [this]
        unfold nakedPair_cellEffect
        rw [if_pos htargetPair]
      · exact hFrame row column hm
    · rw [hEffect partner hpblock]
      unfold nakedPair_cellEffect
      rw [if_pos hpPair]
    · intro a b hab
      exact hFrame a b hab
    · rw [hSnd]
      rw [List.any_eq_true]
      constructor
      · rintro ⟨p, hp, hpb⟩
        by_cases hpair : technique_nakedPair_isPairCell (g.cells p.row p.column) v1 v2
            = true
        · rw [if_pos hpair] at hpb
          cases hpb
        · rw [if_neg hpair] at hpb
          rw [Bool.or_eq_true] at hpb
          refine ⟨p, hp, ?_, hpb⟩
          cases hb : technique_nakedPair_isPairCell (g.cells p.row p.column) v1 v2
          · rfl
          · exact absurd hb hpair
      · rintro ⟨p, hp, hpair, hcand⟩
        refine ⟨p, hp, ?_⟩
        rw [if_neg (by rw [hpair]; intro h; cases h), Bool.or_eq_true]
        exact hcand

theorem technique_nakedPair_spec_witness :
    ((technique_nakedPair wgC2 0 0).1.cells 1 0).hasCandidate 1 = false ∧
    ((technique_nakedPair wgC2 0 0).1.cells 1 0).hasCandidate 2 = false :=
  ((technique_nakedPair_spec wgC2 0 0 1 2 (tPosition.mk 0 1)).2 (by decide) (by decide)
    (by decide)).1 (tPosition.mk 1 0) (by decide) (by decide)

theorem technique_hiddenPair_scan_mono (g : tGrid) (v1 v2 : Nat) (target : tPosition) :
    ∀ (l : List tPosition) (n m : Nat) (q : Option tPosition) (n' m' : Nat)
      (q' : Option tPosition),
      technique_hiddenPair_scan g v1 v2 target l n m q = some (n', m', q') →
      n ≤ n' ∧ m ≤ m' := by
  intro l
  induction l with
  | nil =>
    intro n m q n' m' q' h
    unfold technique_hiddenPair_scan at h
    injection h with h
    injection h with h1 h
    injection h with h2 h
    omega
  | cons p l ih =>
    intro n m q n' m' q' h
    unfold technique_hiddenPair_scan at h
    by_cases hb : 2 + 1 < n
    · rw [if_pos hb] at h
      injection h with h
      injection h with h1 h
      injection h with h2 h
      omega
    · rw [if_neg hb] at h
      by_cases ht : p = target
      · rw [if_pos ht] at h
        exact ih n m q n' m' q' h
      · rw [if_neg ht] at h
        by_cases hboth : cell_hasCandidate (g.cells p.row p.column) v1 = true ∧
            cell_hasCandidate (g.cells p.row p.column) v2 = true
        · rw [if_pos hboth] at h
          have := ih _ _ _ _ _ _ h
          omega
        · rw [if_neg hboth] at h
          by_cases hsingle : cell_hasCandidate (g.cells p.row p.column) v1 = true ∨
              cell_hasCandidate (g.cells p.row p.column) v2 = true
          · rw [if_pos hsingle] at h
            cases h
          · rw [if_neg hsingle] at h
            exact ih n m q n' m' q' h

/-- Once the pair count is exactly two, a successful scan ending at two means
every remaining non-target cell holds neither candidate, and the accumulator
is untouched. -/
theorem technique_hiddenPair_scan_post (g : tGrid) (v1 v2 : Nat) (target : tPosition) :
    ∀ (l : List tPosition) (m : Nat) (q : Option tPosition) (m' : Nat)
      (q' : Option tPosition),
      technique_hiddenPair_scan g v1 v2 target l 2 m q = some (2, m', q') →
      m' = m ∧ q' = q ∧
      ∀ r ∈ l, r ≠ target →
        cell_hasCandidate (g.cells r.row r.column) v1 = false ∧
        cell_hasCandidate (g.cells r.row r.column) v2 = false := by
  intro l
  induction l with
  | nil =>
    intro m q m' q' h
    unfold technique_hiddenPair_scan at h
    injection h with h
    injection h with h1 h
    injection h with h2 h
    exact ⟨h2.symm, h.symm, fun r hr => absurd hr (List.not_mem_nil r)⟩
  | cons p l ih =>
    intro m q m' q' h
    unfold technique_hiddenPair_scan at h
    rw [if_neg (by omega)] at h
    by_cases ht : p = target
    · rw [if_pos ht] at h
      obtain ⟨h1, h2, h3⟩ := ih m q m' q' h
      refine ⟨h1, h2, ?_⟩
      intro r hr hrt
      rcases List.mem_cons.mp hr with hh | hh
      · exact absurd (hh.trans ht) hrt
      · exact h3 r hh hrt
    · rw [if_neg ht] at h
      by_cases hboth : cell_hasCandidate (g.cells p.row p.column) v1 = true ∧
          cell_hasCandidate (g.cells p.row p.column) v2 = true
      · rw [if_pos hboth] at h
        have := technique_hiddenPair_scan_mono g v1 v2 target l _ _ _ _ _ _ h
        omega
      · rw [if_neg hboth] at h
        by_cases hsingle : cell_hasCandidate (g.cells p.row p.column) v1 = true ∨
            cell_hasCandidate (g.cells p.row p.column) v2 = true
        · rw [if_pos hsingle] at h
          cases h
        · rw [if_neg hsingle] at h
          obtain ⟨h1, h2, h3⟩ := ih m q m' q' h
          refine ⟨h1, h2, ?_⟩
          intro r hr hrt
          rcases List.mem_cons.mp hr with hh | hh
          · subst hh
            push_neg at hsingle
            constructor
            · cases hx : cell_hasCandidate (g.cells r.row r.column) v1
              · rfl
              · exact absurd hx hsingle.1
            · cases hx : cell_hasCandidate (g.cells r.row r.column) v2
              · rfl
              · exact absurd hx hsingle.2
          · exact h3 r hh hrt

/-- A successful scan from the initial accumulator pins down a unique partner
cell: it is recorded, holds both candidates, and every other non-target cell
holds neither. -/
theorem technique_hiddenPair_scan_pre (g : tGrid) (v1 v2 : Nat) (target : tPosition) :
    ∀ (l : List tPosition) (m m' : Nat) (q' : Option tPosition),
      technique_hiddenPair_scan g v1 v2 target l 1 m none = some (2, m', q') →
      ∃ partner, q' = some partner ∧ partner ∈ l ∧ partner ≠ target ∧
        cell_hasCandidate (g.cells partner.row partner.column) v1 = true ∧
        cell_hasCandidate (g.cells partner.row partner.column) v2 = true ∧
        m' = m + (if 2 < cell_candidate_count (g.cells partner.row partner.column)
          then 1 else 0) ∧
        ∀ r ∈ l, r ≠ target → r ≠ partner →
          cell_hasCandidate (g.cells r.row r.column) v1 = false ∧
          cell_hasCandidate (g.cells r.row r.column) v2 = false := by
  intro l
  induction l with
  | nil =>
    intro m m' q' h
    unfold technique_hiddenPair_scan at h
    injection h with h
    injection h with h1 h
    omega
  | cons p l ih =>
    intro m m' q' h
    unfold technique_hiddenPair_scan at h
    rw [if_neg (by omega)] at h
    by_cases ht : p = target
    · rw [if_pos ht] at h
      obtain ⟨partner, hq, hmem, hpt, hc1, hc2, hm, hrest⟩ := ih m m' q' h
      refine ⟨partner, hq, List.mem_cons_of_mem p hmem, hpt, hc1, hc2, hm, ?_⟩
      intro r hr hrt hrp
      rcases List.mem_cons.mp hr with hh | hh
      · exact absurd (hh.trans ht) hrt
      · exact hrest r hh hrt hrp
    · rw [if_neg ht] at h
      by_cases hboth : cell_hasCandidate (g.cells p.row p.column) v1 = true ∧
          cell_hasCandidate (g.cells p.row p.column) v2 = true
      · rw [if_pos hboth] at h
        rw [if_pos (by omega : (1 : Nat) < 2)] at h
        obtain ⟨hm, hq, hrest⟩ := technique_hiddenPair_scan_post g v1 v2 target l _ _ _ _ h
        refine ⟨p, hq, List.mem_cons_self p l, ht, hboth.1, hboth.2, hm, ?_⟩
        intro r hr hrt hrp
        rcases List.mem_cons.mp hr with hh | hh
        · exact absurd hh hrp
        · exact hrest r hh hrt
      · rw [if_neg hboth] at h
        by_cases hsingle : cell_hasCandidate (g.cells p.row p.column) v1 = true ∨
            cell_hasCandidate (g.cells p.row p.column) v2 = true
        · rw [if_pos hsingle] at h
          cases h
        · rw [if_neg hsingle] at h
          obtain ⟨partner, hq, hmem, hpt, hc1, hc2, hm, hrest⟩ := ih m m' q' h
          refine ⟨partner, hq, List.mem_cons_of_mem p hmem, hpt, hc1, hc2, hm, ?_⟩
          intro r hr hrt hrp
          rcases List.mem_cons.mp hr with hh | hh
          · subst hh
            push_neg at hsingle
            constructor
            · cases hx : cell_hasCandidate (g.cells r.row r.column) v1
              · rfl
              · exact absurd hx hsingle.1
            · cases hx : cell_hasCandidate (g.cells r.row r.column) v2
              · rfl
              · exact absurd hx hsingle.2
          · exact hrest r hh hrt hrp

/-- Cells holding neither candidate (or the target itself) do not change the
scan state. -/
theorem technique_hiddenPair_scan_skip (g : tGrid) (v1 v2 : Nat) (target : tPosition) :
    ∀ (l1 rest : List tPosition) (n m : Nat) (q : Option tPosition),
      (∀ p ∈ l1, p = target ∨
        (cell_hasCandidate (g.cells p.row p.column) v1 = false ∧
         cell_hasCandidate (g.cells p.row p.column) v2 = false)) →
      ¬(2 + 1 < n) →
      technique_hiddenPair_scan g v1 v2 target (l1 ++ rest) n m q =
        technique_hiddenPair_scan g v1 v2 target rest n m q := by
  intro l1
  induction l1 with
  | nil => intro rest n m q _ _; rfl
  | cons p l1 ih =>
    intro rest n m q hskip hn
    have hrec := ih rest n m q (fun r hr => hskip r (List.mem_cons_of_mem p hr)) hn
    have hcons : technique_hiddenPair_scan g v1 v2 target (p :: (l1 ++ rest)) n m q =
        (if 2 + 1 < n then some (n, m, q)
         else if p = target then technique_hiddenPair_scan g v1 v2 target (l1 ++ rest) n m q
         else
           if cell_hasCandidate (g.cells p.row p.column) v1 = true ∧
               cell_hasCandidate (g.cells p.row p.column) v2 = true then
             technique_hiddenPair_scan g v1 v2 target (l1 ++ rest) (n + 1)
               (m + (if 2 < cell_candidate_count (g.cells p.row p.column) then 1 else 0))
               (if n < 2 then some p else q)
           else if cell_hasCandidate (g.cells p.row p.column) v1 = true ∨
               cell_hasCandidate (g.cells p.row p.column) v2 = true then
             none
           else technique_hiddenPair_scan g v1 v2 target (l1 ++ rest) n m q) := rfl
    show technique_hiddenPair_scan g v1 v2 target (p :: (l1 ++ rest)) n m q = _
    rw [hcons]
    rw [if_neg hn]
    rcases hskip p (List.mem_cons_self p l1) with ht | hneither
    · rw [if_pos ht]
      exact hrec
    · by_cases ht : p = target
      · rw [if_pos ht]
        exact hrec
      · rw [if_neg ht, if_neg (by rw [hneither.1]; intro h; cases h.1),
          if_neg (by rw [hneither.1, hneither.2]; intro h; rcases h with h | h <;> cases h)]
        exact hrec

/-- Characterization of technique_hiddenPair_findPairCells on a group without
duplicate positions: it returns a partner exactly when that partner is the
unique other cell of the group holding both candidates, no further cell holds
either of them, and the partner has more than two candidates. -/
theorem technique_hiddenPair_findPairCells_iff (g : tGrid) (v1 v2 : Nat)
    (target partner : tPosition) (ps : List tPosition) (hnd : ps.Nodup) :
    technique_hiddenPair_findPairCells g v1 v2 target ps = some partner ↔
      (partner ∈ ps ∧ partner ≠ target ∧
        cell_hasCandidate (g.cells partner.row partner.column) v1 = true ∧
        cell_hasCandidate (g.cells partner.row partner.column) v2 = true ∧
        2 < cell_candidate_count (g.cells partner.row partner.column) ∧
        ∀ q ∈ ps, q ≠ target → q ≠ partner →
          cell_hasCandidate (g.cells q.row q.column) v1 = false ∧
          cell_hasCandidate (g.cells q.row q.column) v2 = false) := by
  constructor
  · intro h
    unfold technique_hiddenPair_findPairCells at h
    cases hscan : technique_hiddenPair_scan g v1 v2 target ps 1 0 none with
    | none => rw [hscan] at h; cases h
    | some t =>
      obtain ⟨n, m, q⟩ := t
      rw [hscan] at h
      have h2 : (if n = 2 ∧ 0 < m then q else none) = some partner := h
      by_cases hcond : n = 2 ∧ 0 < m
      · rw [if_pos hcond] at h2
        obtain ⟨p0, hq, hmem, hpt, hc1, hc2, hm, hrest⟩ :=
          technique_hiddenPair_scan_pre g v1 v2 target ps 0 m q
            (by rw [← hcond.1]; exact hscan)
        rw [hq] at h2
        injection h2 with h2
        subst h2
        have hcnt : 2 < cell_candidate_count (g.cells p0.row p0.column) := by
          by_cases hcc : 2 < cell_candidate_count (g.cells p0.row p0.column)
          · exact hcc
          · rw [if_neg hcc] at hm
            omega
        exact ⟨hmem, hpt, hc1, hc2, hcnt, hrest⟩
      · rw [if_neg hcond] at h2
        cases h2
  · rintro ⟨hmem, hpt, hc1, hc2, hcnt, hrest⟩
    obtain ⟨l1, l2, hsplit⟩ := List.append_of_mem hmem
    subst hsplit
    have hnd1 := hnd
    rw [List.nodup_append] at hnd1
    obtain ⟨hndl1, hndc, hdisj⟩ := hnd1
    have hp1 : partner ∉ l1 := fun h => hdisj h (List.mem_cons_self partner l2)
    have hp2 : partner ∉ l2 := (List.nodup_cons.mp hndc).1
    have hskip1 : ∀ p ∈ l1, p = target ∨
        (cell_hasCandidate (g.cells p.row p.column) v1 = false ∧
         cell_hasCandidate (g.cells p.row p.column) v2 = false) := by
      intro p hp
      by_cases ht : p = target
      · exact Or.inl ht
      · refine Or.inr (hrest p (by simp [hp]) ht ?_)
        intro h
        exact hp1 (h ▸ hp)
    have hskip2 : ∀ p ∈ l2, p = target ∨
        (cell_hasCandidate (g.cells p.row p.column) v1 = false ∧
         cell_hasCandidate (g.cells p.row p.column) v2 = false) := by
      intro p hp
      by_cases ht : p = target
      · exact Or.inl ht
      · refine Or.inr (hrest p (by simp [hp]) ht ?_)
        intro h
        exact hp2 (h ▸ hp)
    unfold technique_hiddenPair_findPairCells
    rw [technique_hiddenPair_scan_skip g v1 v2 target l1 (partner :: l2) 1 0 none hskip1
      (by omega)]
    show (match technique_hiddenPair_scan g v1 v2 target (partner :: l2) 1 0 none with
      | none => none
      | some (n, m, q) => if n = 2 ∧ 0 < m then q else none) = some partner
    unfold technique_hiddenPair_scan
    rw [if_neg (by omega), if_neg hpt, if_pos ⟨hc1, hc2⟩, if_pos (by omega : (1 : Nat) < 2),
      if_pos hcnt]
    have hl2 : l2 = l2 ++ [] := (List.append_nil l2).symm
    rw [hl2, technique_hiddenPair_scan_skip g v1 v2 target l2 [] 2 (0 + 1) (some partner)
      hskip2 (by omega)]
    show (match some (2, 0 + 1, some partner) with
      | none => none
      | some (n, m, q) => if n = 2 ∧ 0 < m then q else none) = some partner
    rw [show (match some (2, 0 + 1, some partner) with
      | none => none
      | some (n, m, q) => if n = 2 ∧ 0 < m then q else none) =
        if 2 = 2 ∧ 0 < 0 + 1 then some partner else none from rfl]
    rw [if_pos ⟨rfl, by omega⟩]

/-- Variant of the cell-wise fold description without the progress flag. -/
theorem progressFold_cellsOnly
    (f : tGrid → tPosition → tGrid × Bool) (n : Nat) (e : tPosition → tCell → tCell)
    (hN : ∀ g p, g.N = n → (f g p).1.N = n)
    (hcells : ∀ g p, g.N = n → (f g p).1.cells = fun a b =>
      if a = p.row ∧ b = p.column then e p (g.cells a b) else g.cells a b) :
    ∀ (l : List tPosition), l.Nodup → ∀ g : tGrid, g.N = n →
      (progressFold f g l).1.N = n ∧
      (∀ a b, tPosition.mk a b ∉ l → (progressFold f g l).1.cells a b = g.cells a b) ∧
      (∀ p ∈ l, (progressFold f g l).1.cells p.row p.column =
        e p (g.cells p.row p.column)) := by
  intro l
  induction l with
  | nil =>
    intro _ g hg
    exact ⟨hg, fun a b _ => rfl, fun p hp => absurd hp (List.not_mem_nil p)⟩
  | cons p0 l ih =>
    intro hnd g hg
    rcases List.nodup_cons.mp hnd with ⟨hp0l, hndl⟩
    rw [progressFold_cons]
    have hg1 : (f g p0).1.N = n := hN g p0 hg
    have hc1 := hcells g p0 hg
    obtain ⟨ihN, ihFrame, ihEffect⟩ := ih hndl (f g p0).1 hg1
    have hother : ∀ q : tPosition, q ≠ p0 → (f g p0).1.cells q.row q.column =
        g.cells q.row q.column := by
      intro q hq
      rw [hc1]
      have hcon : ¬(q.row = p0.row ∧ q.column = p0.column) := by
        intro hcon
        exact hq (by rw [← tPosition_eta q, ← tPosition_eta p0]; rw [hcon.1, hcon.2])
      simp only [hcon, if_false]
    refine ⟨ihN, ?_, ?_⟩
    · intro a b hab
      have hab0 : tPosition.mk a b ≠ p0 := fun h => hab (h ▸ List.mem_cons_self p0 l)
      have habl : tPosition.mk a b ∉ l := fun h => hab (List.mem_cons_of_mem p0 h)
      rw [ihFrame a b habl]
      exact hother (tPosition.mk a b) hab0
    · intro p hp
      rcases List.mem_cons.mp hp with hph | hpl
      · subst hph
        have hmem : tPosition.mk p.row p.column ∉ l := by
          rw [tPosition_eta]
          exact hp0l
        rw [ihFrame p.row p.column hmem, hc1]
        simp
      · have hpne : p ≠ p0 := fun h => hp0l (h ▸ hpl)
        rw [ihEffect p hpl]
        rw [hother p hpne]

theorem removeListEffect_nil (S : Nat) (cell : tCell) :
    removeListEffect S [] cell = cell := rfl

theorem removeListEffect_cons (S v : Nat) (vs : List Nat) (cell : tCell) :
    removeListEffect S (v :: vs) cell =
      removeListEffect S vs (removeCandidate_cellEffect S v cell) := rfl

theorem removeListEffect_hasCandidate (S : Nat) :
    ∀ (vs : List Nat) (cell : tCell) (w : Nat),
      (removeListEffect S vs cell).hasCandidate w =
        if w ∈ vs then false else cell.hasCandidate w := by
  intro vs
  induction vs with
  | nil =>
    intro cell w
    rw [removeListEffect_nil]
    simp
  | cons v vs ih =>
    intro cell w
    rw [removeListEffect_cons, ih]
    by_cases hw : w ∈ vs
    · rw [if_pos hw, if_pos (List.mem_cons_of_mem v hw)]
    · rw [if_neg hw]
      by_cases hwv : w = v
      · rw [if_pos (by rw [hwv]; exact List.mem_cons_self v vs), hwv]
        exact removeCandidate_cellEffect_clears S v cell
      · rw [if_neg (fun h => (List.mem_cons.mp h).elim hwv hw)]
        exact removeCandidate_cellEffect_other S v cell w hwv

/-- The inner candidate loop of technique_hiddenPair_removePairCells acts on
exactly one cell, applying the guarded removals in order. -/
theorem removeFoldAt_cells (v1 v2 n : Nat) (pc : tPosition) :
    ∀ (vs : List Nat) (g : tGrid), g.N = n →
      (progressFold (fun g1 candidate => if candidate ≠ v1 ∧ candidate ≠ v2 then
          grid_cell_removeCandidate g1 pc.row pc.column candidate
        else (g1, false)) g vs).1.N = n ∧
      (progressFold (fun g1 candidate => if candidate ≠ v1 ∧ candidate ≠ v2 then
          grid_cell_removeCandidate g1 pc.row pc.column candidate
        else (g1, false)) g vs).1.cells = fun a b =>
        if a = pc.row ∧ b = pc.column then
          removeListEffect (n * n)
            (vs.filter (fun w => decide (w ≠ v1) && decide (w ≠ v2))) (g.cells a b)
        else g.cells a b := by
  intro vs
  induction vs with
  | nil =>
    intro g hg
    refine ⟨hg, ?_⟩
    funext a b
    rw [List.filter_nil]
    show g.cells a b = if a = pc.row ∧ b = pc.column then
      removeListEffect (n * n) [] (g.cells a b) else g.cells a b
    rw [removeListEffect_nil]
    rw [ite_self]
  | cons v vs ih =>
    intro g hg
    rw [progressFold_cons]
    by_cases hgv : v ≠ v1 ∧ v ≠ v2
    · have hstep : (if v ≠ v1 ∧ v ≠ v2 then
          grid_cell_removeCandidate g pc.row pc.column v else (g, false)) =
          grid_cell_removeCandidate g pc.row pc.column v := if_pos hgv
      rw [hstep]
      have hg1 : (grid_cell_removeCandidate g pc.row pc.column v).1.N = n := by
        rw [grid_cell_removeCandidate_N]
        exact hg
      obtain ⟨ihN, ihCells⟩ := ih (grid_cell_removeCandidate g pc.row pc.column v).1 hg1
      refine ⟨ihN, ?_⟩
      rw [ihCells]
      funext a b
      rw [List.filter_cons_of_pos (by simp [hgv.1, hgv.2])]
      by_cases hab : a = pc.row ∧ b = pc.column
      · rw [if_pos hab, if_pos hab, removeListEffect_cons]
        rw [grid_cell_removeCandidate_cells]
        have hS : grid_size g = n * n := by
          unfold grid_size
          rw [hg]
        rw [hab.1, hab.2]
        simp [hS]
      · rw [if_neg hab, if_neg hab]
        exact grid_cell_removeCandidate_cells_other g pc.row pc.column v a b hab
    · have hstep : (if v ≠ v1 ∧ v ≠ v2 then
          grid_cell_removeCandidate g pc.row pc.column v else (g, false)) = (g, false) :=
        if_neg hgv
      rw [hstep]
      obtain ⟨ihN, ihCells⟩ := ih g hg
      refine ⟨ihN, ?_⟩
      rw [ihCells]
      rw [List.filter_cons_of_neg (by
        simp only [Bool.and_eq_true, decide_eq_true_eq]
        intro h
        exact hgv ⟨h.1, h.2⟩)]

theorem mem_candidatePairs {S : Nat} {cell : tCell} {pr : Nat × Nat}
    (h : pr ∈ candidatePairs S cell) :
    pr.1 < pr.2 ∧ cell.hasCandidate pr.1 = true ∧ cell.hasCandidate pr.2 = true := by
  unfold candidatePairs at h
  rw [List.mem_flatMap] at h
  obtain ⟨v1, hv1r, hpr⟩ := h
  by_cases hc : cell.hasCandidate v1 = true
  · rw [if_pos hc] at hpr
    rw [List.mem_map] at hpr
    obtain ⟨v2, hv2, heq⟩ := hpr
    rw [List.mem_filter] at hv2
    obtain ⟨hv2r, hv2c⟩ := hv2
    have hlt : v1 < v2 := by
      have := List.mem_range'_1.mp hv2r
      omega
    rw [← heq]
    exact ⟨hlt, hc, by simpa using hv2c⟩
  · rw [if_neg hc] at hpr
    cases hpr

theorem technique_hiddenPair_findPair_sound (g : tGrid) (target : tPosition)
    (ps : List tPosition) (v1 v2 : Nat) (partner : tPosition)
    (h : technique_hiddenPair_findPair g target ps = some (v1, v2, partner)) :
    v1 < v2 ∧ (g.cells target.row target.column).hasCandidate v1 = true ∧
      (g.cells target.row target.column).hasCandidate v2 = true ∧
      technique_hiddenPair_findPairCells g v1 v2 target ps = some partner := by
  unfold technique_hiddenPair_findPair at h
  obtain ⟨pr, hmem, hpr⟩ := List.exists_of_findSome?_eq_some h
  have hprops := mem_candidatePairs hmem
  cases hfc : technique_hiddenPair_findPairCells g pr.1 pr.2 target ps with
  | none => rw [hfc] at hpr; cases hpr
  | some q =>
    rw [hfc] at hpr
    injection hpr with hpr
    have h1 : pr.1 = v1 := congrArg Prod.fst hpr
    have h23 : (pr.2, q) = (v2, partner) := congrArg Prod.snd hpr
    have h2 : pr.2 = v2 := congrArg Prod.fst h23
    have h3 : q = partner := congrArg Prod.snd h23
    rw [h1, h2] at hprops
    rw [h1, h2, h3] at hfc
    exact ⟨hprops.1, hprops.2.1, hprops.2.2, hfc⟩

/-- Claim C3, amended: within a group scanned without duplicate positions,
technique_hiddenPair acts on a candidate pair (v1, v2) of the target iff
exactly two cells of the group hold both candidates (the target and one
partner), no other cell of the group holds either candidate, and the partner
— the non-target pair cell, whose cached count the code alone consults —
has more than two candidates.  When the technique acts, every candidate other
than v1 and v2 is removed from the two pair cells, the pair candidates
themselves survive, and every other cell keeps its candidates. -/
theorem technique_hiddenPair_spec (g : tGrid) (row column v1 v2 : Nat)
    (partner : tPosition) (ps : List tPosition) (hnd : ps.Nodup) :
    (technique_hiddenPair_findPairCells g v1 v2 (tPosition.mk row column) ps =
        some partner ↔
      (partner ∈ ps ∧ partner ≠ tPosition.mk row column ∧
        cell_hasCandidate (g.cells partner.row partner.column) v1 = true ∧
        cell_hasCandidate (g.cells partner.row partner.column) v2 = true ∧
        2 < cell_candidate_count (g.cells partner.row partner.column) ∧
        ∀ q ∈ ps, q ≠ tPosition.mk row column → q ≠ partner →
          cell_hasCandidate (g.cells q.row q.column) v1 = false ∧
          cell_hasCandidate (g.cells q.row q.column) v2 = false)) ∧
    (2 ≤ cell_candidate_count (g.cells row column) →
      technique_hiddenPair_findPair g (tPosition.mk row column) ps =
        some (v1, v2, partner) →
      (∀ w ∈ valueRange (grid_size g), w ≠ v1 → w ≠ v2 →
        ((technique_hiddenPair_group g row column ps).1.cells row column).hasCandidate w
          = false ∧
        ((technique_hiddenPair_group g row column ps).1.cells partner.row
          partner.column).hasCandidate w = false) ∧
      (((technique_hiddenPair_group g row column ps).1.cells row column).hasCandidate v1 =
          (g.cells row column).hasCandidate v1 ∧
        ((technique_hiddenPair_group g row column ps).1.cells row column).hasCandidate v2 =
          (g.cells row column).hasCandidate v2 ∧
        ((technique_hiddenPair_group g row column ps).1.cells partner.row
            partner.column).hasCandidate v1 =
          (g.cells partner.row partner.column).hasCandidate v1 ∧
        ((technique_hiddenPair_group g row column ps).1.cells partner.row
            partner.column).hasCandidate v2 =
          (g.cells partner.row partner.column).hasCandidate v2) ∧
      (∀ a b, tPosition.mk a b ≠ tPosition.mk row column → tPosition.mk a b ≠ partner →
        (technique_hiddenPair_group g row column ps).1.cells a b = g.cells a b)) := by
  constructor
  · exact technique_hiddenPair_findPairCells_iff g v1 v2 (tPosition.mk row column) partner
      ps hnd
  · intro hcount hfind
    obtain ⟨hlt, hc1t, hc2t, hfc⟩ :=
      technique_hiddenPair_findPair_sound g (tPosition.mk row column) ps v1 v2 partner hfind
    obtain ⟨hpmem, hpne, hpc1, hpc2, hpcnt, hrest⟩ :=
      (technique_hiddenPair_findPairCells_iff g v1 v2 (tPosition.mk row column) partner
        ps hnd).mp hfc
    have hgroup : technique_hiddenPair_group g row column ps =
        technique_hiddenPair_removePairCells g (tPosition.mk row column) partner v1 v2 := by
      unfold technique_hiddenPair_group
      rw [if_pos hcount, hfind]
    rw [hgroup]
    unfold technique_hiddenPair_removePairCells
    have hlnd : ([tPosition.mk row column, partner] : List tPosition).Nodup := by
      rw [List.nodup_cons]
      refine ⟨?_, List.nodup_singleton partner⟩
      intro h
      rw [List.mem_singleton] at h
      exact hpne h.symm
    obtain ⟨hN, hFrame, hEffect⟩ := progressFold_cellsOnly
      (fun g0 pc => progressFold (fun g1 candidate =>
        if candidate ≠ v1 ∧ candidate ≠ v2 then
          grid_cell_removeCandidate g1 pc.row pc.column candidate
        else (g1, false)) g0 (valueRange (grid_size g)))
      g.N
      (fun _ cell => removeListEffect (g.N * g.N)
        ((valueRange (grid_size g)).filter
          (fun w => decide (w ≠ v1) && decide (w ≠ v2))) cell)
      (fun g0 pc hg0 => (removeFoldAt_cells v1 v2 g.N pc (valueRange (grid_size g)) g0
        hg0).1)
      (fun g0 pc hg0 => (removeFoldAt_cells v1 v2 g.N pc (valueRange (grid_size g)) g0
        hg0).2)
      [tPosition.mk row column, partner] hlnd g rfl
    have hmemt : tPosition.mk row column ∈ ([tPosition.mk row column, partner] :
        List tPosition) := List.mem_cons_self _ _
    have hmemp : partner ∈ ([tPosition.mk row column, partner] : List tPosition) := by
      simp
    have het := hEffect (tPosition.mk row column) hmemt
    have hep := hEffect partner hmemp
    refine ⟨?_, ⟨?_, ?_, ?_, ?_⟩, ?_⟩
    · intro w hw hw1 hw2
      have hwmem : w ∈ (valueRange (grid_size g)).filter
          (fun x => decide (x ≠ v1) && decide (x ≠ v2)) := by
        rw [List.mem_filter]
        exact ⟨hw, by simp [hw1, hw2]⟩
      constructor
      · rw [het, removeListEffect_hasCandidate, if_pos hwmem]
      · rw [hep, removeListEffect_hasCandidate, if_pos hwmem]
    · rw [het, removeListEffect_hasCandidate,
        if_neg (fun h => by have := (List.mem_filter.mp h).2; simp at this)]
    · rw [het, removeListEffect_hasCandidate,
        if_neg (fun h => by have := (List.mem_filter.mp h).2; simp at this)]
    · rw [hep, removeListEffect_hasCandidate,
        if_neg (fun h => by have := (List.mem_filter.mp h).2; simp at this)]
    · rw [hep, removeListEffect_hasCandidate,
        if_neg (fun h => by have := (List.mem_filter.mp h).2; simp at this)]
    · intro a b hat hap
      refine hFrame a b ?_
      intro h
      rcases List.mem_cons.mp h with hh | hh
      · exact hat hh
      · rw [List.mem_singleton] at hh
        exact hap hh

/-- Claim C3 as stated is false on cxC3: the block of the target (0,0) holds
the pair (1, 2) in exactly the two pair cells, no other block cell holds 1 or
2, and one of the two pair cells (the target) has another candidate — yet the
group search rejects the pair (it only credits extra candidates of the
non-target cell) and the whole technique changes nothing and returns
false. -/
theorem technique_hiddenPair_claim_counterexample :
    (cell_hasCandidate (cxC3.cells 0 0) 1 = true ∧
      cell_hasCandidate (cxC3.cells 0 0) 2 = true ∧
      cell_hasCandidate (cxC3.cells 0 0) 3 = true ∧
      2 ≤ cell_candidate_count (cxC3.cells 0 0)) ∧
    (cell_hasCandidate (cxC3.cells 0 1) 1 = true ∧
      cell_hasCandidate (cxC3.cells 0 1) 2 = true) ∧
    (∀ q ∈ blockPositions cxC3 0 0, q ≠ tPosition.mk 0 0 → q ≠ tPosition.mk 0 1 →
      cell_hasCandidate (cxC3.cells q.row q.column) 1 = false ∧
      cell_hasCandidate (cxC3.cells q.row q.column) 2 = false) ∧
    technique_hiddenPair_findPairCells cxC3 1 2 (tPosition.mk 0 0)
      (blockPositions cxC3 0 0) = none ∧
    technique_hiddenPair cxC3 0 0 = (cxC3, false) :=
  ⟨by decide, by decide, by decide, by decide, rfl⟩

theorem technique_hiddenPair_spec_witness :
    ((technique_hiddenPair_group wgC3 0 0 (blockPositions wgC3 0 0)).1.cells 0 1
      ).hasCandidate 3 = false :=
  ((((technique_hiddenPair_spec wgC3 0 0 1 2 (tPosition.mk 0 1)
    (blockPositions wgC3 0 0) (by decide)).2 (by decide) (by decide)).1 3 (by decide)
    (by decide) (by decide)).2)

theorem progressFold_stay {α : Type} (f : tGrid → α → tGrid × Bool) :
    ∀ (l : List α) (g : tGrid), (∀ a ∈ l, (f g a).1 = g) →
      (progressFold f g l).1 = g := by
  intro l
  induction l with
  | nil => intro g _; rfl
  | cons a l ih =>
    intro g h
    rw [progressFold_cons]
    have ha := h a (List.mem_cons_self a l)
    simp only [ha]
    exact ih g (fun b hb => h b (List.mem_cons_of_mem a hb))

/-- If one element of the fold list turns g into gp while every other element
leaves both g and gp alone (and a repeat of the firing element leaves gp
alone), the fold's grid is gp. -/
theorem progressFold_fire_fst {α : Type} [DecidableEq α] (f : tGrid → α → tGrid × Bool)
    (t : α) (g gp : tGrid)
    (hgt : (f g t).1 = gp)
    (hgt2 : (f gp t).1 = gp) :
    ∀ (l : List α), (∀ a ∈ l, a ≠ t → f g a = (g, false)) →
      (∀ a ∈ l, a ≠ t → f gp a = (gp, false)) →
      t ∈ l → (progressFold f g l).1 = gp := by
  intro l
  induction l with
  | nil => intro _ _ h; cases h
  | cons a l ih =>
    intro hog hog2 hmem
    rw [progressFold_cons]
    by_cases hat : a = t
    · subst hat
      simp only [hgt]
      apply progressFold_stay
      intro b hb
      by_cases hbt : b = a
      · rw [hbt]
        exact hgt2
      · rw [hog2 b (List.mem_cons_of_mem a hb) hbt]
    · rw [hog a (List.mem_cons_self a l) hat]
      have htl : t ∈ l := by
        rcases List.mem_cons.mp hmem with h | h
        · exact absurd h.symm hat
        · exact h
      exact ih (fun b hb => hog b (List.mem_cons_of_mem a hb))
        (fun b hb => hog2 b (List.mem_cons_of_mem a hb)) htl

theorem technique_x_wing_vstep_noop (g : tGrid) (t : Nat × Nat × Nat)
    (h : x_wing_vcond g t = false) : technique_x_wing_vstep g t = (g, false) := by
  unfold technique_x_wing_vstep
  rw [if_neg (by rw [h]; intro hc; cases hc)]

theorem technique_x_wing_hstep_noop (g : tGrid) (t : Nat × Nat × Nat)
    (h : x_wing_hcond g t = false) : technique_x_wing_hstep g t = (g, false) := by
  unfold technique_x_wing_hstep
  rw [if_neg (by rw [h]; intro hc; cases hc)]

theorem guardedRemoveStep_N (v n : Nat) (P : tPosition → Prop) [DecidablePred P]
    (g : tGrid) (p : tPosition) (hg : g.N = n) :
    (if P p then grid_cell_removeCandidate g p.row p.column v else (g, false)).1.N
      = n := by
  by_cases hp : P p
  · rw [if_pos hp, grid_cell_removeCandidate_N]
    exact hg
  · rw [if_neg hp]
    exact hg

theorem guardedRemoveStep_cells (v n : Nat) (P : tPosition → Prop) [DecidablePred P]
    (g : tGrid) (p : tPosition) (hg : g.N = n) :
    (if P p then grid_cell_removeCandidate g p.row p.column v else (g, false)).1.cells =
      fun a b => if a = p.row ∧ b = p.column then
        (if P p then removeCandidate_cellEffect (n * n) v (g.cells a b) else g.cells a b)
      else g.cells a b := by
  have hS : grid_size g = n * n := by
    unfold grid_size
    rw [hg]
  by_cases hp : P p
  · rw [if_pos hp, grid_cell_removeCandidate_cells]
    funext a b
    by_cases hab : a = p.row ∧ b = p.column
    · rw [if_pos hab, if_pos hab, if_pos hp, hab.1, hab.2, hS]
    · rw [if_neg hab, if_neg hab]
  · rw [if_neg hp]
    funext a b
    by_cases hab : a = p.row ∧ b = p.column
    · rw [if_pos hab, if_neg hp]
    · rw [if_neg hab]

theorem mem_x_wing_vPositions {S r1 r2 : Nat} {p : tPosition} :
    p ∈ x_wing_vPositions S r1 r2 ↔ (p.row = r1 ∨ p.row = r2) ∧ p.column < S := by
  unfold x_wing_vPositions
  rw [List.mem_flatMap]
  constructor
  · rintro ⟨c, hc, hp⟩
    rw [List.mem_range] at hc
    rcases List.mem_cons.mp hp with h | h
    · rw [h]
      exact ⟨Or.inl rfl, hc⟩
    · rw [List.mem_singleton] at h
      rw [h]
      exact ⟨Or.inr rfl, hc⟩
  · rintro ⟨hr, hcS⟩
    refine ⟨p.column, List.mem_range.mpr hcS, ?_⟩
    rcases hr with h | h
    · rw [← h, tPosition_eta]
      exact List.mem_cons_self _ _
    · rw [← h, tPosition_eta]
      exact List.mem_cons_of_mem _ (List.mem_singleton.mpr rfl)

theorem mem_x_wing_hPositions {S c1 c2 : Nat} {p : tPosition} :
    p ∈ x_wing_hPositions S c1 c2 ↔ (p.column = c1 ∨ p.column = c2) ∧ p.row < S := by
  unfold x_wing_hPositions
  rw [List.mem_flatMap]
  constructor
  · rintro ⟨r, hr, hp⟩
    rw [List.mem_range] at hr
    rcases List.mem_cons.mp hp with h | h
    · rw [h]
      exact ⟨Or.inl rfl, hr⟩
    · rw [List.mem_singleton] at h
      rw [h]
      exact ⟨Or.inr rfl, hr⟩
  · rintro ⟨hc, hrS⟩
    refine ⟨p.row, List.mem_range.mpr hrS, ?_⟩
    rcases hc with h | h
    · rw [← h, tPosition_eta]
      exact List.mem_cons_self _ _
    · rw [← h, tPosition_eta]
      exact List.mem_cons_of_mem _ (List.mem_singleton.mpr rfl)

theorem x_wing_vPositions_nodup (S r1 r2 : Nat) (hne : r1 ≠ r2) :
    (x_wing_vPositions S r1 r2).Nodup := by
  unfold x_wing_vPositions
  have : ∀ l : List Nat, l.Nodup →
      (l.flatMap (fun c => [tPosition.mk r1 c, tPosition.mk r2 c])).Nodup := by
    intro l
    induction l with
    | nil => intro _; exact List.nodup_nil
    | cons c l ih =>
      intro hnd
      rcases List.nodup_cons.mp hnd with ⟨hcl, hndl⟩
      show (tPosition.mk r1 c :: tPosition.mk r2 c ::
        l.flatMap (fun c => [tPosition.mk r1 c, tPosition.mk r2 c])).Nodup
      have hmemcol : ∀ p : tPosition,
          p ∈ l.flatMap (fun c => [tPosition.mk r1 c, tPosition.mk r2 c]) →
          p.column ∈ l := by
        intro p hp
        rw [List.mem_flatMap] at hp
        obtain ⟨c2, hc2, hp2⟩ := hp
        rcases List.mem_cons.mp hp2 with h | h
        · rw [h]
          exact hc2
        · rw [List.mem_singleton] at h
          rw [h]
          exact hc2
      rw [List.nodup_cons, List.nodup_cons]
      refine ⟨?_, ?_, ih hndl⟩
      · intro h
        rcases List.mem_cons.mp h with h | h
        · exact hne (congrArg tPosition.row h)
        · exact hcl (hmemcol _ h)
      · intro h
        exact hcl (hmemcol _ h)
  exact this (List.range S) (List.nodup_range S)

theorem x_wing_hPositions_nodup (S c1 c2 : Nat) (hne : c1 ≠ c2) :
    (x_wing_hPositions S c1 c2).Nodup := by
  unfold x_wing_hPositions
  have : ∀ l : List Nat, l.Nodup →
      (l.flatMap (fun r => [tPosition.mk r c1, tPosition.mk r c2])).Nodup := by
    intro l
    induction l with
    | nil => intro _; exact List.nodup_nil
    | cons r l ih =>
      intro hnd
      rcases List.nodup_cons.mp hnd with ⟨hrl, hndl⟩
      show (tPosition.mk r c1 :: tPosition.mk r c2 ::
        l.flatMap (fun r => [tPosition.mk r c1, tPosition.mk r c2])).Nodup
      have hmemrow : ∀ p : tPosition,
          p ∈ l.flatMap (fun r => [tPosition.mk r c1, tPosition.mk r c2]) →
          p.row ∈ l := by
        intro p hp
        rw [List.mem_flatMap] at hp
        obtain ⟨r2, hr2, hp2⟩ := hp
        rcases List.mem_cons.mp hp2 with h | h
        · rw [h]
          exact hr2
        · rw [List.mem_singleton] at h
          rw [h]
          exact hr2
      rw [List.nodup_cons, List.nodup_cons]
      refine ⟨?_, ?_, ih hndl⟩
      · intro h
        rcases List.mem_cons.mp h with h | h
        · exact hne (congrArg tPosition.column h)
        · exact hrl (hmemrow _ h)
      · intro h
        exact hrl (hmemrow _ h)
  exact this (List.range S) (List.nodup_range S)

theorem mem_x_wing_triples {S a b w : Nat} :
    (a, b, w) ∈ x_wing_triples S ↔ a < b ∧ b < S ∧ 1 ≤ w ∧ w ≤ S := by
  unfold x_wing_triples
  rw [List.mem_flatMap]
  constructor
  · rintro ⟨a2, ha2, hrest⟩
    rw [List.mem_range] at ha2
    rw [List.mem_flatMap] at hrest
    obtain ⟨b2, hb2, hw⟩ := hrest
    rw [List.mem_range'_1] at hb2
    rw [List.mem_map] at hw
    obtain ⟨w2, hw2, heq⟩ := hw
    rw [mem_valueRange_iff] at hw2
    have h1 : a2 = a := congrArg Prod.fst heq
    have h23 : (b2, w2) = (b, w) := congrArg Prod.snd heq
    have h2 : b2 = b := congrArg Prod.fst h23
    have h3 : w2 = w := congrArg Prod.snd h23
    subst h1
    subst h2
    subst h3
    omega
  · rintro ⟨hab, hbS, hw1, hwS⟩
    refine ⟨a, List.mem_range.mpr (by omega), ?_⟩
    rw [List.mem_flatMap]
    refine ⟨b, List.mem_range'_1.mpr (by omega), ?_⟩
    rw [List.mem_map]
    exact ⟨w, mem_valueRange_iff.mpr ⟨hw1, hwS⟩, rfl⟩

theorem filter_pair_facts {S : Nat} {p : Nat → Bool} {r1 r2 : Nat}
    (h : (List.range S).filter p = [r1, r2]) :
    r1 < S ∧ r2 < S ∧ r1 ≠ r2 ∧ p r1 = true ∧ p r2 = true ∧
      (∀ r, p r = true → r < S → (r = r1 ∨ r = r2)) := by
  have h1 : r1 ∈ (List.range S).filter p := by
    rw [h]
    simp
  have h2 : r2 ∈ (List.range S).filter p := by
    rw [h]
    simp
  have hr1 := List.mem_filter.mp h1
  have hr2 := List.mem_filter.mp h2
  have hnd : ((List.range S).filter p).Nodup := (List.nodup_range S).filter _
  rw [h, List.nodup_cons] at hnd
  refine ⟨List.mem_range.mp hr1.1, List.mem_range.mp hr2.1, ?_, hr1.2, hr2.2, ?_⟩
  · intro hh
    exact hnd.1 (by rw [hh]; simp)
  · intro r hp hrS
    have : r ∈ (List.range S).filter p :=
      List.mem_filter.mpr ⟨List.mem_range.mpr hrS, hp⟩
    rw [h] at this
    simpa using this

theorem getD_mem_of_length_two {l : List Nat} (h : l.length = 2) :
    l.getD 0 0 ∈ l ∧ l.getD 1 0 ∈ l := by
  match l, h with
  | [a, b], _ => simp [List.getD]

/-- A guarded removal fold whose guarded cells all lack the candidate leaves
the grid unchanged. -/
theorem guardedRemoveFold_stay (v : Nat) (hv : 1 ≤ v) (P : tPosition → Prop)
    [DecidablePred P] (g : tGrid) (l : List tPosition)
    (h : ∀ p ∈ l, P p → cell_hasCandidate (g.cells p.row p.column) v = false) :
    (progressFold (fun g0 p => if P p then grid_cell_removeCandidate g0 p.row p.column v
      else (g0, false)) g l).1 = g := by
  apply progressFold_stay
  intro p hp
  by_cases hP : P p
  · rw [if_pos hP]
    apply grid_cell_removeCandidate_no_progress
    rw [grid_cell_removeCandidate_snd _ _ _ _ hv]
    exact h p hp hP
  · rw [if_neg hP]

theorem technique_x_wing_vstep_eq (g : tGrid) (t : Nat × Nat × Nat) :
    technique_x_wing_vstep g t =
      if x_wing_vcond g t = true then
        progressFold (fun g0 p =>
          if p.column ≠ t.1 ∧ p.column ≠ t.2.1 then
            grid_cell_removeCandidate g0 p.row p.column t.2.2
          else (g0, false)) g
          (x_wing_vPositions (grid_size g)
            ((x_wing_bothRows g t.1 t.2.1 t.2.2).getD 0 0)
            ((x_wing_bothRows g t.1 t.2.1 t.2.2).getD 1 0))
      else (g, false) := rfl

theorem technique_x_wing_hstep_eq (g : tGrid) (t : Nat × Nat × Nat) :
    technique_x_wing_hstep g t =
      if x_wing_hcond g t = true then
        progressFold (fun g0 p =>
          if p.row ≠ t.1 ∧ p.row ≠ t.2.1 then
            grid_cell_removeCandidate g0 p.row p.column t.2.2
          else (g0, false)) g
          (x_wing_hPositions (grid_size g)
            ((x_wing_bothCols g t.1 t.2.1 t.2.2).getD 0 0)
            ((x_wing_bothCols g t.1 t.2.1 t.2.2).getD 1 0))
      else (g, false) := rfl

theorem x_wing_bothRows_of_cols (g : tGrid) (c1 c2 v r1 r2 : Nat)
    (hcol1 : x_wing_colRows g c1 v = [r1, r2])
    (hcol2 : x_wing_colRows g c2 v = [r1, r2]) :
    x_wing_bothRows g c1 c2 v = [r1, r2] := by
  have hcol1f : (List.range (grid_size g)).filter
      (fun r => cell_hasCandidate (g.cells r c1) v) = [r1, r2] := hcol1
  have hcol2f : (List.range (grid_size g)).filter
      (fun r => cell_hasCandidate (g.cells r c2) v) = [r1, r2] := hcol2
  obtain ⟨hr1S, hr2S, hr12, hp11, hp12, hfwd1⟩ := filter_pair_facts hcol1f
  obtain ⟨-, -, -, hp21, hp22, -⟩ := filter_pair_facts hcol2f
  unfold x_wing_bothRows
  rw [List.filter_congr (q := fun r => cell_hasCandidate (g.cells r c1) v) ?_]
  · exact hcol1f
  · intro r hr
    cases hx : cell_hasCandidate (g.cells r c1) v
    · simp [hx]
    · rcases hfwd1 r hx (List.mem_range.mp hr) with h | h
      · rw [h]
        simp [hp11, hp21]
      · rw [h]
        simp [hp12, hp22]

/-- Description of one vertical X-wing firing on a grid where both columns
hold the candidate in exactly the rows r1 and r2: only cells of those rows
outside the two columns change, and there the candidate is cleared. -/
theorem x_wing_vfire (g : tGrid) (c1 c2 v r1 r2 : Nat)
    (hcol1 : x_wing_colRows g c1 v = [r1, r2])
    (hcol2 : x_wing_colRows g c2 v = [r1, r2]) :
    (technique_x_wing_vstep g (c1, c2, v)).1.N = g.N ∧
    (∀ a b, a ≠ r1 → a ≠ r2 →
      (technique_x_wing_vstep g (c1, c2, v)).1.cells a b = g.cells a b) ∧
    (∀ a b, b = c1 ∨ b = c2 →
      (technique_x_wing_vstep g (c1, c2, v)).1.cells a b = g.cells a b) ∧
    (∀ c, c < grid_size g → c ≠ c1 → c ≠ c2 →
      ((technique_x_wing_vstep g (c1, c2, v)).1.cells r1 c).hasCandidate v = false ∧
      ((technique_x_wing_vstep g (c1, c2, v)).1.cells r2 c).hasCandidate v = false) := by
  have hcol1f : (List.range (grid_size g)).filter
      (fun r => cell_hasCandidate (g.cells r c1) v) = [r1, r2] := hcol1
  have hcol2f : (List.range (grid_size g)).filter
      (fun r => cell_hasCandidate (g.cells r c2) v) = [r1, r2] := hcol2
  obtain ⟨hr1S, hr2S, hr12, hp11, hp12, hfwd1⟩ := filter_pair_facts hcol1f
  obtain ⟨-, -, -, hp21, hp22, hfwd2⟩ := filter_pair_facts hcol2f
  have hboth : x_wing_bothRows g c1 c2 v = [r1, r2] :=
    x_wing_bothRows_of_cols g c1 c2 v r1 r2 hcol1 hcol2
  have hvcond : x_wing_vcond g (c1, c2, v) = true := by
    unfold x_wing_vcond
    show ((x_wing_bothRows g c1 c2 v).length == 2 &&
      (x_wing_colRows g c1 v).length == 2 && ((x_wing_colRows g c2 v).length == 2)) = true
    rw [hboth, hcol1, hcol2]
    rfl
  have hfire : technique_x_wing_vstep g (c1, c2, v) =
      progressFold (fun g0 p =>
        if p.column ≠ c1 ∧ p.column ≠ c2 then
          grid_cell_removeCandidate g0 p.row p.column v
        else (g0, false)) g (x_wing_vPositions (grid_size g) r1 r2) := by
    unfold technique_x_wing_vstep
    rw [if_pos hvcond, hboth]
    rfl
  obtain ⟨hN, hFrame, hEffect⟩ := progressFold_cellsOnly
    (fun g0 p => if p.column ≠ c1 ∧ p.column ≠ c2 then
      grid_cell_removeCandidate g0 p.row p.column v else (g0, false))
    g.N
    (fun p cell => if p.column ≠ c1 ∧ p.column ≠ c2 then
      removeCandidate_cellEffect (g.N * g.N) v cell else cell)
    (fun g0 p hg0 => guardedRemoveStep_N v g.N
      (fun p => p.column ≠ c1 ∧ p.column ≠ c2) g0 p hg0)
    (fun g0 p hg0 => guardedRemoveStep_cells v g.N
      (fun p => p.column ≠ c1 ∧ p.column ≠ c2) g0 p hg0)
    (x_wing_vPositions (grid_size g) r1 r2)
    (x_wing_vPositions_nodup (grid_size g) r1 r2 hr12) g rfl
  rw [hfire]
  refine ⟨hN, ?_, ?_, ?_⟩
  · intro a b ha1 ha2
    refine hFrame a b ?_
    intro h
    rcases (mem_x_wing_vPositions.mp h).1 with hh | hh
    · exact ha1 hh
    · exact ha2 hh
  · intro a b hb
    by_cases hmem : tPosition.mk a b ∈ x_wing_vPositions (grid_size g) r1 r2
    · have := hEffect (tPosition.mk a b) hmem
      simp only [] at this
      rw [this]
      rw [if_neg (by
        intro hcon
        rcases hb with h | h
        · exact hcon.1 h
        · exact hcon.2 h)]
    · exact hFrame a b hmem
  · intro c hcS hc1 hc2
    have hm1 : tPosition.mk r1 c ∈ x_wing_vPositions (grid_size g) r1 r2 :=
      mem_x_wing_vPositions.mpr ⟨Or.inl rfl, hcS⟩
    have hm2 : tPosition.mk r2 c ∈ x_wing_vPositions (grid_size g) r1 r2 :=
      mem_x_wing_vPositions.mpr ⟨Or.inr rfl, hcS⟩
    have he1 := hEffect (tPosition.mk r1 c) hm1
    have he2 := hEffect (tPosition.mk r2 c) hm2
    simp only [] at he1 he2
    rw [he1, he2, if_pos ⟨hc1, hc2⟩, if_pos ⟨hc1, hc2⟩]
    exact ⟨removeCandidate_cellEffect_clears _ _ _, removeCandidate_cellEffect_clears _ _ _⟩

/-- A second firing of the same vertical X-wing triple finds nothing left to
remove. -/
theorem x_wing_vfire_vstay (g : tGrid) (c1 c2 v r1 r2 : Nat) (hvv : 1 ≤ v)
    (hcol1 : x_wing_colRows g c1 v = [r1, r2])
    (hcol2 : x_wing_colRows g c2 v = [r1, r2]) :
    (technique_x_wing_vstep (technique_x_wing_vstep g (c1, c2, v)).1 (c1, c2, v)).1 =
      (technique_x_wing_vstep g (c1, c2, v)).1 := by
  obtain ⟨hN, hRows, hCols, hClear⟩ := x_wing_vfire g c1 c2 v r1 r2 hcol1 hcol2
  have hcol1f : (List.range (grid_size g)).filter
      (fun r => cell_hasCandidate (g.cells r c1) v) = [r1, r2] := hcol1
  obtain ⟨hr1S, hr2S, hr12, hp11, hp12, hfwd1⟩ := filter_pair_facts hcol1f
  have hSz : grid_size (technique_x_wing_vstep g (c1, c2, v)).1 = grid_size g := by
    unfold grid_size
    rw [hN]
  by_cases hcond : x_wing_vcond (technique_x_wing_vstep g (c1, c2, v)).1 (c1, c2, v)
      = true
  · have hbg : x_wing_bothRows (technique_x_wing_vstep g (c1, c2, v)).1 c1 c2 v
        = [r1, r2] := by
      unfold x_wing_bothRows
      rw [hSz]
      rw [List.filter_congr (q := fun r => cell_hasCandidate (g.cells r c1) v &&
        cell_hasCandidate (g.cells r c2) v) ?_]
      · exact x_wing_bothRows_of_cols g c1 c2 v r1 r2 hcol1 hcol2
      · intro r hr
        unfold cell_hasCandidate
        rw [hCols r c1 (Or.inl rfl), hCols r c2 (Or.inr rfl)]
    have hstep_eq : technique_x_wing_vstep (technique_x_wing_vstep g (c1, c2, v)).1
        (c1, c2, v) =
        progressFold (fun g0 p =>
          if p.column ≠ c1 ∧ p.column ≠ c2 then
            grid_cell_removeCandidate g0 p.row p.column v
          else (g0, false)) (technique_x_wing_vstep g (c1, c2, v)).1
          (x_wing_vPositions (grid_size (technique_x_wing_vstep g (c1, c2, v)).1)
            r1 r2) := by
      rw [technique_x_wing_vstep_eq ((technique_x_wing_vstep g (c1, c2, v)).1)
        (c1, c2, v)]
      rw [if_pos hcond, hbg]
      rfl
    rw [hstep_eq]
    apply guardedRemoveFold_stay v hvv
    intro p hp hP
    obtain ⟨hrow, hcolS⟩ := mem_x_wing_vPositions.mp hp
    rw [hSz] at hcolS
    unfold cell_hasCandidate
    rcases hrow with h | h
    · rw [h]
      exact (hClear p.column hcolS hP.1 hP.2).1
    · rw [h]
      exact (hClear p.column hcolS hP.1 hP.2).2
  · have hfalse : x_wing_vcond (technique_x_wing_vstep g (c1, c2, v)).1 (c1, c2, v)
        = false := by
      cases hb : x_wing_vcond (technique_x_wing_vstep g (c1, c2, v)).1 (c1, c2, v)
      · rfl
      · exact absurd hb hcond
    rw [technique_x_wing_vstep_noop _ _ hfalse]

/-- After a vertical X-wing firing, the symmetric horizontal triple finds
nothing left to remove: the candidate only survives at the four
intersections. -/
theorem x_wing_vfire_hstay (g : tGrid) (c1 c2 v r1 r2 : Nat) (hvv : 1 ≤ v)
    (hcol1 : x_wing_colRows g c1 v = [r1, r2])
    (hcol2 : x_wing_colRows g c2 v = [r1, r2]) :
    (technique_x_wing_hstep (technique_x_wing_vstep g (c1, c2, v)).1 (r1, r2, v)).1 =
      (technique_x_wing_vstep g (c1, c2, v)).1 := by
  obtain ⟨hN, hRows, hCols, hClear⟩ := x_wing_vfire g c1 c2 v r1 r2 hcol1 hcol2
  have hcol1f : (List.range (grid_size g)).filter
      (fun r => cell_hasCandidate (g.cells r c1) v) = [r1, r2] := hcol1
  have hcol2f : (List.range (grid_size g)).filter
      (fun r => cell_hasCandidate (g.cells r c2) v) = [r1, r2] := hcol2
  obtain ⟨hr1S, hr2S, hr12, hp11, hp12, hfwd1⟩ := filter_pair_facts hcol1f
  obtain ⟨-, -, -, hp21, hp22, hfwd2⟩ := filter_pair_facts hcol2f
  have hSz : grid_size (technique_x_wing_vstep g (c1, c2, v)).1 = grid_size g := by
    unfold grid_size
    rw [hN]
  by_cases hcond : x_wing_hcond (technique_x_wing_vstep g (c1, c2, v)).1 (r1, r2, v)
      = true
  · have hlen : (x_wing_bothCols (technique_x_wing_vstep g (c1, c2, v)).1 r1 r2 v).length
        = 2 := by
      unfold x_wing_hcond at hcond
      rw [Bool.and_eq_true, Bool.and_eq_true] at hcond
      have := hcond.1.1
      simpa using this
    have hcolsIn : ∀ cx ∈ x_wing_bothCols (technique_x_wing_vstep g (c1, c2, v)).1
        r1 r2 v, cx = c1 ∨ cx = c2 := by
      intro cx hcx
      unfold x_wing_bothCols at hcx
      rw [List.mem_filter] at hcx
      obtain ⟨hcxS, hcxp⟩ := hcx
      rw [List.mem_range, hSz] at hcxS
      rw [Bool.and_eq_true] at hcxp
      by_contra hcon
      push_neg at hcon
      have := (hClear cx hcxS hcon.1 hcon.2).1
      unfold cell_hasCandidate at hcxp
      rw [this] at hcxp
      cases hcxp.1
    obtain ⟨hmA, hmB⟩ := getD_mem_of_length_two hlen
    have hA := hcolsIn _ hmA
    have hB := hcolsIn _ hmB
    rw [technique_x_wing_hstep_eq ((technique_x_wing_vstep g (c1, c2, v)).1) (r1, r2, v)]
    rw [if_pos hcond]
    show (progressFold (fun (g0 : tGrid) (p : tPosition) =>
      if p.row ≠ r1 ∧ p.row ≠ r2 then
        grid_cell_removeCandidate g0 p.row p.column v
      else (g0, false)) (technique_x_wing_vstep g (c1, c2, v)).1 _).1 = _
    apply guardedRemoveFold_stay v hvv
    intro p hp hP
    obtain ⟨hcol, hrowS⟩ := mem_x_wing_hPositions.mp hp
    have hpc : p.column = c1 ∨ p.column = c2 := by
      rcases hcol with h | h
      · rw [h]
        exact hA
      · rw [h]
        exact hB
    rw [hSz] at hrowS
    unfold cell_hasCandidate
    rw [hCols p.row p.column hpc]
    cases hx : (g.cells p.row p.column).hasCandidate v
    · rfl
    · exfalso
      rcases hpc with h | h
      · rw [h] at hx
        rcases hfwd1 p.row (by unfold cell_hasCandidate; exact hx) hrowS with hh | hh
        · exact hP.1 hh
        · exact hP.2 hh
      · rw [h] at hx
        rcases hfwd2 p.row (by unfold cell_hasCandidate; exact hx) hrowS with hh | hh
        · exact hP.1 hh
        · exact hP.2 hh
  · have hfalse : x_wing_hcond (technique_x_wing_vstep g (c1, c2, v)).1 (r1, r2, v)
        = false := by
      cases hb : x_wing_hcond (technique_x_wing_vstep g (c1, c2, v)).1 (r1, r2, v)
      · rfl
      · exact absurd hb hcond
    rw [technique_x_wing_hstep_noop _ _ hfalse]

theorem x_wing_bothCols_of_rows (g : tGrid) (r1 r2 v c1 c2 : Nat)
    (hrow1 : x_wing_rowCols g r1 v = [c1, c2])
    (hrow2 : x_wing_rowCols g r2 v = [c1, c2]) :
    x_wing_bothCols g r1 r2 v = [c1, c2] := by
  have hrow1f : (List.range (grid_size g)).filter
      (fun c => cell_hasCandidate (g.cells r1 c) v) = [c1, c2] := hrow1
  have hrow2f : (List.range (grid_size g)).filter
      (fun c => cell_hasCandidate (g.cells r2 c) v) = [c1, c2] := hrow2
  obtain ⟨hc1S, hc2S, hc12, hp11, hp12, hfwd1⟩ := filter_pair_facts hrow1f
  obtain ⟨-, -, -, hp21, hp22, -⟩ := filter_pair_facts hrow2f
  unfold x_wing_bothCols
  rw [List.filter_congr (q := fun c => cell_hasCandidate (g.cells r1 c) v) ?_]
  · exact hrow1f
  · intro c hc
    cases hx : cell_hasCandidate (g.cells r1 c) v
    · simp [hx]
    · rcases hfwd1 c hx (List.mem_range.mp hc) with h | h
      · rw [h]
        simp [hp11, hp21]
      · rw [h]
        simp [hp12, hp22]

/-- Description of one horizontal X-wing firing on a grid where both rows
hold the candidate in exactly the columns c1 and c2. -/
theorem x_wing_hfire (g : tGrid) (r1 r2 v c1 c2 : Nat)
    (hrow1 : x_wing_rowCols g r1 v = [c1, c2])
    (hrow2 : x_wing_rowCols g r2 v = [c1, c2]) :
    (technique_x_wing_hstep g (r1, r2, v)).1.N = g.N ∧
    (∀ a b, b ≠ c1 → b ≠ c2 →
      (technique_x_wing_hstep g (r1, r2, v)).1.cells a b = g.cells a b) ∧
    (∀ a b, a = r1 ∨ a = r2 →
      (technique_x_wing_hstep g (r1, r2, v)).1.cells a b = g.cells a b) ∧
    (∀ r, r < grid_size g → r ≠ r1 → r ≠ r2 →
      ((technique_x_wing_hstep g (r1, r2, v)).1.cells r c1).hasCandidate v = false ∧
      ((technique_x_wing_hstep g (r1, r2, v)).1.cells r c2).hasCandidate v = false) := by
  have hrow1f : (List.range (grid_size g)).filter
      (fun c => cell_hasCandidate (g.cells r1 c) v) = [c1, c2] := hrow1
  have hrow2f : (List.range (grid_size g)).filter
      (fun c => cell_hasCandidate (g.cells r2 c) v) = [c1, c2] := hrow2
  obtain ⟨hc1S, hc2S, hc12, hp11, hp12, hfwd1⟩ := filter_pair_facts hrow1f
  obtain ⟨-, -, -, hp21, hp22, hfwd2⟩ := filter_pair_facts hrow2f
  have hboth : x_wing_bothCols g r1 r2 v = [c1, c2] :=
    x_wing_bothCols_of_rows g r1 r2 v c1 c2 hrow1 hrow2
  have hhcond : x_wing_hcond g (r1, r2, v) = true := by
    unfold x_wing_hcond
    show ((x_wing_bothCols g r1 r2 v).length == 2 &&
      (x_wing_rowCols g r1 v).length == 2 && ((x_wing_rowCols g r2 v).length == 2)) = true
    rw [hboth, hrow1, hrow2]
    rfl
  have hfire : technique_x_wing_hstep g (r1, r2, v) =
      progressFold (fun g0 p =>
        if p.row ≠ r1 ∧ p.row ≠ r2 then
          grid_cell_removeCandidate g0 p.row p.column v
        else (g0, false)) g (x_wing_hPositions (grid_size g) c1 c2) := by
    unfold technique_x_wing_hstep
    rw [if_pos hhcond, hboth]
    rfl
  obtain ⟨hN, hFrame, hEffect⟩ := progressFold_cellsOnly
    (fun g0 p => if p.row ≠ r1 ∧ p.row ≠ r2 then
      grid_cell_removeCandidate g0 p.row p.column v else (g0, false))
    g.N
    (fun p cell => if p.row ≠ r1 ∧ p.row ≠ r2 then
      removeCandidate_cellEffect (g.N * g.N) v cell else cell)
    (fun g0 p hg0 => guardedRemoveStep_N v g.N
      (fun p => p.row ≠ r1 ∧ p.row ≠ r2) g0 p hg0)
    (fun g0 p hg0 => guardedRemoveStep_cells v g.N
      (fun p => p.row ≠ r1 ∧ p.row ≠ r2) g0 p hg0)
    (x_wing_hPositions (grid_size g) c1 c2)
    (x_wing_hPositions_nodup (grid_size g) c1 c2 hc12) g rfl
  rw [hfire]
  refine ⟨hN, ?_, ?_, ?_⟩
  · intro a b hb1 hb2
    refine hFrame a b ?_
    intro h
    rcases (mem_x_wing_hPositions.mp h).1 with hh | hh
    · exact hb1 hh
    · exact hb2 hh
  · intro a b ha
    by_cases hmem : tPosition.mk a b ∈ x_wing_hPositions (grid_size g) c1 c2
    · have := hEffect (tPosition.mk a b) hmem
      simp only [] at this
      rw [this]
      rw [if_neg (by
        intro hcon
        rcases ha with h | h
        · exact hcon.1 h
        · exact hcon.2 h)]
    · exact hFrame a b hmem
  · intro r hrS hr1 hr2
    have hm1 : tPosition.mk r c1 ∈ x_wing_hPositions (grid_size g) c1 c2 :=
      mem_x_wing_hPositions.mpr ⟨Or.inl rfl, hrS⟩
    have hm2 : tPosition.mk r c2 ∈ x_wing_hPositions (grid_size g) c1 c2 :=
      mem_x_wing_hPositions.mpr ⟨Or.inr rfl, hrS⟩
    have he1 := hEffect (tPosition.mk r c1) hm1
    have he2 := hEffect (tPosition.mk r c2) hm2
    simp only [] at he1 he2
    rw [he1, he2, if_pos ⟨hr1, hr2⟩, if_pos ⟨hr1, hr2⟩]
    exact ⟨removeCandidate_cellEffect_clears _ _ _, removeCandidate_cellEffect_clears _ _ _⟩

/-- A second firing of the same horizontal X-wing triple finds nothing left
to remove. -/
theorem x_wing_hfire_hstay (g : tGrid) (r1 r2 v c1 c2 : Nat) (hvv : 1 ≤ v)
    (hrow1 : x_wing_rowCols g r1 v = [c1, c2])
    (hrow2 : x_wing_rowCols g r2 v = [c1, c2]) :
    (technique_x_wing_hstep (technique_x_wing_hstep g (r1, r2, v)).1 (r1, r2, v)).1 =
      (technique_x_wing_hstep g (r1, r2, v)).1 := by
  obtain ⟨hN, hCols, hRows, hClear⟩ := x_wing_hfire g r1 r2 v c1 c2 hrow1 hrow2
  have hrow1f : (List.range (grid_size g)).filter
      (fun c => cell_hasCandidate (g.cells r1 c) v) = [c1, c2] := hrow1
  obtain ⟨hc1S, hc2S, hc12, hp11, hp12, hfwd1⟩ := filter_pair_facts hrow1f
  have hSz : grid_size (technique_x_wing_hstep g (r1, r2, v)).1 = grid_size g := by
    unfold grid_size
    rw [hN]
  by_cases hcond : x_wing_hcond (technique_x_wing_hstep g (r1, r2, v)).1 (r1, r2, v)
      = true
  · have hbg : x_wing_bothCols (technique_x_wing_hstep g (r1, r2, v)).1 r1 r2 v
        = [c1, c2] := by
      unfold x_wing_bothCols
      rw [hSz]
      rw [List.filter_congr (q := fun c => cell_hasCandidate (g.cells r1 c) v &&
        cell_hasCandidate (g.cells r2 c) v) ?_]
      · exact x_wing_bothCols_of_rows g r1 r2 v c1 c2 hrow1 hrow2
      · intro c hc
        unfold cell_hasCandidate
        rw [hRows r1 c (Or.inl rfl), hRows r2 c (Or.inr rfl)]
    have hstep_eq : technique_x_wing_hstep (technique_x_wing_hstep g (r1, r2, v)).1
        (r1, r2, v) =
        progressFold (fun g0 p =>
          if p.row ≠ r1 ∧ p.row ≠ r2 then
            grid_cell_removeCandidate g0 p.row p.column v
          else (g0, false)) (technique_x_wing_hstep g (r1, r2, v)).1
          (x_wing_hPositions (grid_size (technique_x_wing_hstep g (r1, r2, v)).1)
            c1 c2) := by
      rw [technique_x_wing_hstep_eq ((technique_x_wing_hstep g (r1, r2, v)).1)
        (r1, r2, v)]
      rw [if_pos hcond, hbg]
      rfl
    rw [hstep_eq]
    apply guardedRemoveFold_stay v hvv
    intro p hp hP
    obtain ⟨hcol, hrowS⟩ := mem_x_wing_hPositions.mp hp
    rw [hSz] at hrowS
    unfold cell_hasCandidate
    rcases hcol with h | h
    · rw [← tPosition_eta p, h] at hP ⊢
      exact (hClear p.row hrowS hP.1 hP.2).1
    · rw [← tPosition_eta p, h] at hP ⊢
      exact (hClear p.row hrowS hP.1 hP.2).2
  · have hfalse : x_wing_hcond (technique_x_wing_hstep g (r1, r2, v)).1 (r1, r2, v)
        = false := by
      cases hb : x_wing_hcond (technique_x_wing_hstep g (r1, r2, v)).1 (r1, r2, v)
      · rfl
      · exact absurd hb hcond
    rw [technique_x_wing_hstep_noop _ _ hfalse]

/-- C4: X-wing. Vertical scenario: when columns c1 < c2 both hold candidate v
in exactly the rows r1 and r2 (and no other triple of either orientation
fires), technique_x_wing removes v from every cell of rows r1 and r2 outside
columns c1 and c2, the four intersection cells keep v, and no cell outside
rows r1 and r2 changes. Horizontal scenario: the exact row/column dual. -/
theorem technique_x_wing_spec (g : tGrid) :
    (∀ c1 c2 v r1 r2,
      (c1, c2, v) ∈ x_wing_triples (grid_size g) →
      x_wing_colRows g c1 v = [r1, r2] →
      x_wing_colRows g c2 v = [r1, r2] →
      (∀ t ∈ x_wing_triples (grid_size g), t ≠ (c1, c2, v) →
        x_wing_vcond g t = false ∧
        x_wing_vcond (technique_x_wing_vstep g (c1, c2, v)).1 t = false) →
      (∀ t ∈ x_wing_triples (grid_size g), t ≠ (r1, r2, v) →
        x_wing_hcond (technique_x_wing_vstep g (c1, c2, v)).1 t = false) →
      (∀ c, c < grid_size g → c ≠ c1 → c ≠ c2 →
        ((technique_x_wing g).1.cells r1 c).hasCandidate v = false ∧
        ((technique_x_wing g).1.cells r2 c).hasCandidate v = false) ∧
      (∀ a b, (a = r1 ∨ a = r2) → (b = c1 ∨ b = c2) →
        ((technique_x_wing g).1.cells a b).hasCandidate v = true) ∧
      (∀ a b, a ≠ r1 → a ≠ r2 →
        (technique_x_wing g).1.cells a b = g.cells a b)) ∧
    (∀ r1 r2 v c1 c2,
      (r1, r2, v) ∈ x_wing_triples (grid_size g) →
      x_wing_rowCols g r1 v = [c1, c2] →
      x_wing_rowCols g r2 v = [c1, c2] →
      (∀ t ∈ x_wing_triples (grid_size g), x_wing_vcond g t = false) →
      (∀ t ∈ x_wing_triples (grid_size g), t ≠ (r1, r2, v) →
        x_wing_hcond g t = false ∧
        x_wing_hcond (technique_x_wing_hstep g (r1, r2, v)).1 t = false) →
      (∀ r, r < grid_size g → r ≠ r1 → r ≠ r2 →
        ((technique_x_wing g).1.cells r c1).hasCandidate v = false ∧
        ((technique_x_wing g).1.cells r c2).hasCandidate v = false) ∧
      (∀ a b, (a = r1 ∨ a = r2) → (b = c1 ∨ b = c2) →
        ((technique_x_wing g).1.cells a b).hasCandidate v = true) ∧
      (∀ a b, b ≠ c1 → b ≠ c2 →
        (technique_x_wing g).1.cells a b = g.cells a b)) := by
  constructor
  · intro c1 c2 v r1 r2 hmem hcol1 hcol2 hothers hhor
    obtain ⟨hcc, hc2S, hvv, hvS⟩ := mem_x_wing_triples.mp hmem
    have hcol1f : (List.range (grid_size g)).filter
        (fun r => cell_hasCandidate (g.cells r c1) v) = [r1, r2] := hcol1
    have hcol2f : (List.range (grid_size g)).filter
        (fun r => cell_hasCandidate (g.cells r c2) v) = [r1, r2] := hcol2
    obtain ⟨hr1S, hr2S, hr12, hp11, hp12, hfwd1⟩ := filter_pair_facts hcol1f
    obtain ⟨-, -, -, hp21, hp22, -⟩ := filter_pair_facts hcol2f
    obtain ⟨hN, hRows, hCols, hClear⟩ := x_wing_vfire g c1 c2 v r1 r2 hcol1 hcol2
    have hvfold : (progressFold technique_x_wing_vstep g
        (x_wing_triples (grid_size g))).1 = (technique_x_wing_vstep g (c1, c2, v)).1 := by
      apply progressFold_fire_fst technique_x_wing_vstep (c1, c2, v) g
        (technique_x_wing_vstep g (c1, c2, v)).1 rfl
        (x_wing_vfire_vstay g c1 c2 v r1 r2 hvv hcol1 hcol2)
      · intro t ht hne
        exact technique_x_wing_vstep_noop g t (hothers t ht hne).1
      · intro t ht hne
        exact technique_x_wing_vstep_noop _ t (hothers t ht hne).2
      · exact hmem
    have hhfold : (progressFold technique_x_wing_hstep
        (progressFold technique_x_wing_vstep g (x_wing_triples (grid_size g))).1
        (x_wing_triples (grid_size g))).1 = (technique_x_wing_vstep g (c1, c2, v)).1 := by
      rw [hvfold]
      apply progressFold_stay
      intro t ht
      by_cases hne : t = (r1, r2, v)
      · rw [hne]
        exact x_wing_vfire_hstay g c1 c2 v r1 r2 hvv hcol1 hcol2
      · rw [technique_x_wing_hstep_noop _ t (hhor t ht hne)]
    have hmain : (technique_x_wing g).1 = (technique_x_wing_vstep g (c1, c2, v)).1 := by
      show (progressFold technique_x_wing_hstep
        (progressFold technique_x_wing_vstep g (x_wing_triples (grid_size g))).1
        (x_wing_triples (grid_size g))).1 = _
      exact hhfold
    rw [hmain]
    refine ⟨hClear, ?_, hRows⟩
    intro a b ha hb
    rw [hCols a b hb]
    rcases ha with h | h <;> rcases hb with h' | h' <;> rw [h, h']
    · exact hp11
    · exact hp21
    · exact hp12
    · exact hp22
  · intro r1 r2 v c1 c2 hmem hrow1 hrow2 hvnone hhothers
    obtain ⟨hrr, hr2S, hvv, hvS⟩ := mem_x_wing_triples.mp hmem
    have hrow1f : (List.range (grid_size g)).filter
        (fun c => cell_hasCandidate (g.cells r1 c) v) = [c1, c2] := hrow1
    have hrow2f : (List.range (grid_size g)).filter
        (fun c => cell_hasCandidate (g.cells r2 c) v) = [c1, c2] := hrow2
    obtain ⟨hc1S, hc2S, hc12, hp11, hp12, hfwd1⟩ := filter_pair_facts hrow1f
    obtain ⟨-, -, -, hp21, hp22, -⟩ := filter_pair_facts hrow2f
    obtain ⟨hN, hColsFrame, hRowsKeep, hClear⟩ := x_wing_hfire g r1 r2 v c1 c2 hrow1 hrow2
    have hvfold : (progressFold technique_x_wing_vstep g
        (x_wing_triples (grid_size g))).1 = g := by
      apply progressFold_stay
      intro t ht
      rw [technique_x_wing_vstep_noop g t (hvnone t ht)]
    have hhfold : (progressFold technique_x_wing_hstep
        (progressFold technique_x_wing_vstep g (x_wing_triples (grid_size g))).1
        (x_wing_triples (grid_size g))).1 = (technique_x_wing_hstep g (r1, r2, v)).1 := by
      rw [hvfold]
      apply progressFold_fire_fst technique_x_wing_hstep (r1, r2, v) g
        (technique_x_wing_hstep g (r1, r2, v)).1 rfl
        (x_wing_hfire_hstay g r1 r2 v c1 c2 hvv hrow1 hrow2)
      · intro t ht hne
        exact technique_x_wing_hstep_noop g t (hhothers t ht hne).1
      · intro t ht hne
        exact technique_x_wing_hstep_noop _ t (hhothers t ht hne).2
      · exact hmem
    have hmain : (technique_x_wing g).1 = (technique_x_wing_hstep g (r1, r2, v)).1 := by
      show (progressFold technique_x_wing_hstep
        (progressFold technique_x_wing_vstep g (x_wing_triples (grid_size g))).1
        (x_wing_triples (grid_size g))).1 = _
      exact hhfold
    rw [hmain]
    refine ⟨hClear, ?_, hColsFrame⟩
    intro a b ha hb
    rw [hRowsKeep a b ha]
    rcases ha with h | h <;> rcases hb with h' | h' <;> rw [h, h']
    · exact hp11
    · exact hp12
    · exact hp21
    · exact hp22

theorem technique_x_wing_spec_witness :
    (((technique_x_wing wgC4).1.cells 0 1).hasCandidate 1 = false ∧
     ((technique_x_wing wgC4).1.cells 0 0).hasCandidate 1 = true) ∧
    (((technique_x_wing wgC4h).1.cells 1 0).hasCandidate 1 = false ∧
     ((technique_x_wing wgC4h).1.cells 2 2).hasCandidate 1 = true) := by
  refine ⟨⟨?_, ?_⟩, ?_, ?_⟩
  · exact (((technique_x_wing_spec wgC4).1 0 2 1 0 2 (by decide) (by decide)
      (by decide) (by decide) (by decide)).1 1 (by decide) (by decide) (by decide)).1
  · exact ((technique_x_wing_spec wgC4).1 0 2 1 0 2 (by decide) (by decide)
      (by decide) (by decide) (by decide)).2.1 0 0 (Or.inl rfl) (Or.inl rfl)
  · exact (((technique_x_wing_spec wgC4h).2 0 2 1 0 2 (by decide) (by decide)
      (by decide) (by decide) (by decide)).1 1 (by decide) (by decide) (by decide)).1
  · exact ((technique_x_wing_spec wgC4h).2 0 2 1 0 2 (by decide) (by decide)
      (by decide) (by decide) (by decide)).2.1 2 2 (Or.inr rfl) (Or.inr rfl)

theorem mem_rowMajor {S : Nat} {a b : Nat} :
    (a, b) ∈ rowMajor S ↔ a < S ∧ b < S := by
  unfold rowMajor
  rw [List.pair_mem_product, List.mem_range, List.mem_range]

theorem rowMajor_nodup (S : Nat) : (rowMajor S).Nodup :=
  List.Nodup.product (List.nodup_range S) (List.nodup_range S)

/-- Characterization of the first grid_load loop: it never fails on in-range
data, writes each nonzero stream value into its cell, and an availability
entry is false exactly when some processed position marked it. -/
theorem grid_load_cellsInit_spec (values : List Nat) (N : Nat) :
    ∀ (l : List (Nat × Nat)) (g : tGrid), g.N = N →
      (∀ p ∈ l, values.getD (p.1 * (N * N) + p.2) 0 ≤ N * N) →
      ∃ g', grid_load_cellsInit values g l = some g' ∧
        g'.N = N ∧
        (∀ a b, g'.cells a b =
          if (a, b) ∈ l ∧ values.getD (a * (N * N) + b) 0 ≠ 0 then
            { g.cells a b with value := values.getD (a * (N * N) + b) 0 }
          else g.cells a b) ∧
        (∀ x w, g'.isRowFree x w = false ↔ (g.isRowFree x w = false ∨
          ∃ b, (x, b) ∈ l ∧ values.getD (x * (N * N) + b) 0 = w ∧ w ≠ 0)) ∧
        (∀ y w, g'.isColumnFree y w = false ↔ (g.isColumnFree y w = false ∨
          ∃ a, (a, y) ∈ l ∧ values.getD (a * (N * N) + y) 0 = w ∧ w ≠ 0)) ∧
        (∀ i j w, g'.isBlockFree i j w = false ↔ (g.isBlockFree i j w = false ∨
          ∃ a b, (a, b) ∈ l ∧ a / N = i ∧ b / N = j ∧
            values.getD (a * (N * N) + b) 0 = w ∧ w ≠ 0)) := by
  intro l
  induction l with
  | nil =>
    intro g hN _
    refine ⟨g, rfl, hN, ?_, ?_, ?_, ?_⟩
    · intro a b
      rw [if_neg (fun hcon => List.not_mem_nil _ hcon.1)]
    · intro x w
      constructor
      · exact fun h => Or.inl h
      · intro h
        rcases h with h | ⟨b, hb, -⟩
        · exact h
        · cases List.not_mem_nil _ hb
    · intro y w
      constructor
      · exact fun h => Or.inl h
      · intro h
        rcases h with h | ⟨a, ha, -⟩
        · exact h
        · cases List.not_mem_nil _ ha
    · intro i j w
      constructor
      · exact fun h => Or.inl h
      · intro h
        rcases h with h | ⟨a, b, hab, -⟩
        · exact h
        · cases List.not_mem_nil _ hab
  | cons p l ih =>
    intro g hN hbound
    obtain ⟨pr, pc⟩ := p
    have hS : grid_size g = N * N := by
      unfold grid_size
      rw [hN]
    have hstep : grid_load_cellsInit values g ((pr, pc) :: l) =
        match grid_load_initCell values g (pr, pc) with
        | none => none
        | some g1 => grid_load_cellsInit values g1 l := rfl
    have htail : ∀ q ∈ l, values.getD (q.1 * (N * N) + q.2) 0 ≤ N * N :=
      fun q hq => hbound q (List.mem_cons_of_mem _ hq)
    by_cases h0 : values.getD (pr * (N * N) + pc) 0 = 0
    · have hinit : grid_load_initCell values g (pr, pc) = some g := by
        unfold grid_load_initCell
        dsimp only
        rw [hS]
        rw [if_neg (fun hc => hc h0)]
      obtain ⟨g', hrun, hN', hcells, hrow, hcol, hblk⟩ := ih g hN htail
      refine ⟨g', by rw [hstep, hinit]; exact hrun, hN', ?_, ?_, ?_, ?_⟩
      · intro a b
        rw [hcells a b]
        by_cases hm : (a, b) ∈ l ∧ values.getD (a * (N * N) + b) 0 ≠ 0
        · rw [if_pos hm, if_pos ⟨List.mem_cons_of_mem _ hm.1, hm.2⟩]
        · rw [if_neg hm, if_neg (fun hcon => ?_)]
          rcases List.mem_cons.mp hcon.1 with he | hm2
          · injection he with h1 h2
            subst h1
            subst h2
            exact hcon.2 h0
          · exact hm ⟨hm2, hcon.2⟩
      · intro x w
        rw [hrow x w]
        constructor
        · rintro (h | ⟨b, hb, hv, hw⟩)
          · exact Or.inl h
          · exact Or.inr ⟨b, List.mem_cons_of_mem _ hb, hv, hw⟩
        · rintro (h | ⟨b, hb, hv, hw⟩)
          · exact Or.inl h
          · rcases List.mem_cons.mp hb with he | hm2
            · injection he with h1 h2
              subst h1
              subst h2
              exact absurd (hv.symm.trans h0) hw
            · exact Or.inr ⟨b, hm2, hv, hw⟩
      · intro y w
        rw [hcol y w]
        constructor
        · rintro (h | ⟨a, ha, hv, hw⟩)
          · exact Or.inl h
          · exact Or.inr ⟨a, List.mem_cons_of_mem _ ha, hv, hw⟩
        · rintro (h | ⟨a, ha, hv, hw⟩)
          · exact Or.inl h
          · rcases List.mem_cons.mp ha with he | hm2
            · injection he with h1 h2
              subst h1
              subst h2
              exact absurd (hv.symm.trans h0) hw
            · exact Or.inr ⟨a, hm2, hv, hw⟩
      · intro i j w
        rw [hblk i j w]
        constructor
        · rintro (h | ⟨a, b, hab, hi, hj, hv, hw⟩)
          · exact Or.inl h
          · exact Or.inr ⟨a, b, List.mem_cons_of_mem _ hab, hi, hj, hv, hw⟩
        · rintro (h | ⟨a, b, hab, hi, hj, hv, hw⟩)
          · exact Or.inl h
          · rcases List.mem_cons.mp hab with he | hm2
            · injection he with h1 h2
              subst h1
              subst h2
              exact absurd (hv.symm.trans h0) hw
            · exact Or.inr ⟨a, b, hm2, hi, hj, hv, hw⟩
    · have hle : values.getD (pr * (N * N) + pc) 0 ≤ N * N :=
        hbound (pr, pc) (List.mem_cons_self _ _)
      have hinit : grid_load_initCell values g (pr, pc) = some
          (grid_markValueFree false
            (grid_setCell g pr pc
              { g.cells pr pc with value := values.getD (pr * (N * N) + pc) 0 })
            pr pc (values.getD (pr * (N * N) + pc) 0)) := by
        unfold grid_load_initCell
        dsimp only
        rw [hS]
        rw [if_pos h0, if_neg (by omega)]
      obtain ⟨g', hrun, hN', hcells, hrow, hcol, hblk⟩ := ih
        (grid_markValueFree false
          (grid_setCell g pr pc
            { g.cells pr pc with value := values.getD (pr * (N * N) + pc) 0 })
          pr pc (values.getD (pr * (N * N) + pc) 0)) hN htail
      refine ⟨g', by rw [hstep, hinit]; exact hrun, hN', ?_, ?_, ?_, ?_⟩
      · intro a b
        rw [hcells a b]
        by_cases hab : a = pr ∧ b = pc
        · obtain ⟨ha, hb⟩ := hab
          subst ha
          subst hb
          have hgm : (grid_markValueFree false
              (grid_setCell g a b
                { g.cells a b with value := values.getD (a * (N * N) + b) 0 })
              a b (values.getD (a * (N * N) + b) 0)).cells a b =
              { g.cells a b with value := values.getD (a * (N * N) + b) 0 } := by
            show (if a = a ∧ b = b then _ else g.cells a b) = _
            rw [if_pos ⟨rfl, rfl⟩]
          by_cases hmem : (a, b) ∈ l ∧ values.getD (a * (N * N) + b) 0 ≠ 0
          · rw [if_pos hmem, hgm,
              if_pos ⟨List.mem_cons_self _ _, h0⟩]
          · rw [if_neg hmem, hgm, if_pos ⟨List.mem_cons_self _ _, h0⟩]
        · have hgm : (grid_markValueFree false
              (grid_setCell g pr pc
                { g.cells pr pc with value := values.getD (pr * (N * N) + pc) 0 })
              pr pc (values.getD (pr * (N * N) + pc) 0)).cells a b = g.cells a b := by
            show (if a = pr ∧ b = pc then _ else g.cells a b) = g.cells a b
            rw [if_neg hab]
          rw [hgm]
          by_cases hmem : (a, b) ∈ l ∧ values.getD (a * (N * N) + b) 0 ≠ 0
          · rw [if_pos hmem, if_pos ⟨List.mem_cons_of_mem _ hmem.1, hmem.2⟩]
          · rw [if_neg hmem, if_neg (fun hcon => hmem
              ⟨(List.mem_cons.mp hcon.1).resolve_left
                (fun he => hab (by injection he with h1 h2; exact ⟨h1, h2⟩)),
               hcon.2⟩)]
      · intro x w
        rw [hrow x w]
        have hgm : (grid_markValueFree false
            (grid_setCell g pr pc
              { g.cells pr pc with value := values.getD (pr * (N * N) + pc) 0 })
            pr pc (values.getD (pr * (N * N) + pc) 0)).isRowFree x w =
            if x = pr ∧ w = values.getD (pr * (N * N) + pc) 0 then false
            else g.isRowFree x w := rfl
        rw [hgm]
        constructor
        · rintro (h | ⟨b, hb, hv, hw⟩)
          · by_cases hc : x = pr ∧ w = values.getD (pr * (N * N) + pc) 0
            · refine Or.inr ⟨pc, ?_, ?_, ?_⟩
              · rw [hc.1]
                exact List.mem_cons_self _ _
              · rw [hc.1]
                exact hc.2.symm
              · intro hw0
                exact h0 (hc.2.symm.trans hw0)
            · rw [if_neg hc] at h
              exact Or.inl h
          · exact Or.inr ⟨b, List.mem_cons_of_mem _ hb, hv, hw⟩
        · rintro (h | ⟨b, hb, hv, hw⟩)
          · by_cases hc : x = pr ∧ w = values.getD (pr * (N * N) + pc) 0
            · exact Or.inl (by rw [if_pos hc])
            · exact Or.inl (by rw [if_neg hc]; exact h)
          · rcases List.mem_cons.mp hb with he | hm2
            · obtain ⟨h1, h2⟩ : x = pr ∧ b = pc := by
                injection he with h1 h2
                exact ⟨h1, h2⟩
              refine Or.inl ?_
              rw [if_pos ⟨h1, by rw [← hv, h1, h2]⟩]
            · exact Or.inr ⟨b, hm2, hv, hw⟩
      · intro y w
        rw [hcol y w]
        have hgm : (grid_markValueFree false
            (grid_setCell g pr pc
              { g.cells pr pc with value := values.getD (pr * (N * N) + pc) 0 })
            pr pc (values.getD (pr * (N * N) + pc) 0)).isColumnFree y w =
            if y = pc ∧ w = values.getD (pr * (N * N) + pc) 0 then false
            else g.isColumnFree y w := rfl
        rw [hgm]
        constructor
        · rintro (h | ⟨a, ha, hv, hw⟩)
          · by_cases hc : y = pc ∧ w = values.getD (pr * (N * N) + pc) 0
            · refine Or.inr ⟨pr, ?_, ?_, ?_⟩
              · rw [hc.1]
                exact List.mem_cons_self _ _
              · rw [hc.1]
                exact hc.2.symm
              · intro hw0
                exact h0 (hc.2.symm.trans hw0)
            · rw [if_neg hc] at h
              exact Or.inl h
          · exact Or.inr ⟨a, List.mem_cons_of_mem _ ha, hv, hw⟩
        · rintro (h | ⟨a, ha, hv, hw⟩)
          · by_cases hc : y = pc ∧ w = values.getD (pr * (N * N) + pc) 0
            · exact Or.inl (by rw [if_pos hc])
            · exact Or.inl (by rw [if_neg hc]; exact h)
          · rcases List.mem_cons.mp ha with he | hm2
            · obtain ⟨h1, h2⟩ : a = pr ∧ y = pc := by
                injection he with h1 h2
                exact ⟨h1, h2⟩
              refine Or.inl ?_
              rw [if_pos ⟨h2, by rw [← hv, h1, h2]⟩]
            · exact Or.inr ⟨a, hm2, hv, hw⟩
      · intro i j w
        rw [hblk i j w]
        have hgm : (grid_markValueFree false
            (grid_setCell g pr pc
              { g.cells pr pc with value := values.getD (pr * (N * N) + pc) 0 })
            pr pc (values.getD (pr * (N * N) + pc) 0)).isBlockFree i j w =
            if i = pr / N ∧ j = pc / N ∧ w = values.getD (pr * (N * N) + pc) 0 then false
            else g.isBlockFree i j w := by
          show (if i = pr / g.N ∧ j = pc / g.N ∧
              w = values.getD (pr * (N * N) + pc) 0 then false
            else g.isBlockFree i j w) = _
          rw [hN]
        rw [hgm]
        constructor
        · rintro (h | ⟨a, b, hab, hi, hj, hv, hw⟩)
          · by_cases hc : i = pr / N ∧ j = pc / N ∧
                w = values.getD (pr * (N * N) + pc) 0
            · refine Or.inr ⟨pr, pc, List.mem_cons_self _ _, hc.1.symm, hc.2.1.symm,
                hc.2.2.symm, ?_⟩
              intro hw0
              exact h0 (hc.2.2.symm.trans hw0)
            · rw [if_neg hc] at h
              exact Or.inl h
          · exact Or.inr ⟨a, b, List.mem_cons_of_mem _ hab, hi, hj, hv, hw⟩
        · rintro (h | ⟨a, b, hab, hi, hj, hv, hw⟩)
          · by_cases hc : i = pr / N ∧ j = pc / N ∧
                w = values.getD (pr * (N * N) + pc) 0
            · exact Or.inl (by rw [if_pos hc])
            · exact Or.inl (by rw [if_neg hc]; exact h)
          · rcases List.mem_cons.mp hab with he | hm2
            · obtain ⟨h1, h2⟩ : a = pr ∧ b = pc := by
                injection he with h1 h2
                exact ⟨h1, h2⟩
              refine Or.inl ?_
              rw [if_pos ⟨by rw [← hi, h1], by rw [← hj, h2],
                by rw [← hv, h1, h2]⟩]
            · exact Or.inr ⟨a, b, hm2, hi, hj, hv, hw⟩

theorem grid_load_computeCandidates_N (g : tGrid) (pr pc : Nat) :
    (grid_load_computeCandidates g (pr, pc)).N = g.N := by
  unfold grid_load_computeCandidates
  dsimp only
  by_cases hc : cell_hasValue (g.cells pr pc) = true
  · rw [if_pos hc]
  · rw [if_neg hc]
    rfl

theorem grid_load_computeCandidates_rowFree (g : tGrid) (pr pc : Nat) :
    (grid_load_computeCandidates g (pr, pc)).isRowFree = g.isRowFree := by
  unfold grid_load_computeCandidates
  dsimp only
  by_cases hc : cell_hasValue (g.cells pr pc) = true
  · rw [if_pos hc]
  · rw [if_neg hc]
    rfl

theorem grid_load_computeCandidates_columnFree (g : tGrid) (pr pc : Nat) :
    (grid_load_computeCandidates g (pr, pc)).isColumnFree = g.isColumnFree := by
  unfold grid_load_computeCandidates
  dsimp only
  by_cases hc : cell_hasValue (g.cells pr pc) = true
  · rw [if_pos hc]
  · rw [if_neg hc]
    rfl

theorem grid_load_computeCandidates_blockFree (g : tGrid) (pr pc : Nat) :
    (grid_load_computeCandidates g (pr, pc)).isBlockFree = g.isBlockFree := by
  unfold grid_load_computeCandidates
  dsimp only
  by_cases hc : cell_hasValue (g.cells pr pc) = true
  · rw [if_pos hc]
  · rw [if_neg hc]
    rfl

theorem grid_load_computeCandidates_cells (g : tGrid) (pr pc a b : Nat)
    (hne : ¬(a = pr ∧ b = pc)) :
    (grid_load_computeCandidates g (pr, pc)).cells a b = g.cells a b := by
  unfold grid_load_computeCandidates
  dsimp only
  by_cases hc : cell_hasValue (g.cells pr pc) = true
  · rw [if_pos hc]
  · rw [if_neg hc]
    show (if a = pr ∧ b = pc then _ else g.cells a b) = g.cells a b
    rw [if_neg hne]

theorem grid_load_computeCandidates_self (g : tGrid) (pr pc : Nat) :
    (grid_load_computeCandidates g (pr, pc)).cells pr pc =
      if (g.cells pr pc).value = 0 then
        { g.cells pr pc with
          hasCandidate := fun v =>
            if 1 ≤ v ∧ v ≤ grid_size g then grid_possible g pr pc v
            else (g.cells pr pc).hasCandidate v
          candidateCount := (g.cells pr pc).candidateCount +
            grid_cellPossibleValuesCount g pr pc }
      else g.cells pr pc := by
  unfold grid_load_computeCandidates
  dsimp only
  by_cases hc : (g.cells pr pc).value = 0
  · have hcv : cell_hasValue (g.cells pr pc) = false := by
      unfold cell_hasValue
      rw [hc]
      rfl
    have hnot : ¬(cell_hasValue (g.cells pr pc) = true) := by
      rw [hcv]
      exact Bool.false_ne_true
    rw [if_neg hnot, if_pos hc]
    show (if pr = pr ∧ pc = pc then _ else g.cells pr pc) = _
    rw [if_pos ⟨rfl, rfl⟩]
  · have hcv : cell_hasValue (g.cells pr pc) = true := by
      unfold cell_hasValue
      exact bne_iff_ne.mpr hc
    rw [if_pos hcv, if_neg hc]

theorem grid_load_computeCandidates_possible (g : tGrid) (pr pc a b v : Nat) :
    grid_possible (grid_load_computeCandidates g (pr, pc)) a b v =
      grid_possible g a b v := by
  unfold grid_possible
  rw [grid_load_computeCandidates_rowFree, grid_load_computeCandidates_columnFree,
    grid_load_computeCandidates_blockFree, grid_load_computeCandidates_N]

theorem grid_load_computeCandidates_pcount (g : tGrid) (pr pc a b : Nat) :
    grid_cellPossibleValuesCount (grid_load_computeCandidates g (pr, pc)) a b =
      grid_cellPossibleValuesCount g a b := by
  unfold grid_cellPossibleValuesCount
  have hsz : grid_size (grid_load_computeCandidates g (pr, pc)) = grid_size g := by
    unfold grid_size
    rw [grid_load_computeCandidates_N]
  rw [hsz]
  apply List.countP_congr
  intro v hv
  rw [grid_load_computeCandidates_possible g pr pc a b v]

/-- Characterization of the second grid_load loop: the tables are untouched
and every processed empty cell gets exactly the possible values as
candidates, with the count bumped by their number. -/
theorem grid_load_candidatesPass_spec (N : Nat) :
    ∀ (l : List (Nat × Nat)) (g : tGrid), g.N = N → l.Nodup →
      (l.foldl grid_load_computeCandidates g).N = N ∧
      (∀ x w, (l.foldl grid_load_computeCandidates g).isRowFree x w =
        g.isRowFree x w) ∧
      (∀ y w, (l.foldl grid_load_computeCandidates g).isColumnFree y w =
        g.isColumnFree y w) ∧
      (∀ i j w, (l.foldl grid_load_computeCandidates g).isBlockFree i j w =
        g.isBlockFree i j w) ∧
      (∀ a b, (l.foldl grid_load_computeCandidates g).cells a b =
        if (a, b) ∈ l ∧ (g.cells a b).value = 0 then
          { g.cells a b with
            hasCandidate := fun v =>
              if 1 ≤ v ∧ v ≤ N * N then grid_possible g a b v
              else (g.cells a b).hasCandidate v
            candidateCount := (g.cells a b).candidateCount +
              grid_cellPossibleValuesCount g a b }
        else g.cells a b) := by
  intro l
  induction l with
  | nil =>
    intro g hN _
    refine ⟨hN, fun _ _ => rfl, fun _ _ => rfl, fun _ _ _ => rfl, ?_⟩
    intro a b
    rw [if_neg (fun hcon => List.not_mem_nil _ hcon.1)]
    rfl
  | cons p l ih =>
    intro g hN hnd
    obtain ⟨pr, pc⟩ := p
    obtain ⟨hp, htl⟩ := List.nodup_cons.mp hnd
    have hS : grid_size g = N * N := by
      unfold grid_size
      rw [hN]
    have hN1 : (grid_load_computeCandidates g (pr, pc)).N = N := by
      rw [grid_load_computeCandidates_N]
      exact hN
    obtain ⟨iN, iRow, iCol, iBlk, iCells⟩ :=
      ih (grid_load_computeCandidates g (pr, pc)) hN1 htl
    rw [List.foldl_cons]
    refine ⟨iN, ?_, ?_, ?_, ?_⟩
    · intro x w
      rw [iRow x w, grid_load_computeCandidates_rowFree]
    · intro y w
      rw [iCol y w, grid_load_computeCandidates_columnFree]
    · intro i j w
      rw [iBlk i j w, grid_load_computeCandidates_blockFree]
    · intro a b
      rw [iCells a b]
      by_cases hab : a = pr ∧ b = pc
      · obtain ⟨h1, h2⟩ := hab
        subst h1
        subst h2
        have hmemnot : (a, b) ∉ l := hp
        rw [if_neg (fun hcon => hmemnot hcon.1)]
        rw [grid_load_computeCandidates_self g a b]
        by_cases hval : (g.cells a b).value = 0
        · rw [if_pos hval, if_pos ⟨List.mem_cons_self _ _, hval⟩, hS]
        · rw [if_neg hval, if_neg (fun hcon => hval hcon.2)]
      · have hcells := grid_load_computeCandidates_cells g pr pc a b hab
        rw [hcells]
        have hpossf : grid_possible (grid_load_computeCandidates g (pr, pc)) a b =
            grid_possible g a b :=
          funext (fun v => grid_load_computeCandidates_possible g pr pc a b v)
        rw [hpossf, grid_load_computeCandidates_pcount]
        by_cases hmem : (a, b) ∈ l ∧ (g.cells a b).value = 0
        · rw [if_pos hmem, if_pos ⟨List.mem_cons_of_mem _ hmem.1, hmem.2⟩]
        · rw [if_neg hmem, if_neg (fun hcon => hmem
            ⟨(List.mem_cons.mp hcon.1).resolve_left
              (fun he => hab (by injection he with e1 e2; exact ⟨e1, e2⟩)),
             hcon.2⟩)]

/-- C10: grid_load postcondition. On a stream of exactly S*S values each at
most S, grid_load succeeds and returns a fully synchronized grid: an
availability entry is false iff some cell of the group holds that value,
valued cells have no candidates and count 0, and every empty cell's candidates
are exactly the grid_possible values with the count matching. -/
theorem grid_load_postcondition (N : Nat) (values : List Nat)
    (hlen : values.length = N * N * (N * N))
    (hbound : ∀ v ∈ values, v ≤ N * N) :
    ∃ G, grid_load N values = some G ∧ G.N = N ∧
      (∀ r c, r < N * N → c < N * N →
        (G.cells r c).value = values.getD (r * (N * N) + c) 0) ∧
      (∀ x w, 1 ≤ w →
        (G.isRowFree x w = false ↔ ∃ c, c < N * N ∧ (G.cells x c).value = w)) ∧
      (∀ y w, 1 ≤ w →
        (G.isColumnFree y w = false ↔ ∃ r, r < N * N ∧ (G.cells r y).value = w)) ∧
      (∀ i j w, 1 ≤ w →
        (G.isBlockFree i j w = false ↔ ∃ r c, r < N * N ∧ c < N * N ∧
          r / N = i ∧ c / N = j ∧ (G.cells r c).value = w)) ∧
      (∀ r c, r < N * N → c < N * N → (G.cells r c).value ≠ 0 →
        (∀ v, (G.cells r c).hasCandidate v = false) ∧
        (G.cells r c).candidateCount = 0) ∧
      (∀ r c, r < N * N → c < N * N → (G.cells r c).value = 0 →
        (∀ v, 1 ≤ v → v ≤ N * N →
          (G.cells r c).hasCandidate v = grid_possible G r c v) ∧
        (∀ v, (G.cells r c).hasCandidate v = true → 1 ≤ v ∧ v ≤ N * N) ∧
        (G.cells r c).candidateCount = grid_cellPossibleValuesCount G r c) := by
  have hgb : ∀ p ∈ rowMajor (N * N),
      values.getD (p.1 * (N * N) + p.2) 0 ≤ N * N := by
    intro p hp
    obtain ⟨pr, pc⟩ := p
    obtain ⟨hr, hc⟩ := mem_rowMajor.mp hp
    have hidx : pr * (N * N) + pc < values.length := by
      rw [hlen]
      calc pr * (N * N) + pc < (pr + 1) * (N * N) := by
            rw [Nat.succ_mul]
            omega
        _ ≤ (N * N) * (N * N) := Nat.mul_le_mul_right _ hr
    rw [List.getD_eq_getElem values 0 hidx]
    exact hbound _ (List.getElem_mem hidx)
  obtain ⟨g1, hrun, hN1, hcells1, hrow1, hcol1, hblk1⟩ :=
    grid_load_cellsInit_spec values N (rowMajor (N * N)) (grid_load_base N) rfl hgb
  obtain ⟨hN2, hRow2, hCol2, hBlk2, hCells2⟩ :=
    grid_load_candidatesPass_spec N (rowMajor (N * N)) g1 hN1 (rowMajor_nodup _)
  have hg1cells : ∀ a b, g1.cells a b =
      if (a, b) ∈ rowMajor (N * N) ∧ values.getD (a * (N * N) + b) 0 ≠ 0 then
        { value := values.getD (a * (N * N) + b) 0, hasCandidate := fun _ => false,
          candidateCount := 0 }
      else { value := 0, hasCandidate := fun _ => false, candidateCount := 0 } := by
    intro a b
    rw [hcells1 a b]
    by_cases hm : (a, b) ∈ rowMajor (N * N) ∧ values.getD (a * (N * N) + b) 0 ≠ 0
    · simp only [if_pos hm]
      rfl
    · simp only [if_neg hm]
      rfl
  have hload : grid_load N values =
      some ((rowMajor (N * N)).foldl grid_load_computeCandidates g1) := by
    unfold grid_load
    rw [if_neg (fun hcon => hcon hlen)]
    rw [hrun]
  have hvalue : ∀ r c, r < N * N → c < N * N →
      (((rowMajor (N * N)).foldl grid_load_computeCandidates g1).cells r c).value =
        values.getD (r * (N * N) + c) 0 := by
    intro r c hr hc
    have hmem : (r, c) ∈ rowMajor (N * N) := mem_rowMajor.mpr ⟨hr, hc⟩
    rw [hCells2 r c]
    by_cases h0 : values.getD (r * (N * N) + c) 0 = 0
    · have hg1 : g1.cells r c =
          { value := 0, hasCandidate := fun _ => false, candidateCount := 0 } := by
        rw [hg1cells r c, if_neg (fun hcon => hcon.2 h0)]
      rw [if_pos ⟨hmem, by rw [hg1]⟩]
      show (g1.cells r c).value = values.getD (r * (N * N) + c) 0
      rw [hg1, h0]
    · have hg1 : g1.cells r c =
          { value := values.getD (r * (N * N) + c) 0, hasCandidate := fun _ => false,
            candidateCount := 0 } := by
        rw [hg1cells r c, if_pos ⟨hmem, h0⟩]
      rw [if_neg (fun hcon => h0 (by rw [hg1] at hcon; exact hcon.2))]
      rw [hg1]
  have hout : ∀ r c, ¬((r, c) ∈ rowMajor (N * N)) →
      (((rowMajor (N * N)).foldl grid_load_computeCandidates g1).cells r c).value
        = 0 := by
    intro r c hnm
    rw [hCells2 r c, if_neg (fun hcon => hnm hcon.1)]
    rw [hg1cells r c, if_neg (fun hcon => hnm hcon.1)]
  refine ⟨(rowMajor (N * N)).foldl grid_load_computeCandidates g1,
    hload, hN2, hvalue, ?_, ?_, ?_, ?_, ?_⟩
  · intro x w hw
    rw [hRow2 x w, hrow1 x w]
    constructor
    · intro h
      rcases h with h | ⟨b, hb, hv, hw0⟩
      · exact Bool.noConfusion h
      · obtain ⟨hxS, hbS⟩ := mem_rowMajor.mp hb
        refine ⟨b, hbS, ?_⟩
        rw [hvalue x b hxS hbS]
        exact hv
    · rintro ⟨c, hcS, hv⟩
      by_cases hxS : x < N * N
      · refine Or.inr ⟨c, mem_rowMajor.mpr ⟨hxS, hcS⟩, ?_, by omega⟩
        rw [← hvalue x c hxS hcS]
        exact hv
      · exfalso
        have hz := hout x c (fun hm => hxS (mem_rowMajor.mp hm).1)
        omega
  · intro y w hw
    rw [hCol2 y w, hcol1 y w]
    constructor
    · intro h
      rcases h with h | ⟨a, ha, hv, hw0⟩
      · exact Bool.noConfusion h
      · obtain ⟨haS, hyS⟩ := mem_rowMajor.mp ha
        refine ⟨a, haS, ?_⟩
        rw [hvalue a y haS hyS]
        exact hv
    · rintro ⟨r, hrS, hv⟩
      by_cases hyS : y < N * N
      · refine Or.inr ⟨r, mem_rowMajor.mpr ⟨hrS, hyS⟩, ?_, by omega⟩
        rw [← hvalue r y hrS hyS]
        exact hv
      · exfalso
        have hz := hout r y (fun hm => hyS (mem_rowMajor.mp hm).2)
        omega
  · intro i j w hw
    rw [hBlk2 i j w, hblk1 i j w]
    constructor
    · intro h
      rcases h with h | ⟨a, b, hab, hi, hj, hv, hw0⟩
      · exact Bool.noConfusion h
      · obtain ⟨haS, hbS⟩ := mem_rowMajor.mp hab
        refine ⟨a, b, haS, hbS, hi, hj, ?_⟩
        rw [hvalue a b haS hbS]
        exact hv
    · rintro ⟨r, c, hrS, hcS, hi, hj, hv⟩
      refine Or.inr ⟨r, c, mem_rowMajor.mpr ⟨hrS, hcS⟩, hi, hj, ?_, by omega⟩
      rw [← hvalue r c hrS hcS]
      exact hv
  · intro r c hr hc hval0
    have hmem : (r, c) ∈ rowMajor (N * N) := mem_rowMajor.mpr ⟨hr, hc⟩
    have hv0 : values.getD (r * (N * N) + c) 0 ≠ 0 := by
      intro h0
      apply hval0
      rw [hvalue r c hr hc, h0]
    have hg1 : g1.cells r c =
        { value := values.getD (r * (N * N) + c) 0, hasCandidate := fun _ => false,
          candidateCount := 0 } := by
      rw [hg1cells r c, if_pos ⟨hmem, hv0⟩]
    have hGc : ((rowMajor (N * N)).foldl grid_load_computeCandidates g1).cells r c
        = g1.cells r c := by
      rw [hCells2 r c,
        if_neg (fun hcon => hv0 (by rw [hg1] at hcon; exact hcon.2))]
    constructor
    · intro v
      rw [hGc, hg1]
    · rw [hGc, hg1]
  · intro r c hr hc hval0
    have hmem : (r, c) ∈ rowMajor (N * N) := mem_rowMajor.mpr ⟨hr, hc⟩
    have hv0 : values.getD (r * (N * N) + c) 0 = 0 := by
      rw [← hvalue r c hr hc]
      exact hval0
    have hg1 : g1.cells r c =
        { value := 0, hasCandidate := fun _ => false, candidateCount := 0 } := by
      rw [hg1cells r c, if_neg (fun hcon => hcon.2 hv0)]
    have hGc : ((rowMajor (N * N)).foldl grid_load_computeCandidates g1).cells r c =
        { g1.cells r c with
          hasCandidate := fun v =>
            if 1 ≤ v ∧ v ≤ N * N then grid_possible g1 r c v
            else (g1.cells r c).hasCandidate v
          candidateCount := (g1.cells r c).candidateCount +
            grid_cellPossibleValuesCount g1 r c } := by
      rw [hCells2 r c, if_pos ⟨hmem, by rw [hg1]⟩]
    have hpossG : ∀ v,
        grid_possible ((rowMajor (N * N)).foldl grid_load_computeCandidates g1) r c v
          = grid_possible g1 r c v := by
      intro v
      unfold grid_possible
      rw [hRow2, hCol2, hBlk2, hN2, hN1]
    refine ⟨?_, ?_, ?_⟩
    · intro v h1 h2
      rw [hGc]
      show (if 1 ≤ v ∧ v ≤ N * N then grid_possible g1 r c v
        else (g1.cells r c).hasCandidate v) = _
      rw [if_pos ⟨h1, h2⟩, hpossG v]
    · intro v hvv
      by_contra hcon
      rw [hGc] at hvv
      have hvv2 : (if 1 ≤ v ∧ v ≤ N * N then grid_possible g1 r c v
          else (g1.cells r c).hasCandidate v) = true := hvv
      rw [if_neg hcon] at hvv2
      have hfalse : (false : Bool) = true := by
        rw [hg1] at hvv2
        exact hvv2
      exact Bool.noConfusion hfalse
    · rw [hGc]
      have hcnt : grid_cellPossibleValuesCount
          ((rowMajor (N * N)).foldl grid_load_computeCandidates g1) r c =
          grid_cellPossibleValuesCount g1 r c := by
        unfold grid_cellPossibleValuesCount
        have hszG : grid_size ((rowMajor (N * N)).foldl grid_load_computeCandidates g1)
            = grid_size g1 := by
          unfold grid_size
          rw [hN2, hN1]
        rw [hszG]
        apply List.countP_congr
        intro v hv
        rw [hpossG v]
      rw [hcnt]
      show (g1.cells r c).candidateCount + grid_cellPossibleValuesCount g1 r c = _
      rw [hg1]
      exact Nat.zero_add _

theorem grid_load_postcondition_witness :
    ∃ G, grid_load 1 [1] = some G ∧ G.isRowFree 0 1 = false := by
  obtain ⟨G, hG, hN, hval, hrow, hcol, hblk, hfull, hempty⟩ :=
    grid_load_postcondition 1 [1] (by decide) (by decide)
  refine ⟨G, hG, ?_⟩
  refine (hrow 0 1 (by decide)).mpr ⟨0, by decide, ?_⟩
  rw [hval 0 0 (by decide) (by decide)]
  rfl
